import Mathlib

/-!
# Daily-duty organiser (`script.js`): a shallow embedding

The program is a browser page with four record collections (tasks, notes,
transactions, traders), each kept in memory by `AppState`, written to
`localStorage` as JSON after every mutation and read back by the constructor.

Conventions of the embedding

* JavaScript strings are Lean strings (sequences of code points, so without lone
  surrogates); `.length` counts UTF-16 code units (`jsLength`) and `.trim()`
  strips the ECMAScript white space and line terminator characters (`jsTrim`).
* JavaScript numbers are `JSNum`: `NaN`, the two infinities, or a finite value
  carried as an exact rational (every finite double is one).  Only comparisons
  are performed on them, and those are exact on doubles.  Record ids, readings
  of `Date.now()`, are natural numbers.
* Built-ins whose result the page merely consumes (`parseFloat`, `Date.parse`,
  `JSON.stringify`, `JSON.parse`) are fields of a `Platform`; every theorem
  quantifies over the platform.  `Reference.platform` is an executable one, on
  which the examples are run.
* What an operation reads from its environment is an explicit argument: the
  value of each form field, the reading of `Date.now()`, the text of
  `new Date().toISOString()`, and whether `localStorage.setItem` succeeds
  (`writeOk`; it throws when the quota is exceeded).
* `try { ... } catch` is a `match` on the `Except`-valued body of the `try`.
* Writes to the page (render, toast, focus, validity marks, modals, console)
  are appended to the `view` log of the `World`; the markup they produce is not
  modelled.
* The handler that an `edit...(id)` call installs on the save button is the
  function `saveEdit` of the manager, with the `id` of the closure as argument;
  a delete takes the answer of the confirmation modal as the flag `confirmed`.
-/

namespace DailyDuty

/-! ## JavaScript primitives -/

/-- A JavaScript number: `NaN`, `-Infinity`, a finite value, or `Infinity`. -/
inductive JSNum where
  | nan
  | negInf
  | fin (q : ℚ)
  | posInf
  deriving DecidableEq, Repr

namespace JSNum

/-- The global `isNaN` on a number. -/
def isNaN : JSNum → Bool
  | nan => true
  | _ => false

/-- The relational operator `a < b`; false whenever an operand is `NaN`. -/
def lt : JSNum → JSNum → Bool
  | nan, _ => false
  | _, nan => false
  | _, negInf => false
  | negInf, _ => true
  | posInf, _ => false
  | fin _, posInf => true
  | fin a, fin b => decide (a < b)

/-- The relational operator `a > b`, which ECMAScript evaluates as `b < a`. -/
def gt (a b : JSNum) : Bool := lt b a

/-- The relational operator `a >= b`: neither operand is `NaN` and not `a < b`. -/
def ge (a b : JSNum) : Bool := !a.isNaN && !b.isNaN && !lt a b

/-- Number truthiness: every number except `NaN` and zero. -/
def truthy : JSNum → Bool
  | nan => false
  | fin q => decide (q ≠ 0)
  | _ => true

/-- The number with the given natural value. -/
def ofNat (n : Nat) : JSNum := fin (n : ℚ)

end JSNum

/-- The characters `String.prototype.trim` strips: ECMAScript `WhiteSpace`
(TAB, VT, FF, SP, NBSP, ZWNBSP and the Unicode space separators) and
`LineTerminator` (LF, CR, LS, PS). -/
def isJSWhitespace (c : Char) : Bool :=
  let n := c.toNat
  n == 0x09 || n == 0x0A || n == 0x0B || n == 0x0C || n == 0x0D || n == 0x20 ||
  n == 0xA0 || n == 0x1680 || (0x2000 ≤ n && n ≤ 0x200A) || n == 0x2028 ||
  n == 0x2029 || n == 0x202F || n == 0x205F || n == 0x3000 || n == 0xFEFF

/-- Strip white space from both ends of a list of characters. -/
def trimChars (cs : List Char) : List Char :=
  ((cs.dropWhile isJSWhitespace).reverse.dropWhile isJSWhitespace).reverse

/-- The method `String.prototype.trim`. -/
def jsTrim (s : String) : String := String.mk (trimChars s.toList)

/-- UTF-16 code units of one character: two outside the basic plane. -/
def utf16Units (c : Char) : Nat := if c.toNat < 0x10000 then 1 else 2

/-- The property `.length` of a string: its number of UTF-16 code units. -/
def jsLength (s : String) : Nat := (s.toList.map utf16Units).sum

/-- String truthiness: every string except the empty one. -/
def strTruthy (s : String) : Bool := !(s == "")

/-- A JavaScript value as `JSON.parse` can return it. -/
inductive JSValue where
  | null
  | bool (b : Bool)
  | num (x : JSNum)
  | str (s : String)
  | arr (items : List JSValue)
  | obj (fields : List (String × JSValue))

namespace JSValue

/-- The abstract operation `ToBoolean`. -/
def truthy : JSValue → Bool
  | null => false
  | bool b => b
  | num x => x.truthy
  | str s => strTruthy s
  | arr _ => true
  | obj _ => true

/-- The operator `a || b`. -/
def or (a b : JSValue) : JSValue := if a.truthy then a else b

/-- Whether the value is an array. -/
def isArray : JSValue → Bool
  | arr _ => true
  | _ => false

end JSValue

/-- A thrown JavaScript error, by the name of its class. -/
structure JSError where
  name : String
  deriving DecidableEq, Repr

/-- The built-ins the page calls and whose result it only consumes. -/
structure Platform where
  /-- The global `parseFloat`. -/
  parseFloat : String → JSNum
  /-- The function `Date.parse`: a time value, or `NaN`. -/
  dateParse : String → JSNum
  /-- The function `JSON.stringify`; it can throw. -/
  jsonStringify : JSValue → Except JSError String
  /-- The function `JSON.parse`; it throws a `SyntaxError` on malformed text. -/
  jsonParse : String → Except JSError JSValue

/-! ## `localStorage` -/

/-- The content of `localStorage`: the stored keys with their strings. -/
structure LocalStorage where
  items : List (String × String)
  deriving DecidableEq, Repr

namespace LocalStorage

/-- Replace the string under `key`, or add the key at the end. -/
def put : List (String × String) → String → String → List (String × String)
  | [], key, value => [(key, value)]
  | (k, v) :: rest, key, value =>
    if k = key then (key, value) :: rest else (k, v) :: put rest key value

/-- Look a key up. -/
def find : List (String × String) → String → Option String
  | [], _ => none
  | (k, v) :: rest, key => if k = key then some v else find rest key

/-- The method `localStorage.getItem`: the stored string, or `null` (`none`). -/
def getItem (ls : LocalStorage) (key : String) : Option String := find ls.items key

/-- The method `localStorage.setItem`: it stores the string, or throws
`QuotaExceededError` when the store does not accept the write. -/
def setItem (ls : LocalStorage) (key value : String) (writeOk : Bool) :
    Except JSError LocalStorage :=
  if writeOk then .ok ⟨put ls.items key value⟩ else .error ⟨"QuotaExceededError"⟩

end LocalStorage

/-! ## The data model -/

/-- A task: `{ id, text, completed, createdAt }`. -/
structure Task where
  id : Nat
  text : String
  completed : Bool
  createdAt : String
  deriving DecidableEq, Repr

/-- A note: `{ id, text, createdAt }`. -/
structure Note where
  id : Nat
  text : String
  createdAt : String
  deriving DecidableEq, Repr

/-- A transaction:
`{ id, date, operation, pay, receive, call, contact, other, createdAt }`. -/
structure Transaction where
  id : Nat
  date : String
  operation : String
  pay : JSNum
  receive : JSNum
  call : String
  contact : String
  other : String
  createdAt : String
  deriving DecidableEq, Repr

/-- A trader: `{ id, name, amount, createdAt }`. -/
structure Trader where
  id : Nat
  name : String
  amount : JSNum
  createdAt : String
  deriving DecidableEq, Repr

/-- The task as the object literal of `addTask`, properties in source order. -/
def Task.toJS (t : Task) : JSValue :=
  .obj [("id", .num (.ofNat t.id)), ("text", .str t.text),
        ("completed", .bool t.completed), ("createdAt", .str t.createdAt)]

/-- The note as the object literal of `addNote`. -/
def Note.toJS (n : Note) : JSValue :=
  .obj [("id", .num (.ofNat n.id)), ("text", .str n.text), ("createdAt", .str n.createdAt)]

/-- The transaction as the object literal of `addTransaction`. -/
def Transaction.toJS (t : Transaction) : JSValue :=
  .obj [("id", .num (.ofNat t.id)), ("date", .str t.date), ("operation", .str t.operation),
        ("pay", .num t.pay), ("receive", .num t.receive), ("call", .str t.call),
        ("contact", .str t.contact), ("other", .str t.other), ("createdAt", .str t.createdAt)]

/-- The trader as the object literal of `addTrader`. -/
def Trader.toJS (t : Trader) : JSValue :=
  .obj [("id", .num (.ofNat t.id)), ("name", .str t.name), ("amount", .num t.amount),
        ("createdAt", .str t.createdAt)]

/-- The four in-memory collections of `AppState`. -/
structure AppState where
  tasks : List Task
  notes : List Note
  transactions : List Transaction
  traders : List Trader
  deriving DecidableEq, Repr

/-- The collections as the arrays handed to `JSON.stringify`. -/
def AppState.tasksJS (a : AppState) : JSValue := .arr (a.tasks.map Task.toJS)

/-- The notes as an array. -/
def AppState.notesJS (a : AppState) : JSValue := .arr (a.notes.map Note.toJS)

/-- The transactions as an array. -/
def AppState.transactionsJS (a : AppState) : JSValue :=
  .arr (a.transactions.map Transaction.toJS)

/-- The traders as an array. -/
def AppState.tradersJS (a : AppState) : JSValue := .arr (a.traders.map Trader.toJS)

/-! ## The page -/

/-- A write to the page or the console. -/
inductive Effect where
  /-- The call `el.classList.remove('is-invalid')`. -/
  | clearInvalid (el : String)
  /-- The call `el.classList.add('is-invalid')`. -/
  | markInvalid (el : String)
  /-- The call `el.focus()`. -/
  | focus (el : String)
  /-- A `renderTasks` / `renderNotes` / `renderTransactions` / `renderTraders`
  call, by the element it rewrites. -/
  | render (el : String)
  /-- The assignment `el.value = ''`. -/
  | clearValue (el : String)
  /-- The call `showToast(message, type)`. -/
  | toast (message type : String)
  /-- The call `console.error` of a storage failure on the key. -/
  | consoleError (key : String)
  /-- The call `console.log('WhatsApp notification:', message)`. -/
  | whatsApp (message : String)
  /-- The reminder banner is filled with the count and shown. -/
  | showReminder (count : Nat)
  /-- The reminder banner is hidden. -/
  | hideReminder
  /-- A modal is filled for the record and shown. -/
  | showModal (el : String)
  /-- A modal is hidden. -/
  | hideModal (el : String)
  deriving DecidableEq, Repr

/-- The state of the page: the collections, `localStorage`, and the log of
writes to the page. -/
structure World where
  app : AppState
  localStorage : LocalStorage
  view : List Effect
  deriving DecidableEq, Repr

/-- Append writes to the page log. -/
def World.emit (w : World) (es : List Effect) : World := { w with view := w.view ++ es }

/-- The toast text of a failed save. -/
def saveErrorToast : String := "خطأ في حفظ البيانات. قد تكون مساحة التخزين ممتلئة."

/-- The body of the `try` in `loadFromStorage`:
`const data = localStorage.getItem(key); return data ? JSON.parse(data) : null`. -/
def AppState.loadFromStorage.tryBody (P : Platform) (ls : LocalStorage) (key : String) :
    Except JSError JSValue :=
  match ls.getItem key with
  | none => .ok .null
  | some data => if strTruthy data then P.jsonParse data else .ok .null

/-- The method `AppState.loadFromStorage`: the `catch` returns `null`. -/
def AppState.loadFromStorage (P : Platform) (ls : LocalStorage) (key : String) : JSValue :=
  match AppState.loadFromStorage.tryBody P ls key with
  | .ok v => v
  | .error _ => .null

/-- One line of the constructor: `this.loadFromStorage(key) || []`. -/
def AppState.loadCollection (P : Platform) (ls : LocalStorage) (key : String) : JSValue :=
  (AppState.loadFromStorage P ls key).or (.arr [])

/-- What the constructor assigns to the four fields. -/
structure LoadedState where
  tasks : JSValue
  notes : JSValue
  transactions : JSValue
  traders : JSValue

/-- The constructor of `AppState`. -/
def AppState.construct (P : Platform) (ls : LocalStorage) : LoadedState :=
  { tasks := AppState.loadCollection P ls "tasks"
    notes := AppState.loadCollection P ls "notes"
    transactions := AppState.loadCollection P ls "transactions"
    traders := AppState.loadCollection P ls "traders" }

/-- The body of the `try` in `saveToStorage`:
`localStorage.setItem(key, JSON.stringify(data))`. -/
def AppState.saveToStorage.tryBody (P : Platform) (ls : LocalStorage) (key : String)
    (data : JSValue) (writeOk : Bool) : Except JSError LocalStorage :=
  match P.jsonStringify data with
  | .ok text => ls.setItem key text writeOk
  | .error e => .error e

/-- The method `AppState.saveToStorage`: `true` after the write, and in the
`catch` a console error, the failure toast and `false`. -/
def AppState.saveToStorage (P : Platform) (w : World) (key : String) (data : JSValue)
    (writeOk : Bool) : World × Bool :=
  match AppState.saveToStorage.tryBody P w.localStorage key data writeOk with
  | .ok ls => ({ w with localStorage := ls }, true)
  | .error _ => (w.emit [.consoleError key, .toast saveErrorToast "danger"], false)

/-! ## Validators -/

/-- The options of `validateInput`, with the defaults of its destructuring:
`{ minLength = 1, maxLength = Infinity, required = true }` (`none` is
`Infinity`). -/
structure InputOptions where
  minLength : Nat := 1
  maxLength : Option Nat := none
  required : Bool := true

/-- The test `value.length > maxLength`. -/
def exceedsMax (len : Nat) : Option Nat → Bool
  | none => false
  | some m => decide (m < len)

/-- The result of `Validator.validateInput` on a field holding `raw`. -/
def Validator.validateInput (raw : String) (o : InputOptions := {}) : Bool :=
  let value := jsTrim raw
  if o.required && !strTruthy value then false
  else if strTruthy value &&
      (decide (jsLength value < o.minLength) || exceedsMax (jsLength value) o.maxLength) then
    false
  else true

/-- The options of `validateNumber`, with the defaults of its destructuring:
`{ min = -Infinity, max = Infinity, required = false }`. -/
structure NumberOptions where
  min : JSNum := .negInf
  max : JSNum := .posInf
  required : Bool := false

/-- The result of `Validator.validateNumber` on a field holding `raw`. -/
def Validator.validateNumber (P : Platform) (raw : String) (o : NumberOptions := {}) : Bool :=
  let value := P.parseFloat raw
  if o.required && (value.isNaN || jsTrim raw == "") then false
  else if !value.isNaN && (value.lt o.min || value.gt o.max) then false
  else true

/-- The result of `Validator.validateDate` on a field holding `raw`. -/
def Validator.validateDate (P : Platform) (raw : String) (required : Bool := true) : Bool :=
  if required && !strTruthy raw then false
  else if strTruthy raw && (P.dateParse raw).isNaN then false
  else true

/-- The validity marks a validator leaves on its field: it first removes
`is-invalid` and adds it again when the check fails. -/
def Validator.marks (el : String) (ok : Bool) : List Effect :=
  .clearInvalid el :: (if ok then [] else [.markInvalid el])

/-! ## Task management -/

/-- The bullet list of the reminder: one line per task, joined by newlines. -/
def bulletList (ts : List Task) : String :=
  "\n".intercalate (ts.map fun task => "• " ++ task.text)

/-- The message built by `TaskManager.updateNotifications`. -/
def TaskManager.notificationMessage (incompleteTasks : List Task) : String :=
  "المهام غير المنجزة (" ++ toString incompleteTasks.length ++ "):\n" ++
    bulletList incompleteTasks

/-- The method `TaskManager.updateNotifications`. -/
def TaskManager.updateNotifications (w : World) : World :=
  let incompleteTasks := w.app.tasks.filter fun task => !task.completed
  if incompleteTasks.length > 0 then
    w.emit [.showReminder incompleteTasks.length,
            .whatsApp (TaskManager.notificationMessage incompleteTasks)]
  else w.emit [.hideReminder]

/-- The method `TaskManager.addTask`; `taskInput` is the value of the field. -/
def TaskManager.addTask (P : Platform) (w : World) (taskInput : String) (now : Nat)
    (iso : String) (writeOk : Bool) : World :=
  let ok := Validator.validateInput taskInput { maxLength := some 200 }
  let w := w.emit (Validator.marks "taskInput" ok)
  if !ok then w.emit [.focus "taskInput"]
  else
    let task : Task :=
      { id := now, text := jsTrim taskInput, completed := false, createdAt := iso }
    let w := { w with app := { w.app with tasks := w.app.tasks ++ [task] } }
    match AppState.saveToStorage P w "tasks" w.app.tasksJS writeOk with
    | (w, true) =>
      TaskManager.updateNotifications
        (w.emit [.render "taskList", .clearValue "taskInput", .clearInvalid "taskInput",
                 .toast "تم إضافة المهمة بنجاح." "success"])
    | (w, false) => w

/-- The method `TaskManager.toggleTask`. -/
def TaskManager.toggleTask (P : Platform) (w : World) (id : Nat) (writeOk : Bool) : World :=
  let w := { w with app := { w.app with tasks := w.app.tasks.map fun task =>
    if task.id = id then { task with completed := !task.completed } else task } }
  match AppState.saveToStorage P w "tasks" w.app.tasksJS writeOk with
  | (w, true) => TaskManager.updateNotifications (w.emit [.render "taskList"])
  | (w, false) => w

/-- The method `TaskManager.editTask` up to the point where the modal is shown:
without a task of that id it returns at once. -/
def TaskManager.editTask (w : World) (id : Nat) : World :=
  match w.app.tasks.find? fun task => task.id = id with
  | none => w
  | some _ => w.emit [.showModal "editModal"]

/-- The `saveEdit.onclick` handler installed by `TaskManager.editTask(id)`;
`editInput` is the value of the modal field. -/
def TaskManager.saveEdit (P : Platform) (w : World) (id : Nat) (editInput : String)
    (writeOk : Bool) : World :=
  let ok := Validator.validateInput editInput { maxLength := some 200 }
  let w := w.emit (Validator.marks "editTaskInput" ok)
  if !ok then w.emit [.focus "editTaskInput"]
  else
    let w := { w with app := { w.app with tasks := w.app.tasks.map fun task =>
      if task.id = id then { task with text := jsTrim editInput } else task } }
    match AppState.saveToStorage P w "tasks" w.app.tasksJS writeOk with
    | (w, true) =>
      w.emit [.render "taskList", .hideModal "editModal",
              .toast "تم تعديل المهمة بنجاح." "success"]
    | (w, false) => w

/-- The method `TaskManager.deleteTask`: the confirmation modal is shown, and
when the user confirms the callback runs and the modal is hidden. -/
def TaskManager.deleteTask (P : Platform) (w : World) (id : Nat) (confirmed : Bool)
    (writeOk : Bool) : World :=
  let w := w.emit [.showModal "confirmModal"]
  if !confirmed then w
  else
    let w := { w with app := { w.app with
      tasks := w.app.tasks.filter fun task => decide (task.id ≠ id) } }
    let w :=
      match AppState.saveToStorage P w "tasks" w.app.tasksJS writeOk with
      | (w, true) =>
        TaskManager.updateNotifications
          (w.emit [.render "taskList", .toast "تم حذف المهمة بنجاح." "danger"])
      | (w, false) => w
    w.emit [.hideModal "confirmModal"]

/-! ## Note management -/

/-- The method `NoteManager.addNote`. -/
def NoteManager.addNote (P : Platform) (w : World) (noteInput : String) (now : Nat)
    (iso : String) (writeOk : Bool) : World :=
  let ok := Validator.validateInput noteInput { maxLength := some 1000 }
  let w := w.emit (Validator.marks "noteInput" ok)
  if !ok then w.emit [.focus "noteInput"]
  else
    let note : Note := { id := now, text := jsTrim noteInput, createdAt := iso }
    let w := { w with app := { w.app with notes := w.app.notes ++ [note] } }
    match AppState.saveToStorage P w "notes" w.app.notesJS writeOk with
    | (w, true) =>
      w.emit [.render "noteList", .clearValue "noteInput", .clearInvalid "noteInput",
              .toast "تم إضافة الملاحظة بنجاح." "success"]
    | (w, false) => w

/-- The method `NoteManager.editNote` up to the point where the modal is shown. -/
def NoteManager.editNote (w : World) (id : Nat) : World :=
  match w.app.notes.find? fun note => note.id = id with
  | none => w
  | some _ => w.emit [.showModal "editModal"]

/-- The `saveEdit.onclick` handler installed by `NoteManager.editNote(id)`. -/
def NoteManager.saveEdit (P : Platform) (w : World) (id : Nat) (editInput : String)
    (writeOk : Bool) : World :=
  let ok := Validator.validateInput editInput { maxLength := some 1000 }
  let w := w.emit (Validator.marks "editNoteInput" ok)
  if !ok then w.emit [.focus "editNoteInput"]
  else
    let w := { w with app := { w.app with notes := w.app.notes.map fun note =>
      if note.id = id then { note with text := jsTrim editInput } else note } }
    match AppState.saveToStorage P w "notes" w.app.notesJS writeOk with
    | (w, true) =>
      w.emit [.render "noteList", .hideModal "editModal",
              .toast "تم تعديل الملاحظة بنجاح." "success"]
    | (w, false) => w

/-- The method `NoteManager.deleteNote`. -/
def NoteManager.deleteNote (P : Platform) (w : World) (id : Nat) (confirmed : Bool)
    (writeOk : Bool) : World :=
  let w := w.emit [.showModal "confirmModal"]
  if !confirmed then w
  else
    let w := { w with app := { w.app with
      notes := w.app.notes.filter fun note => decide (note.id ≠ id) } }
    let w :=
      match AppState.saveToStorage P w "notes" w.app.notesJS writeOk with
      | (w, true) => w.emit [.render "noteList", .toast "تم حذف الملاحظة بنجاح." "danger"]
      | (w, false) => w
    w.emit [.hideModal "confirmModal"]

/-! ## Transaction management -/

/-- The values of the seven fields of the transaction form (`transDate`,
`transOperation`, `transPay`, `transReceive`, `transCall`, `transContact`,
`transOther`) or of the edit modal (`editTransDate`, ...). -/
structure TransactionForm where
  date : String
  operation : String
  pay : String
  receive : String
  call : String
  contact : String
  other : String
  deriving DecidableEq, Repr

/-- The focus step of a failed transaction validation: the first failing field
in the order of the `if` / `else if` chain. -/
def TransactionManager.focusFirstInvalid (dateEl operationEl payEl receiveEl : String)
    (isDateValid isOperationValid isPayValid isReceiveValid : Bool) : List Effect :=
  if !isDateValid then [.focus dateEl]
  else if !isOperationValid then [.focus operationEl]
  else if !isPayValid then [.focus payEl]
  else if !isReceiveValid then [.focus receiveEl]
  else []

/-- The expression `input.value ? parseFloat(input.value) : 0`. -/
def parseAmountOrZero (P : Platform) (raw : String) : JSNum :=
  if strTruthy raw then P.parseFloat raw else .fin 0

/-- The method `TransactionManager.clearTransactionInputs`. -/
def TransactionManager.clearTransactionInputs (w : World) : World :=
  w.emit (["transDate", "transOperation", "transPay", "transReceive", "transCall",
    "transContact", "transOther"].flatMap fun id => [.clearValue id, .clearInvalid id])

/-- The method `TransactionManager.addTransaction`. -/
def TransactionManager.addTransaction (P : Platform) (w : World) (f : TransactionForm)
    (now : Nat) (iso : String) (writeOk : Bool) : World :=
  let isDateValid := Validator.validateDate P f.date true
  let isOperationValid := Validator.validateInput f.operation { maxLength := some 100 }
  let isPayValid := Validator.validateNumber P f.pay { min := .fin 0 }
  let isReceiveValid := Validator.validateNumber P f.receive { min := .fin 0 }
  let w := w.emit (Validator.marks "transDate" isDateValid ++
    Validator.marks "transOperation" isOperationValid ++
    Validator.marks "transPay" isPayValid ++ Validator.marks "transReceive" isReceiveValid)
  if !isDateValid || !isOperationValid || !isPayValid || !isReceiveValid then
    w.emit (TransactionManager.focusFirstInvalid "transDate" "transOperation" "transPay"
      "transReceive" isDateValid isOperationValid isPayValid isReceiveValid)
  else
    let transaction : Transaction :=
      { id := now
        date := f.date
        operation := jsTrim f.operation
        pay := parseAmountOrZero P f.pay
        receive := parseAmountOrZero P f.receive
        call := jsTrim f.call
        contact := jsTrim f.contact
        other := jsTrim f.other
        createdAt := iso }
    let w := { w with app := { w.app with transactions := w.app.transactions ++ [transaction] } }
    match AppState.saveToStorage P w "transactions" w.app.transactionsJS writeOk with
    | (w, true) =>
      (TransactionManager.clearTransactionInputs (w.emit [.render "transactionBody"])).emit
        [.toast "تم إضافة العملية بنجاح." "success"]
    | (w, false) => w

/-- The method `TransactionManager.editTransaction` up to the point where the
modal is shown. -/
def TransactionManager.editTransaction (w : World) (id : Nat) : World :=
  match w.app.transactions.find? fun t => t.id = id with
  | none => w
  | some _ => w.emit [.showModal "editModal"]

/-- The `saveEdit.onclick` handler installed by
`TransactionManager.editTransaction(id)`. -/
def TransactionManager.saveEdit (P : Platform) (w : World) (id : Nat) (f : TransactionForm)
    (writeOk : Bool) : World :=
  let isDateValid := Validator.validateDate P f.date true
  let isOperationValid := Validator.validateInput f.operation { maxLength := some 100 }
  let isPayValid := Validator.validateNumber P f.pay { min := .fin 0 }
  let isReceiveValid := Validator.validateNumber P f.receive { min := .fin 0 }
  let w := w.emit (Validator.marks "editTransDate" isDateValid ++
    Validator.marks "editTransOperation" isOperationValid ++
    Validator.marks "editTransPay" isPayValid ++
    Validator.marks "editTransReceive" isReceiveValid)
  if !isDateValid || !isOperationValid || !isPayValid || !isReceiveValid then
    w.emit (TransactionManager.focusFirstInvalid "editTransDate" "editTransOperation"
      "editTransPay" "editTransReceive" isDateValid isOperationValid isPayValid isReceiveValid)
  else
    let w := { w with app := { w.app with transactions := w.app.transactions.map fun t =>
      if t.id = id then
        { t with
          date := f.date
          operation := jsTrim f.operation
          pay := parseAmountOrZero P f.pay
          receive := parseAmountOrZero P f.receive
          call := jsTrim f.call
          contact := jsTrim f.contact
          other := jsTrim f.other }
      else t } }
    match AppState.saveToStorage P w "transactions" w.app.transactionsJS writeOk with
    | (w, true) =>
      w.emit [.render "transactionBody", .hideModal "editModal",
              .toast "تم تعديل العملية بنجاح." "success"]
    | (w, false) => w

/-- The method `TransactionManager.deleteTransaction`. -/
def TransactionManager.deleteTransaction (P : Platform) (w : World) (id : Nat)
    (confirmed : Bool) (writeOk : Bool) : World :=
  let w := w.emit [.showModal "confirmModal"]
  if !confirmed then w
  else
    let w := { w with app := { w.app with
      transactions := w.app.transactions.filter fun t => decide (t.id ≠ id) } }
    let w :=
      match AppState.saveToStorage P w "transactions" w.app.transactionsJS writeOk with
      | (w, true) =>
        w.emit [.render "transactionBody", .toast "تم حذف العملية بنجاح." "danger"]
      | (w, false) => w
    w.emit [.hideModal "confirmModal"]

/-! ## Trader management -/

/-- The values of the two fields of the trader form (`traderName`,
`traderAmount`) or of the edit modal (`editTraderName`, `editTraderAmount`). -/
structure TraderForm where
  name : String
  amount : String
  deriving DecidableEq, Repr

/-- The focus step of a failed trader validation. -/
def TraderManager.focusFirstInvalid (nameEl amountEl : String)
    (isNameValid isAmountValid : Bool) : List Effect :=
  if !isNameValid then [.focus nameEl]
  else if !isAmountValid then [.focus amountEl]
  else []

/-- The method `TraderManager.addTrader`. -/
def TraderManager.addTrader (P : Platform) (w : World) (f : TraderForm) (now : Nat)
    (iso : String) (writeOk : Bool) : World :=
  let isNameValid := Validator.validateInput f.name { maxLength := some 50 }
  let isAmountValid := Validator.validateNumber P f.amount { min := .fin 0, required := true }
  let w := w.emit (Validator.marks "traderName" isNameValid ++
    Validator.marks "traderAmount" isAmountValid)
  if !isNameValid || !isAmountValid then
    w.emit (TraderManager.focusFirstInvalid "traderName" "traderAmount"
      isNameValid isAmountValid)
  else
    let trader : Trader :=
      { id := now, name := jsTrim f.name, amount := P.parseFloat f.amount, createdAt := iso }
    let w := { w with app := { w.app with traders := w.app.traders ++ [trader] } }
    match AppState.saveToStorage P w "traders" w.app.tradersJS writeOk with
    | (w, true) =>
      w.emit [.render "traderTables", .clearValue "traderName", .clearValue "traderAmount",
              .clearInvalid "traderName", .clearInvalid "traderAmount",
              .toast "تم إضافة التاجر بنجاح." "success"]
    | (w, false) => w

/-- The method `TraderManager.editTrader` up to the point where the modal is
shown. -/
def TraderManager.editTrader (w : World) (id : Nat) : World :=
  match w.app.traders.find? fun t => t.id = id with
  | none => w
  | some _ => w.emit [.showModal "editModal"]

/-- The `saveEdit.onclick` handler installed by `TraderManager.editTrader(id)`. -/
def TraderManager.saveEdit (P : Platform) (w : World) (id : Nat) (f : TraderForm)
    (writeOk : Bool) : World :=
  let isNameValid := Validator.validateInput f.name { maxLength := some 50 }
  let isAmountValid := Validator.validateNumber P f.amount { min := .fin 0, required := true }
  let w := w.emit (Validator.marks "editTraderName" isNameValid ++
    Validator.marks "editTraderAmount" isAmountValid)
  if !isNameValid || !isAmountValid then
    w.emit (TraderManager.focusFirstInvalid "editTraderName" "editTraderAmount"
      isNameValid isAmountValid)
  else
    let w := { w with app := { w.app with traders := w.app.traders.map fun t =>
      if t.id = id then { t with name := jsTrim f.name, amount := P.parseFloat f.amount }
      else t } }
    match AppState.saveToStorage P w "traders" w.app.tradersJS writeOk with
    | (w, true) =>
      w.emit [.render "traderTables", .hideModal "editModal",
              .toast "تم تعديل التاجر بنجاح." "success"]
    | (w, false) => w

/-- The method `TraderManager.deleteTrader`. -/
def TraderManager.deleteTrader (P : Platform) (w : World) (id : Nat) (confirmed : Bool)
    (writeOk : Bool) : World :=
  let w := w.emit [.showModal "confirmModal"]
  if !confirmed then w
  else
    let w := { w with app := { w.app with
      traders := w.app.traders.filter fun t => decide (t.id ≠ id) } }
    let w :=
      match AppState.saveToStorage P w "traders" w.app.tradersJS writeOk with
      | (w, true) => w.emit [.render "traderTables", .toast "تم حذف التاجر بنجاح." "danger"]
      | (w, false) => w
    w.emit [.hideModal "confirmModal"]

/-! ## The hourly reminder -/

/-- The message built by `WhatsAppService.sendTaskReminder`. -/
def WhatsAppService.reminderMessage (incompleteTasks : List Task) : String :=
  "تذكير: لديك " ++ toString incompleteTasks.length ++ " مهمة غير منجزة:\n" ++
    bulletList incompleteTasks

/-- The method `WhatsAppService.sendTaskReminder`. -/
def WhatsAppService.sendTaskReminder (w : World) : World :=
  let incompleteTasks := w.app.tasks.filter fun task => !task.completed
  if incompleteTasks.length > 0 then
    w.emit [.whatsApp (WhatsAppService.reminderMessage incompleteTasks)]
  else w

/-! ## Operations as a transition system -/

/-- One event of the page: a user action with what the handler reads from the
forms, the clock and the store, or the hourly timer. -/
inductive Op where
  | addTask (taskInput : String) (now : Nat) (iso : String) (writeOk : Bool)
  | toggleTask (id : Nat) (writeOk : Bool)
  | editTask (id : Nat)
  | saveEditTask (id : Nat) (editInput : String) (writeOk : Bool)
  | deleteTask (id : Nat) (confirmed writeOk : Bool)
  | addNote (noteInput : String) (now : Nat) (iso : String) (writeOk : Bool)
  | editNote (id : Nat)
  | saveEditNote (id : Nat) (editInput : String) (writeOk : Bool)
  | deleteNote (id : Nat) (confirmed writeOk : Bool)
  | addTransaction (f : TransactionForm) (now : Nat) (iso : String) (writeOk : Bool)
  | editTransaction (id : Nat)
  | saveEditTransaction (id : Nat) (f : TransactionForm) (writeOk : Bool)
  | deleteTransaction (id : Nat) (confirmed writeOk : Bool)
  | addTrader (f : TraderForm) (now : Nat) (iso : String) (writeOk : Bool)
  | editTrader (id : Nat)
  | saveEditTrader (id : Nat) (f : TraderForm) (writeOk : Bool)
  | deleteTrader (id : Nat) (confirmed writeOk : Bool)
  | sendTaskReminder
  deriving DecidableEq, Repr

/-- The handler of one event. -/
def step (P : Platform) (w : World) : Op → World
  | .addTask taskInput now iso writeOk => TaskManager.addTask P w taskInput now iso writeOk
  | .toggleTask id writeOk => TaskManager.toggleTask P w id writeOk
  | .editTask id => TaskManager.editTask w id
  | .saveEditTask id editInput writeOk => TaskManager.saveEdit P w id editInput writeOk
  | .deleteTask id confirmed writeOk => TaskManager.deleteTask P w id confirmed writeOk
  | .addNote noteInput now iso writeOk => NoteManager.addNote P w noteInput now iso writeOk
  | .editNote id => NoteManager.editNote w id
  | .saveEditNote id editInput writeOk => NoteManager.saveEdit P w id editInput writeOk
  | .deleteNote id confirmed writeOk => NoteManager.deleteNote P w id confirmed writeOk
  | .addTransaction f now iso writeOk =>
    TransactionManager.addTransaction P w f now iso writeOk
  | .editTransaction id => TransactionManager.editTransaction w id
  | .saveEditTransaction id f writeOk => TransactionManager.saveEdit P w id f writeOk
  | .deleteTransaction id confirmed writeOk =>
    TransactionManager.deleteTransaction P w id confirmed writeOk
  | .addTrader f now iso writeOk => TraderManager.addTrader P w f now iso writeOk
  | .editTrader id => TraderManager.editTrader w id
  | .saveEditTrader id f writeOk => TraderManager.saveEdit P w id f writeOk
  | .deleteTrader id confirmed writeOk => TraderManager.deleteTrader P w id confirmed writeOk
  | .sendTaskReminder => WhatsAppService.sendTaskReminder w

/-- The events handled one after the other. -/
def run (P : Platform) (w : World) (ops : List Op) : World := ops.foldl (step P) w

/-- The outcome of the store write read by an event whose handler reaches a
`saveToStorage` call; `none` for the events that never save. -/
def Op.writeOk? : Op → Option Bool
  | .addTask _ _ _ writeOk => some writeOk
  | .toggleTask _ writeOk => some writeOk
  | .saveEditTask _ _ writeOk => some writeOk
  | .deleteTask _ _ writeOk => some writeOk
  | .addNote _ _ _ writeOk => some writeOk
  | .saveEditNote _ _ writeOk => some writeOk
  | .deleteNote _ _ writeOk => some writeOk
  | .addTransaction _ _ _ writeOk => some writeOk
  | .saveEditTransaction _ _ writeOk => some writeOk
  | .deleteTransaction _ _ writeOk => some writeOk
  | .addTrader _ _ _ writeOk => some writeOk
  | .saveEditTrader _ _ writeOk => some writeOk
  | .deleteTrader _ _ writeOk => some writeOk
  | _ => none

/-- The same event with another outcome of the store write. -/
def Op.setWriteOk (b : Bool) : Op → Op
  | .addTask taskInput now iso _ => .addTask taskInput now iso b
  | .toggleTask id _ => .toggleTask id b
  | .saveEditTask id editInput _ => .saveEditTask id editInput b
  | .deleteTask id confirmed _ => .deleteTask id confirmed b
  | .addNote noteInput now iso _ => .addNote noteInput now iso b
  | .saveEditNote id editInput _ => .saveEditNote id editInput b
  | .deleteNote id confirmed _ => .deleteNote id confirmed b
  | .addTransaction f now iso _ => .addTransaction f now iso b
  | .saveEditTransaction id f _ => .saveEditTransaction id f b
  | .deleteTransaction id confirmed _ => .deleteTransaction id confirmed b
  | .addTrader f now iso _ => .addTrader f now iso b
  | .saveEditTrader id f _ => .saveEditTrader id f b
  | .deleteTrader id confirmed _ => .deleteTrader id confirmed b
  | op => op

/-- The page writes a handler performs only after a successful save: a render,
the clearing of a field, a toast other than the failure toast, the reminder
banner and message, and the closing of the edit modal. -/
def Effect.isDependentUpdate : Effect → Bool
  | .render _ => true
  | .clearValue _ => true
  | .toast message _ => message != saveErrorToast
  | .whatsApp _ => true
  | .showReminder _ => true
  | .hideReminder => true
  | .hideModal el => el == "editModal"
  | _ => false

/-- The page writes of a failed save: the console error and the failure toast
of `saveToStorage`, and the closing of the confirmation modal, which the
confirm handler performs after its callback whatever the callback did. -/
def Effect.isFailureReport : Effect → Bool
  | .consoleError _ => true
  | .toast message type => message == saveErrorToast && type == "danger"
  | .hideModal el => el == "confirmModal"
  | _ => false

/-- Whether the write is a console error. -/
def Effect.isConsoleError : Effect → Bool
  | .consoleError _ => true
  | _ => false

/-- The page writes from the first console error on. -/
def fromConsoleError (es : List Effect) : List Effect :=
  es.dropWhile fun e => !e.isConsoleError

/-- The page writes report a failed save: they hold a console error. -/
def reportsFailure (es : List Effect) : Prop := ∃ key, Effect.consoleError key ∈ es

/-- The page writes hold no update that depends on a successful save, and from
the console error on they are the failure report only. -/
def onlyFailureReport (es : List Effect) : Prop :=
  (∀ e ∈ es, e.isDependentUpdate = false) ∧ (∀ e ∈ fromConsoleError es, e.isFailureReport = true)

/-- The page writes that lead from `w` to `w1` extend the page log, and either
they are a failure report only (or neutral writes) and the store is unchanged,
or the store accepted the write and they report no failure. -/
def pageOutcome (writeOk : Bool) (w w1 : World) : Prop :=
  ∃ es, w1.view = w.view ++ es ∧
    ((onlyFailureReport es ∧ w1.localStorage = w.localStorage) ∨
      (writeOk = true ∧ ¬ reportsFailure es))

/-- A page write that is neither a console error nor a dependent update. -/
def Effect.isNeutral (e : Effect) : Bool := !e.isConsoleError && !e.isDependentUpdate

/-- The reading of `Date.now()` in an event that creates a record. -/
def Op.clock? : Op → Option Nat
  | .addTask _ now _ _ => some now
  | .addNote _ now _ _ => some now
  | .addTransaction _ now _ _ => some now
  | .addTrader _ now _ _ => some now
  | _ => none

/-- The clock readings of a run, in order. -/
def clockReadings (ops : List Op) : List Nat := ops.filterMap Op.clock?

/-- The page with empty collections, an empty store and nothing written. -/
def World.empty : World :=
  { app := { tasks := [], notes := [], transactions := [], traders := [] }
    localStorage := ⟨[]⟩
    view := [] }

/-! ## A reference platform

An executable model of the four built-ins, used to run the page on concrete
inputs.  It follows ECMAScript on what the examples exercise: `parseFloat` reads
the longest decimal literal (or `Infinity`) after leading white space;
`Date.parse` reads the date-only form `YYYY-MM-DD` that a date field supplies,
also after leading white space; `JSON.stringify` and `JSON.parse` implement the
JSON grammar, a finite number being written in full in decimal and a non-finite
number as `null`. -/

namespace Reference

/-- The leading decimal digits of the text: their value continuing `acc`, how many
there are added to `k`, and the rest of the text. -/
def takeDigits : List Char → Nat → Nat → Nat × Nat × List Char
  | [], acc, k => (acc, k, [])
  | c :: cs, acc, k =>
    if c.isDigit then takeDigits cs (acc * 10 + (c.toNat - 48)) (k + 1) else (acc, k, c :: cs)

/-- The value of a list of decimal digits read after the value `acc`. -/
def digitsValue (l : List Char) (acc : Nat) : Nat :=
  l.foldl (fun a c => a * 10 + (c.toNat - 48)) acc

/-- The number `m * 10 ^ e`. -/
def scale (m : Int) (e : Int) : ℚ :=
  match e with
  | .ofNat k => mkRat (m * 10 ^ k) 1
  | .negSucc k => mkRat m (10 ^ (k + 1))

/-- The digits of the fraction `r / d` (with `r < d`), as long as it goes on,
at most `fuel` of them. -/
def fractionDigits : Nat → Nat → Nat → List Char
  | 0, _, _ => []
  | fuel + 1, r, d =>
    if r = 0 then [] else Char.ofNat (48 + r * 10 / d) :: fractionDigits fuel (r * 10 % d) d

/-- The decimal text of a finite number: digits, and a fraction when it has one,
written in full (a fraction with a finite decimal expansion has fewer places than
its denominator; of another one the first places are written). -/
def numberText (q : ℚ) : String :=
  let n := q.num.natAbs
  let whole := (if q.num < 0 then "-" else "") ++ toString (n / q.den)
  match fractionDigits q.den (n % q.den) q.den with
  | [] => whole
  | ds => whole ++ "." ++ String.mk ds

/-- One lower-case hexadecimal digit. -/
def hexDigit (n : Nat) : Char := if n < 10 then Char.ofNat (48 + n) else Char.ofNat (87 + n)

/-- One character of a string inside a JSON string literal. -/
def escapeChar (c : Char) : List Char :=
  if c = '"' then ['\\', '"']
  else if c = '\\' then ['\\', '\\']
  else if c = '\n' then ['\\', 'n']
  else if c = '\r' then ['\\', 'r']
  else if c = '\t' then ['\\', 't']
  else if c.toNat = 8 then ['\\', 'b']
  else if c.toNat = 12 then ['\\', 'f']
  else if c.toNat < 32 then ['\\', 'u', '0', '0', hexDigit (c.toNat / 16), hexDigit (c.toNat % 16)]
  else [c]

/-- The JSON string literal of a string. -/
def quote (s : String) : String := "\"" ++ String.mk (s.toList.flatMap escapeChar) ++ "\""

mutual

/-- The JSON text of a value: what `JSON.stringify` returns for it. -/
def stringify : JSValue → String
  | .null => "null"
  | .bool b => if b then "true" else "false"
  | .num (.fin q) => numberText q
  | .num _ => "null"
  | .str s => quote s
  | .arr items => "[" ++ stringifyItems items ++ "]"
  | .obj fields =>
    String.singleton (Char.ofNat 123) ++ stringifyFields fields ++
      String.singleton (Char.ofNat 125)

/-- The elements of an array, separated by commas. -/
def stringifyItems : List JSValue → String
  | [] => ""
  | [v] => stringify v
  | v :: vs => stringify v ++ "," ++ stringifyItems vs

/-- The members of an object, separated by commas. -/
def stringifyFields : List (String × JSValue) → String
  | [] => ""
  | [(k, v)] => quote k ++ ":" ++ stringify v
  | (k, v) :: kvs => quote k ++ ":" ++ stringify v ++ "," ++ stringifyFields kvs

end

/-- Skip JSON white space. -/
def skipWs (cs : List Char) : List Char :=
  cs.dropWhile fun c => c = ' ' || c = '\t' || c = '\n' || c = '\r'

/-- The value of a hexadecimal digit. -/
def hexValue? (c : Char) : Option Nat :=
  if c.isDigit then some (c.toNat - 48)
  else if 'a'.toNat ≤ c.toNat ∧ c.toNat ≤ 'f'.toNat then some (c.toNat - 87)
  else if 'A'.toNat ≤ c.toNat ∧ c.toNat ≤ 'F'.toNat then some (c.toNat - 55)
  else none

/-- The `SyntaxError` of `JSON.parse`. -/
def malformed {α : Type} : Except JSError α := .error ⟨"SyntaxError"⟩

/-- The rest of a string literal after its opening quote. -/
def parseStringBody : List Char → List Char → Except JSError (String × List Char)
  | [], _ => malformed
  | '"' :: rest, acc => .ok (String.mk acc.reverse, rest)
  | '\\' :: 'u' :: a :: b :: c :: d :: rest, acc =>
    match hexValue? a, hexValue? b, hexValue? c, hexValue? d with
    | some a, some b, some c, some d =>
      parseStringBody rest (Char.ofNat (((a * 16 + b) * 16 + c) * 16 + d) :: acc)
    | _, _, _, _ => malformed
  | '\\' :: e :: rest, acc =>
    if e = '"' ∨ e = '\\' ∨ e = '/' then parseStringBody rest (e :: acc)
    else if e = 'n' then parseStringBody rest ('\n' :: acc)
    else if e = 'r' then parseStringBody rest ('\r' :: acc)
    else if e = 't' then parseStringBody rest ('\t' :: acc)
    else if e = 'b' then parseStringBody rest (Char.ofNat 8 :: acc)
    else if e = 'f' then parseStringBody rest (Char.ofNat 12 :: acc)
    else malformed
  | c :: rest, acc => if c.toNat < 32 then malformed else parseStringBody rest (c :: acc)

/-- The optional exponent after a mantissa `m` with `fk` fraction digits, and the
number read. -/
def parseExponent (m : Int) (fk : Nat) : List Char → Except JSError (ℚ × List Char)
  | c :: cs =>
    if c = 'e' ∨ c = 'E' then
      let (neg, ds) := match cs with
        | '-' :: ds => (true, ds)
        | '+' :: ds => (false, ds)
        | ds => (false, ds)
      match takeDigits ds 0 0 with
      | (_, 0, _) => malformed
      | (e, _, rest) => .ok (scale m ((if neg then -(e : Int) else e) - fk), rest)
    else .ok (scale m (-(fk : Int)), c :: cs)
  | [] => .ok (scale m (-(fk : Int)), [])

/-- An unsigned JSON number at the head of the text, negated when `neg`. -/
def parseNumber (neg : Bool) (cs : List Char) : Except JSError (JSValue × List Char) :=
  let sign (r : Except JSError (ℚ × List Char)) : Except JSError (JSValue × List Char) :=
    match r with
    | .ok (q, rest) => .ok (.num (.fin (if neg then -q else q)), rest)
    | .error e => .error e
  match cs, takeDigits cs 0 0 with
  | _, (_, 0, _) => malformed
  | '0' :: _, (_, _ + 2, _) => malformed
  | _, (ip, _, '.' :: rest) =>
    match takeDigits rest ip 0 with
    | (_, 0, _) => malformed
    | (m, fk, rest) => sign (parseExponent m fk rest)
  | _, (ip, _, rest) => sign (parseExponent ip 0 rest)

/-- Define a property: it replaces the value of an existing key. -/
def setField (fields : List (String × JSValue)) (k : String) (v : JSValue) :
    List (String × JSValue) :=
  if fields.any (fun kv => kv.1 = k) then fields.map fun kv => if kv.1 = k then (k, v) else kv
  else fields ++ [(k, v)]

mutual

/-- A JSON value at the head of the text, and the rest; `fuel` bounds the number of
nested calls. -/
def parseValue : Nat → List Char → Except JSError (JSValue × List Char)
  | 0, _ => malformed
  | n + 1, cs =>
    match skipWs cs with
    | 'n' :: 'u' :: 'l' :: 'l' :: rest => .ok (.null, rest)
    | 't' :: 'r' :: 'u' :: 'e' :: rest => .ok (.bool true, rest)
    | 'f' :: 'a' :: 'l' :: 's' :: 'e' :: rest => .ok (.bool false, rest)
    | '"' :: rest =>
      match parseStringBody rest [] with
      | .ok (s, rest) => .ok (.str s, rest)
      | .error e => .error e
    | '[' :: rest =>
      match skipWs rest with
      | ']' :: rest => .ok (.arr [], rest)
      | rest => parseElements n rest []
    | '-' :: rest => parseNumber true rest
    | c :: rest =>
      if c.toNat = 123 then
        match skipWs rest with
        | d :: rest' => if d.toNat = 125 then .ok (.obj [], rest') else parseMembers n (d :: rest') []
        | [] => malformed
      else parseNumber false (c :: rest)
    | [] => malformed

/-- The elements of an array after its opening bracket. -/
def parseElements : Nat → List Char → List JSValue → Except JSError (JSValue × List Char)
  | 0, _, _ => malformed
  | n + 1, cs, acc =>
    match parseValue n cs with
    | .error e => .error e
    | .ok (v, rest) =>
      match skipWs rest with
      | ',' :: rest => parseElements n rest (v :: acc)
      | ']' :: rest => .ok (.arr (v :: acc).reverse, rest)
      | _ => malformed

/-- The members of an object after its opening brace. -/
def parseMembers : Nat → List Char → List (String × JSValue) →
    Except JSError (JSValue × List Char)
  | 0, _, _ => malformed
  | n + 1, cs, acc =>
    match skipWs cs with
    | '"' :: rest =>
      match parseStringBody rest [] with
      | .error e => .error e
      | .ok (k, rest) =>
        match skipWs rest with
        | ':' :: rest =>
          match parseValue n rest with
          | .error e => .error e
          | .ok (v, rest) =>
            match skipWs rest with
            | ',' :: rest => parseMembers n rest (setField acc k v)
            | d :: rest => if d.toNat = 125 then .ok (.obj (setField acc k v), rest) else malformed
            | [] => malformed
        | _ => malformed
    | _ => malformed

end

/-- The function `JSON.parse`: one value, and nothing but white space after it. -/
def jsonParse (s : String) : Except JSError JSValue :=
  match parseValue (s.length + 1) s.toList with
  | .ok (v, rest) => if (skipWs rest).isEmpty then .ok v else malformed
  | .error e => .error e


/-- The exponent part `e[+-]digits` at the head of the text, zero without one. -/
def takeExponent : List Char → Int
  | c :: cs =>
    if c = 'e' ∨ c = 'E' then
      match cs with
      | '-' :: ds =>
        match takeDigits ds 0 0 with
        | (_, 0, _) => 0
        | (e, _, _) => -(e : Int)
      | '+' :: ds => (takeDigits ds 0 0).1
      | ds => (takeDigits ds 0 0).1
    else 0
  | [] => 0

/-- The unsigned decimal literal at the head of the text, when there is one. -/
def decimalLiteral (cs : List Char) : Option ℚ :=
  match takeDigits cs 0 0 with
  | (ip, ik, '.' :: rest) =>
    match takeDigits rest ip 0 with
    | (m, fk, rest) =>
      if ik + fk = 0 then none else some (scale m (takeExponent rest - fk))
  | (ip, ik, rest) => if ik = 0 then none else some (scale ip (takeExponent rest))

/-- The text after the sign, read as `Infinity` or a decimal literal. -/
def unsignedFloat (cs : List Char) (neg : Bool) : JSNum :=
  match cs with
  | 'I' :: 'n' :: 'f' :: 'i' :: 'n' :: 'i' :: 't' :: 'y' :: _ => if neg then .negInf else .posInf
  | _ =>
    match decimalLiteral cs with
    | none => .nan
    | some q => .fin (if neg then -q else q)

/-- The global `parseFloat`. -/
def parseFloat (s : String) : JSNum :=
  match s.toList.dropWhile isJSWhitespace with
  | '-' :: cs => unsignedFloat cs true
  | '+' :: cs => unsignedFloat cs false
  | cs => unsignedFloat cs false

/-- Whether the year is a leap year. -/
def isLeapYear (y : Nat) : Bool := (y % 4 == 0 && y % 100 != 0) || y % 400 == 0

/-- The number of days of a month. -/
def daysInMonth (y m : Nat) : Nat :=
  if m = 2 then (if isLeapYear y then 29 else 28)
  else if m = 4 ∨ m = 6 ∨ m = 9 ∨ m = 11 then 30
  else 31

/-- The number of days from 1970-01-01 to a date of the Gregorian calendar. -/
def daysFromCivil (y m d : Nat) : Int :=
  let y1 : Int := if m ≤ 2 then (y : Int) - 1 else y
  let era : Int := y1 / 400
  let yoe : Int := y1 - era * 400
  let mp : Nat := if m > 2 then m - 3 else m + 9
  let doy : Int := ((153 * mp + 2) / 5 + d - 1 : Nat)
  let doe : Int := yoe * 365 + yoe / 4 - yoe / 100 + doy
  era * 146097 + doe - 719468

/-- The function `Date.parse` on the date-only form `YYYY-MM-DD`, also after
leading white space, which the engines skip: the time value of that day at
midnight (the page only tests the value for `NaN`); `NaN` for any other text. -/
def dateParse (s : String) : JSNum :=
  match s.toList.dropWhile isJSWhitespace with
  | [y1, y2, y3, y4, '-', m1, m2, '-', d1, d2] =>
    if y1.isDigit && y2.isDigit && y3.isDigit && y4.isDigit && m1.isDigit && m2.isDigit &&
        d1.isDigit && d2.isDigit then
      let y := (takeDigits [y1, y2, y3, y4] 0 0).1
      let m := (takeDigits [m1, m2] 0 0).1
      let d := (takeDigits [d1, d2] 0 0).1
      if 1 ≤ m ∧ m ≤ 12 ∧ 1 ≤ d ∧ d ≤ daysInMonth y m then
        .fin (mkRat (daysFromCivil y m d * 86400000) 1)
      else .nan
    else .nan
  | _ => .nan

/-- The reference platform. -/
def platform : Platform :=
  { parseFloat := parseFloat
    dateParse := dateParse
    jsonStringify := fun v => .ok (stringify v)
    jsonParse := jsonParse }

end Reference

/-! ## Sample data for the examples -/

/-- The ISO text of a sample instant. -/
def sampleIso : String := "2024-01-01T10:00:00.000Z"

/-- A page holding one record of each kind. -/
def sampleWorld : World :=
  { app :=
      { tasks := [{ id := 1000, text := "Buy milk", completed := false, createdAt := sampleIso }]
        notes := [{ id := 1001, text := "Call the bank", createdAt := sampleIso }]
        transactions :=
          [{ id := 1002, date := "2024-01-01", operation := "Sale", pay := .fin 0,
             receive := .fin 250, call := "", contact := "Omar", other := "",
             createdAt := sampleIso }]
        traders := [{ id := 1003, name := "Samir", amount := .fin 40, createdAt := sampleIso }] }
    localStorage := ⟨[]⟩
    view := [] }

/-- A well-formed transaction form. -/
def sampleTransactionForm : TransactionForm :=
  { date := "2024-02-29", operation := "  Purchase ", pay := "75", receive := "",
    call := " yes ", contact := "Huda", other := "" }

/-- A transaction form whose pay field holds a negative number. -/
def negativePayForm : TransactionForm :=
  { date := "2024-01-01", operation := "Sale", pay := "-5", receive := "",
    call := "", contact := "", other := "" }

/-- A transaction form whose date carries leading white space, which
`Date.parse` skips. -/
def paddedDateForm : TransactionForm :=
  { date := " 2024-01-01", operation := "Sale", pay := "", receive := "10",
    call := "", contact := "", other := "" }

/-- A well-formed trader form. -/
def sampleTraderForm : TraderForm := { name := " Layla ", amount := "120" }

/-- A trader form without an amount. -/
def blankAmountForm : TraderForm := { name := "Layla", amount := " " }

/-- A trader form whose amount reads as `Infinity`. -/
def infiniteAmountForm : TraderForm := { name := "Layla", amount := "Infinity" }

/-- The page after a trader with the amount `Infinity` was added to the empty
page. -/
def infiniteAmountWorld : World :=
  TraderManager.addTrader Reference.platform World.empty infiniteAmountForm 1000 sampleIso true

/-- Two tasks added while `Date.now()` reads the same millisecond. -/
def collidingAdds : List Op :=
  [.addTask "Buy milk" 1000 sampleIso true, .addTask "Buy bread" 1000 sampleIso true]

/-- The page after two tasks were added within the same millisecond. -/
def collidedWorld : World := run Reference.platform World.empty collidingAdds

/-- A run whose clock readings are strictly increasing: four adds, a toggle, an
edit-save and a delete. -/
def sampleRun : List Op :=
  [.addTask "Buy milk" 1000 sampleIso true, .addTask "Buy bread" 1001 sampleIso true,
   .toggleTask 1000 true, .addNote "Call the bank" 1002 sampleIso true,
   .saveEditTask 1001 "Buy brown bread" true, .addTask "Pay rent" 1003 sampleIso false,
   .deleteTask 1000 true true]

/-! ## Predicates of the specification -/

/-- The collections and the store of `w1` are those of `w`. -/
def World.sameData (w1 w : World) : Prop :=
  w1.app = w.app ∧ w1.localStorage = w.localStorage

instance (w1 w : World) : Decidable (w1.sameData w) :=
  inferInstanceAs (Decidable (w1.app = w.app ∧ w1.localStorage = w.localStorage))

/-- The trimmed value has between `lo` and `hi` characters. -/
def trimmedLengthWithin (raw : String) (lo hi : Nat) : Prop :=
  lo ≤ jsLength (jsTrim raw) ∧ jsLength (jsTrim raw) ≤ hi

instance (raw : String) (lo hi : Nat) : Decidable (trimmedLengthWithin raw lo hi) :=
  inferInstanceAs (Decidable (lo ≤ jsLength (jsTrim raw) ∧ jsLength (jsTrim raw) ≤ hi))

/-- The field holds a number that is `>= 0`. -/
def holdsNonNegative (P : Platform) (raw : String) : Prop :=
  (P.parseFloat raw).ge (.fin 0) = true

instance (P : Platform) (raw : String) : Decidable (holdsNonNegative P raw) :=
  inferInstanceAs (Decidable ((P.parseFloat raw).ge (.fin 0) = true))

/-- The field holds a well-formed date: it is not empty and `Date.parse` reads
it. -/
def wellFormedDate (P : Platform) (raw : String) : Prop :=
  raw ≠ "" ∧ (P.dateParse raw).isNaN = false

instance (P : Platform) (raw : String) : Decidable (wellFormedDate P raw) :=
  inferInstanceAs (Decidable (raw ≠ "" ∧ (P.dateParse raw).isNaN = false))

/-- The transaction form is within the bounds of the data model: a well-formed
date, an operation of 1 to 100 characters, and pay and receive fields that are
empty or hold a number `>= 0`. -/
def TransactionForm.withinBounds (P : Platform) (f : TransactionForm) : Prop :=
  wellFormedDate P f.date ∧ trimmedLengthWithin f.operation 1 100 ∧
  (f.pay = "" ∨ holdsNonNegative P f.pay) ∧ (f.receive = "" ∨ holdsNonNegative P f.receive)

instance (P : Platform) (f : TransactionForm) : Decidable (f.withinBounds P) :=
  inferInstanceAs (Decidable (wellFormedDate P f.date ∧ trimmedLengthWithin f.operation 1 100 ∧
    (f.pay = "" ∨ holdsNonNegative P f.pay) ∧ (f.receive = "" ∨ holdsNonNegative P f.receive)))

/-- The trader form is within the bounds of the data model: a name of 1 to 50
characters and an amount field that is filled in and holds a number `>= 0`. -/
def TraderForm.withinBounds (P : Platform) (g : TraderForm) : Prop :=
  trimmedLengthWithin g.name 1 50 ∧ jsTrim g.amount ≠ "" ∧ holdsNonNegative P g.amount

instance (P : Platform) (g : TraderForm) : Decidable (g.withinBounds P) :=
  inferInstanceAs (Decidable (trimmedLengthWithin g.name 1 50 ∧ jsTrim g.amount ≠ "" ∧
    holdsNonNegative P g.amount))

/-- The number a pay or receive field stands for: zero when the field is empty,
the number read from it otherwise. -/
def parsedOrDefault (P : Platform) (raw : String) : JSNum :=
  if raw = "" then .fin 0 else P.parseFloat raw

/-- The four validators of a transaction form all accept. -/
def TransactionForm.accepted (P : Platform) (f : TransactionForm) : Bool :=
  Validator.validateDate P f.date true &&
  Validator.validateInput f.operation { maxLength := some 100 } &&
  Validator.validateNumber P f.pay { min := .fin 0 } &&
  Validator.validateNumber P f.receive { min := .fin 0 }

/-- The two validators of a trader form both accept. -/
def TraderForm.accepted (P : Platform) (g : TraderForm) : Bool :=
  Validator.validateInput g.name { maxLength := some 50 } &&
  Validator.validateNumber P g.amount { min := .fin 0, required := true }

/-- A finite number: neither `NaN` nor an infinity, and with a finite decimal
expansion (its denominator divides a power of ten), as every double has and every
decimal literal stands for. -/
def JSNum.isFinite : JSNum → Prop
  | .fin q => ∃ k, q.den ∣ 10 ^ k
  | _ => False

/-- A property value of a record: a string, a boolean, or a finite number. -/
def JSValue.isFlat : JSValue → Prop
  | .str _ => True
  | .bool _ => True
  | .num x => x.isFinite
  | _ => False

/-- A record of one of the four data-model shapes, its numbers finite: what
`addTask`, `addNote`, `addTransaction` and `addTrader` build. -/
def DataRecord (v : JSValue) : Prop :=
  (∃ t : Task, v = t.toJS) ∨ (∃ n : Note, v = n.toJS) ∨
  (∃ t : Transaction, t.pay.isFinite ∧ t.receive.isFinite ∧ v = t.toJS) ∨
  (∃ t : Trader, t.amount.isFinite ∧ v = t.toJS)

/-- The platform's JSON is faithful on the collections of the page: of an array
of data-model records with finite numbers `JSON.stringify` returns a non-empty
text, from which `JSON.parse` returns the array again. -/
def JsonFaithful (P : Platform) : Prop :=
  ∀ items : List JSValue, (∀ v ∈ items, DataRecord v) →
    ∃ text, P.jsonStringify (.arr items) = .ok text ∧ text ≠ "" ∧
      P.jsonParse text = .ok (.arr items)

/-- The ids of the four collections are strictly increasing in collection order
and all below `b`. -/
def IdsBelow (a : AppState) (b : Nat) : Prop :=
  ((a.tasks.map Task.id).Pairwise (· < ·) ∧ ∀ i ∈ a.tasks.map Task.id, i < b) ∧
  ((a.notes.map Note.id).Pairwise (· < ·) ∧ ∀ i ∈ a.notes.map Note.id, i < b) ∧
  ((a.transactions.map Transaction.id).Pairwise (· < ·) ∧
    ∀ i ∈ a.transactions.map Transaction.id, i < b) ∧
  ((a.traders.map Trader.id).Pairwise (· < ·) ∧ ∀ i ∈ a.traders.map Trader.id, i < b)

/-! ## Predicates of the validators, the reminder and the collections -/

/-- The length is at most `maxLength`, where `none` is `Infinity`. -/
def withinMax (len : Nat) : Option Nat → Prop
  | none => True
  | some m => len ≤ m

instance (len : Nat) (maxLength : Option Nat) : Decidable (withinMax len maxLength) := by
  cases maxLength
  · exact inferInstanceAs (Decidable True)
  · exact inferInstanceAs (Decidable (len ≤ _))

/-- The length lies in `[minLength, maxLength]`. -/
def lengthWithin (len : Nat) (o : InputOptions) : Prop :=
  o.minLength ≤ len ∧ withinMax len o.maxLength

instance (len : Nat) (o : InputOptions) : Decidable (lengthWithin len o) :=
  inferInstanceAs (Decidable (o.minLength ≤ len ∧ withinMax len o.maxLength))

/-- The rejection rule of `validateInput` as the specification words it: the
value is required and empty after trimming, or the trimmed length lies outside
`[minLength, maxLength]`. -/
def specRejectsInput (raw : String) (o : InputOptions) : Prop :=
  (o.required = true ∧ jsTrim raw = "") ∨ ¬ lengthWithin (jsLength (jsTrim raw)) o

instance (raw : String) (o : InputOptions) : Decidable (specRejectsInput raw o) :=
  inferInstanceAs (Decidable ((o.required = true ∧ jsTrim raw = "") ∨
    ¬ lengthWithin (jsLength (jsTrim raw)) o))

/-- The number lies outside `[min, max]`: it is below `min` or above `max`. -/
def JSNum.outside (x min max : JSNum) : Prop := x.lt min = true ∨ x.gt max = true

instance (x min max : JSNum) : Decidable (x.outside min max) :=
  inferInstanceAs (Decidable (x.lt min = true ∨ x.gt max = true))

/-- The number lies inside `[min, max]`: `min <= x` and `x <= max`. -/
def JSNum.inside (x min max : JSNum) : Prop := x.ge min = true ∧ max.ge x = true

instance (x min max : JSNum) : Decidable (x.inside min max) :=
  inferInstanceAs (Decidable (x.ge min = true ∧ max.ge x = true))

/-- The field holds text that `parseFloat` reads as a number. -/
def parseable (P : Platform) (raw : String) : Prop := (P.parseFloat raw).isNaN = false

instance (P : Platform) (raw : String) : Decidable (parseable P raw) :=
  inferInstanceAs (Decidable ((P.parseFloat raw).isNaN = false))

/-- The header line of the message of `TaskManager.updateNotifications`, for
`n` incomplete tasks. -/
def TaskManager.notificationHeader (n : Nat) : String :=
  "المهام غير المنجزة (" ++ toString n ++ "):"

/-- The header line of the message of `WhatsAppService.sendTaskReminder`, for
`n` incomplete tasks. -/
def WhatsAppService.reminderHeader (n : Nat) : String :=
  "تذكير: لديك " ++ toString n ++ " مهمة غير منجزة:"

/-- The three tasks of the example: A and C open, B done. -/
def abcTasks : List Task :=
  [{ id := 1, text := "A", completed := false, createdAt := sampleIso },
   { id := 2, text := "B", completed := true, createdAt := sampleIso },
   { id := 3, text := "C", completed := false, createdAt := sampleIso }]

/-- The tasks A and C of the example. -/
def acTasks : List Task :=
  [{ id := 1, text := "A", completed := false, createdAt := sampleIso },
   { id := 3, text := "C", completed := false, createdAt := sampleIso }]

/-- A page holding the three tasks of the example. -/
def abcWorld : World := { World.empty with app := { World.empty.app with tasks := abcTasks } }

/-- A page whose only task is done. -/
def doneWorld : World :=
  { World.empty with app := { World.empty.app with
      tasks := [{ id := 2, text := "B", completed := true, createdAt := sampleIso }] } }

/-- A transaction form whose pay field holds text that is no number. -/
def unreadablePayForm : TransactionForm :=
  { date := "2024-01-01", operation := "Sale", pay := "abc", receive := "",
    call := "", contact := "", other := "" }

/-- The field is empty or holds text that `parseFloat` reads as a number, as
the value of a number field is. -/
def numberFieldValue (P : Platform) (raw : String) : Prop := raw = "" ∨ parseable P raw

instance (P : Platform) (raw : String) : Decidable (numberFieldValue P raw) :=
  inferInstanceAs (Decidable (raw = "" ∨ parseable P raw))

/-- The stored amount answers the field it was read from: zero for an empty
field, and a number `>= 0` whenever the field is empty or holds a number. -/
def amountStored (P : Platform) (raw : String) (stored : JSNum) : Prop :=
  (raw = "" → stored = .fin 0) ∧ (numberFieldValue P raw → stored.ge (.fin 0) = true)

instance (P : Platform) (raw : String) (stored : JSNum) : Decidable (amountStored P raw stored) :=
  inferInstanceAs (Decidable ((raw = "" → stored = .fin 0) ∧
    (numberFieldValue P raw → stored.ge (.fin 0) = true)))

/-- The id and the creation time of a task. -/
def Task.stamp (t : Task) : Nat × String := (t.id, t.createdAt)

/-- The id and the creation time of a note. -/
def Note.stamp (n : Note) : Nat × String := (n.id, n.createdAt)

/-- The id and the creation time of a transaction. -/
def Transaction.stamp (t : Transaction) : Nat × String := (t.id, t.createdAt)

/-- The id and the creation time of a trader. -/
def Trader.stamp (t : Trader) : Nat × String := (t.id, t.createdAt)

/-- The text is not empty, is its own trimmed form and has at most `bound`
characters, counted as `.length` counts them and hence also as code points. -/
def textOk (bound : Nat) (s : String) : Prop :=
  s ≠ "" ∧ jsTrim s = s ∧ jsLength s ≤ bound ∧ s.length ≤ bound

instance (bound : Nat) (s : String) : Decidable (textOk bound s) :=
  inferInstanceAs (Decidable (s ≠ "" ∧ jsTrim s = s ∧ jsLength s ≤ bound ∧ s.length ≤ bound))

/-- The text bounds of the data model hold of every record of the four
collections. -/
def AppState.textsOk (a : AppState) : Prop :=
  (∀ t ∈ a.tasks, textOk 200 t.text) ∧ (∀ n ∈ a.notes, textOk 1000 n.text) ∧
  (∀ t ∈ a.transactions, textOk 100 t.operation) ∧ (∀ t ∈ a.traders, textOk 50 t.name)

/-- How one event changes a collection: it leaves it as it is, appends one
record, rewrites the records under an id in place, or removes the records under
an id.  `good` holds of an appended record and is kept by a rewrite; `keeps`
relates a record to its rewritten form. -/
inductive Change {α : Type} (key : α → Nat) (good : α → Prop) (keeps : α → α → Prop)
    (before : List α) : List α → Prop
  | same : Change key good keeps before before
  | added (r : α) (hr : good r) : Change key good keeps before (before ++ [r])
  | updated (i : Nat) (upd : α → α) (hupd : ∀ r, keeps r (upd r) ∧ (good r → good (upd r))) :
    Change key good keeps before (before.map fun r => if key r = i then upd r else r)
  | removed (i : Nat) :
    Change key good keeps before (before.filter fun r => decide (key r ≠ i))

/-- The records of a collection are in the order they had: one was appended at
the end, or the length and the sequence of ids are unchanged, or the collection
is a subsequence of the previous one. -/
def orderKept {α : Type} (key : α → Nat) (before after : List α) : Prop :=
  (∃ r, after = before ++ [r]) ∨
  (after.length = before.length ∧ after.map key = before.map key) ∨
  after.Sublist before

/-- The first field, in the order listed, whose validator rejected; each field
comes with the result of its validator. -/
def firstFailing : List (String × Bool) → Option String
  | [] => none
  | (el, ok) :: rest => if ok then firstFailing rest else some el

/-- The field a page write gives the focus to, when it is a `focus()` call. -/
def Effect.focusTarget : Effect → Option String
  | .focus el => some el
  | _ => none

/-- The fields given the focus by a list of page writes, in order. -/
def focusedFields (es : List Effect) : List String := es.filterMap Effect.focusTarget

/-- A transaction form with a well-formed date, a blank operation and a
negative pay. -/
def twoFailuresForm : TransactionForm :=
  { date := "2024-01-01", operation := "  ", pay := "-5", receive := "",
    call := "", contact := "", other := "" }

/-- The task `t1` is the task `t` after a toggle of the id `i`: the completed
flag is negated when the id of `t` is `i`, and every other field is as it was. -/
def toggledFrom (i : Nat) (t t1 : Task) : Prop :=
  t1.id = t.id ∧ t1.text = t.text ∧ t1.createdAt = t.createdAt ∧
  t1.completed = (if t.id = i then !t.completed else t.completed)

instance (i : Nat) (t t1 : Task) : Decidable (toggledFrom i t t1) :=
  inferInstanceAs (Decidable (t1.id = t.id ∧ t1.text = t.text ∧ t1.createdAt = t.createdAt ∧
    t1.completed = (if t.id = i then !t.completed else t.completed)))

/-! ## The record store -/

theorem saveToStorage_fst_app (P : Platform) (w : World) (key : String) (data : JSValue)
    (writeOk : Bool) : (AppState.saveToStorage P w key data writeOk).1.app = w.app := by
  unfold AppState.saveToStorage
  split <;> rfl

theorem saveToStorage_writeOk_false (P : Platform) (w : World) (key : String)
    (data : JSValue) :
    AppState.saveToStorage P w key data false =
      (w.emit [.consoleError key, .toast saveErrorToast "danger"], false) := by
  unfold AppState.saveToStorage AppState.saveToStorage.tryBody LocalStorage.setItem
  cases P.jsonStringify data <;> rfl

theorem saveToStorage_false_iff (P : Platform) (w : World) (key : String) (data : JSValue)
    (writeOk : Bool) :
    (AppState.saveToStorage P w key data writeOk).2 = false ↔
      AppState.saveToStorage P w key data writeOk =
        (w.emit [.consoleError key, .toast saveErrorToast "danger"], false) := by
  unfold AppState.saveToStorage
  split <;> simp

/-! ## Validation precedes mutation -/

/-- **C1.** A candidate that fails one of the validators its operation applies
is rejected by the add operation and by the edit-save handler of each of the four
managers: the four collections and the content of `localStorage` after the call
are those before it. -/
theorem invalid_input_rejected (P : Platform) (w : World) (id now : Nat) (iso : String)
    (writeOk : Bool) (text : String) (f : TransactionForm) (g : TraderForm) :
    (Validator.validateInput text { maxLength := some 200 } = false →
      (TaskManager.addTask P w text now iso writeOk).sameData w ∧
      (TaskManager.saveEdit P w id text writeOk).sameData w) ∧
    (Validator.validateInput text { maxLength := some 1000 } = false →
      (NoteManager.addNote P w text now iso writeOk).sameData w ∧
      (NoteManager.saveEdit P w id text writeOk).sameData w) ∧
    (Validator.validateDate P f.date true = false ∨
        Validator.validateInput f.operation { maxLength := some 100 } = false ∨
        Validator.validateNumber P f.pay { min := .fin 0 } = false ∨
        Validator.validateNumber P f.receive { min := .fin 0 } = false →
      (TransactionManager.addTransaction P w f now iso writeOk).sameData w ∧
      (TransactionManager.saveEdit P w id f writeOk).sameData w) ∧
    (Validator.validateInput g.name { maxLength := some 50 } = false ∨
        Validator.validateNumber P g.amount { min := .fin 0, required := true } = false →
      (TraderManager.addTrader P w g now iso writeOk).sameData w ∧
      (TraderManager.saveEdit P w id g writeOk).sameData w) := by
  refine ⟨?_, ?_, ?_, ?_⟩
  · intro h
    simp [TaskManager.addTask, TaskManager.saveEdit, h, World.sameData, World.emit]
  · intro h
    simp [NoteManager.addNote, NoteManager.saveEdit, h, World.sameData, World.emit]
  · intro h
    have hb : (!Validator.validateDate P f.date true ||
        !Validator.validateInput f.operation { maxLength := some 100 } ||
        !Validator.validateNumber P f.pay { min := .fin 0 } ||
        !Validator.validateNumber P f.receive { min := .fin 0 }) = true := by
      rcases h with h | h | h | h <;> simp [h]
    simp [TransactionManager.addTransaction, TransactionManager.saveEdit, hb, World.sameData,
      World.emit]
  · intro h
    have hb : (!Validator.validateInput g.name { maxLength := some 50 } ||
        !Validator.validateNumber P g.amount { min := .fin 0, required := true }) = true := by
      rcases h with h | h <;> simp [h]
    simp [TraderManager.addTrader, TraderManager.saveEdit, hb, World.sameData, World.emit]

/-- The rejection of C1 on the sample page: a blank task text, a transaction with
a negative pay and a trader without an amount leave the page data as it was. -/
theorem invalid_input_rejected_witness :
    (TaskManager.addTask Reference.platform sampleWorld "   " 2000 sampleIso true).sameData
      sampleWorld ∧
    (TransactionManager.saveEdit Reference.platform sampleWorld 1002 negativePayForm
      true).sameData sampleWorld ∧
    (TraderManager.addTrader Reference.platform sampleWorld blankAmountForm 2000 sampleIso
      true).sameData sampleWorld :=
  have h := invalid_input_rejected Reference.platform sampleWorld 1002 2000 sampleIso true
    "   " negativePayForm blankAmountForm
  ⟨(h.1 (by decide)).1, (h.2.2.1 (Or.inr (Or.inr (Or.inl (by decide))))).2,
    (h.2.2.2 (Or.inr (by decide))).1⟩

/-! ## The collections after each operation -/

@[simp] theorem World.emit_app (w : World) (es : List Effect) : (w.emit es).app = w.app := rfl

@[simp] theorem World.emit_localStorage (w : World) (es : List Effect) :
    (w.emit es).localStorage = w.localStorage := rfl

@[simp] theorem updateNotifications_app (w : World) :
    (TaskManager.updateNotifications w).app = w.app := by
  simp only [TaskManager.updateNotifications]
  split <;> rfl

@[simp] theorem updateNotifications_localStorage (w : World) :
    (TaskManager.updateNotifications w).localStorage = w.localStorage := by
  simp only [TaskManager.updateNotifications]
  split <;> rfl

@[simp] theorem clearTransactionInputs_app (w : World) :
    (TransactionManager.clearTransactionInputs w).app = w.app := rfl

@[simp] theorem clearTransactionInputs_localStorage (w : World) :
    (TransactionManager.clearTransactionInputs w).localStorage = w.localStorage := rfl

/-- Whatever the two branches after a save write to the page, the collections
are those handed to `saveToStorage`. -/
theorem app_after_save (P : Platform) (w : World) (key : String) (data : JSValue)
    (writeOk : Bool) (onSaved onFailed : World → World)
    (h1 : ∀ v, (onSaved v).app = v.app) (h2 : ∀ v, (onFailed v).app = v.app) :
    (match AppState.saveToStorage P w key data writeOk with
      | (v, true) => onSaved v
      | (v, false) => onFailed v).app = w.app := by
  have h := saveToStorage_fst_app P w key data writeOk
  generalize AppState.saveToStorage P w key data writeOk = r at h
  obtain ⟨v, b⟩ := r
  cases b
  · simpa [h2] using h
  · simpa [h1] using h

theorem addTask_app (P : Platform) (w : World) (taskInput : String) (now : Nat)
    (iso : String) (writeOk : Bool) :
    (TaskManager.addTask P w taskInput now iso writeOk).app =
      if Validator.validateInput taskInput { maxLength := some 200 } then
        { w.app with tasks := w.app.tasks ++
            [{ id := now, text := jsTrim taskInput, completed := false, createdAt := iso }] }
      else w.app := by
  unfold TaskManager.addTask
  by_cases hv : Validator.validateInput taskInput { maxLength := some 200 } = true
  · simp only [hv, Bool.not_true, Bool.false_eq_true, if_false, if_true]
    rw [app_after_save] <;> simp
  · simp [hv]

theorem toggleTask_app (P : Platform) (w : World) (id : Nat) (writeOk : Bool) :
    (TaskManager.toggleTask P w id writeOk).app =
      { w.app with tasks := w.app.tasks.map fun task =>
          if task.id = id then { task with completed := !task.completed } else task } := by
  unfold TaskManager.toggleTask
  rw [app_after_save] <;> simp

theorem editTask_eq (w : World) (id : Nat) :
    TaskManager.editTask w id = w ∨
      TaskManager.editTask w id = w.emit [.showModal "editModal"] := by
  unfold TaskManager.editTask
  split
  · exact Or.inl rfl
  · exact Or.inr rfl

theorem saveEditTask_app (P : Platform) (w : World) (id : Nat) (editInput : String)
    (writeOk : Bool) :
    (TaskManager.saveEdit P w id editInput writeOk).app =
      if Validator.validateInput editInput { maxLength := some 200 } then
        { w.app with tasks := w.app.tasks.map fun task =>
            if task.id = id then { task with text := jsTrim editInput } else task }
      else w.app := by
  unfold TaskManager.saveEdit
  by_cases hv : Validator.validateInput editInput { maxLength := some 200 } = true
  · simp only [hv, Bool.not_true, Bool.false_eq_true, if_false, if_true]
    rw [app_after_save] <;> simp
  · simp [hv]

theorem deleteTask_app (P : Platform) (w : World) (id : Nat) (confirmed writeOk : Bool) :
    (TaskManager.deleteTask P w id confirmed writeOk).app =
      if confirmed then
        { w.app with tasks := w.app.tasks.filter fun task => decide (task.id ≠ id) }
      else w.app := by
  unfold TaskManager.deleteTask
  cases confirmed
  · simp
  · simp only [Bool.not_true, Bool.false_eq_true, if_false, if_true, World.emit_app]
    rw [app_after_save] <;> simp

theorem addNote_app (P : Platform) (w : World) (noteInput : String) (now : Nat)
    (iso : String) (writeOk : Bool) :
    (NoteManager.addNote P w noteInput now iso writeOk).app =
      if Validator.validateInput noteInput { maxLength := some 1000 } then
        { w.app with notes := w.app.notes ++
            [{ id := now, text := jsTrim noteInput, createdAt := iso }] }
      else w.app := by
  unfold NoteManager.addNote
  by_cases hv : Validator.validateInput noteInput { maxLength := some 1000 } = true
  · simp only [hv, Bool.not_true, Bool.false_eq_true, if_false, if_true]
    rw [app_after_save] <;> simp
  · simp [hv]

theorem editNote_eq (w : World) (id : Nat) :
    NoteManager.editNote w id = w ∨
      NoteManager.editNote w id = w.emit [.showModal "editModal"] := by
  unfold NoteManager.editNote
  split
  · exact Or.inl rfl
  · exact Or.inr rfl

theorem saveEditNote_app (P : Platform) (w : World) (id : Nat) (editInput : String)
    (writeOk : Bool) :
    (NoteManager.saveEdit P w id editInput writeOk).app =
      if Validator.validateInput editInput { maxLength := some 1000 } then
        { w.app with notes := w.app.notes.map fun note =>
            if note.id = id then { note with text := jsTrim editInput } else note }
      else w.app := by
  unfold NoteManager.saveEdit
  by_cases hv : Validator.validateInput editInput { maxLength := some 1000 } = true
  · simp only [hv, Bool.not_true, Bool.false_eq_true, if_false, if_true]
    rw [app_after_save] <;> simp
  · simp [hv]

theorem deleteNote_app (P : Platform) (w : World) (id : Nat) (confirmed writeOk : Bool) :
    (NoteManager.deleteNote P w id confirmed writeOk).app =
      if confirmed then
        { w.app with notes := w.app.notes.filter fun note => decide (note.id ≠ id) }
      else w.app := by
  unfold NoteManager.deleteNote
  cases confirmed
  · simp
  · simp only [Bool.not_true, Bool.false_eq_true, if_false, if_true, World.emit_app]
    rw [app_after_save] <;> simp

theorem transaction_guard (P : Platform) (f : TransactionForm) :
    (!Validator.validateDate P f.date true ||
      !Validator.validateInput f.operation { maxLength := some 100 } ||
      !Validator.validateNumber P f.pay { min := .fin 0 } ||
      !Validator.validateNumber P f.receive { min := .fin 0 }) = !f.accepted P := by
  simp [TransactionForm.accepted, Bool.not_and]

theorem trader_guard (P : Platform) (g : TraderForm) :
    (!Validator.validateInput g.name { maxLength := some 50 } ||
      !Validator.validateNumber P g.amount { min := .fin 0, required := true }) =
      !g.accepted P := by
  simp [TraderForm.accepted, Bool.not_and]

theorem addTransaction_app (P : Platform) (w : World) (f : TransactionForm) (now : Nat)
    (iso : String) (writeOk : Bool) :
    (TransactionManager.addTransaction P w f now iso writeOk).app =
      if f.accepted P then
        { w.app with transactions := w.app.transactions ++
            [{ id := now, date := f.date, operation := jsTrim f.operation,
               pay := parseAmountOrZero P f.pay, receive := parseAmountOrZero P f.receive,
               call := jsTrim f.call, contact := jsTrim f.contact, other := jsTrim f.other,
               createdAt := iso }] }
      else w.app := by
  unfold TransactionManager.addTransaction
  simp only [transaction_guard]
  by_cases hv : f.accepted P = true
  · simp only [hv, Bool.not_true, Bool.false_eq_true, if_false, if_true]
    rw [app_after_save] <;> simp
  · simp [hv]

theorem editTransaction_eq (w : World) (id : Nat) :
    TransactionManager.editTransaction w id = w ∨
      TransactionManager.editTransaction w id = w.emit [.showModal "editModal"] := by
  unfold TransactionManager.editTransaction
  split
  · exact Or.inl rfl
  · exact Or.inr rfl

theorem saveEditTransaction_app (P : Platform) (w : World) (id : Nat) (f : TransactionForm)
    (writeOk : Bool) :
    (TransactionManager.saveEdit P w id f writeOk).app =
      if f.accepted P then
        { w.app with transactions := w.app.transactions.map fun t =>
            if t.id = id then
              { t with
                date := f.date
                operation := jsTrim f.operation
                pay := parseAmountOrZero P f.pay
                receive := parseAmountOrZero P f.receive
                call := jsTrim f.call
                contact := jsTrim f.contact
                other := jsTrim f.other }
            else t }
      else w.app := by
  unfold TransactionManager.saveEdit
  simp only [transaction_guard]
  by_cases hv : f.accepted P = true
  · simp only [hv, Bool.not_true, Bool.false_eq_true, if_false, if_true]
    rw [app_after_save] <;> simp
  · simp [hv]

theorem deleteTransaction_app (P : Platform) (w : World) (id : Nat)
    (confirmed writeOk : Bool) :
    (TransactionManager.deleteTransaction P w id confirmed writeOk).app =
      if confirmed then
        { w.app with transactions := w.app.transactions.filter fun t => decide (t.id ≠ id) }
      else w.app := by
  unfold TransactionManager.deleteTransaction
  cases confirmed
  · simp
  · simp only [Bool.not_true, Bool.false_eq_true, if_false, if_true, World.emit_app]
    rw [app_after_save] <;> simp

theorem addTrader_app (P : Platform) (w : World) (g : TraderForm) (now : Nat)
    (iso : String) (writeOk : Bool) :
    (TraderManager.addTrader P w g now iso writeOk).app =
      if g.accepted P then
        { w.app with traders := w.app.traders ++
            [{ id := now, name := jsTrim g.name, amount := P.parseFloat g.amount,
               createdAt := iso }] }
      else w.app := by
  unfold TraderManager.addTrader
  simp only [trader_guard]
  by_cases hv : g.accepted P = true
  · simp only [hv, Bool.not_true, Bool.false_eq_true, if_false, if_true]
    rw [app_after_save] <;> simp
  · simp [hv]

theorem editTrader_eq (w : World) (id : Nat) :
    TraderManager.editTrader w id = w ∨
      TraderManager.editTrader w id = w.emit [.showModal "editModal"] := by
  unfold TraderManager.editTrader
  split
  · exact Or.inl rfl
  · exact Or.inr rfl

theorem saveEditTrader_app (P : Platform) (w : World) (id : Nat) (g : TraderForm)
    (writeOk : Bool) :
    (TraderManager.saveEdit P w id g writeOk).app =
      if g.accepted P then
        { w.app with traders := w.app.traders.map fun t =>
            if t.id = id then
              { t with name := jsTrim g.name, amount := P.parseFloat g.amount }
            else t }
      else w.app := by
  unfold TraderManager.saveEdit
  simp only [trader_guard]
  by_cases hv : g.accepted P = true
  · simp only [hv, Bool.not_true, Bool.false_eq_true, if_false, if_true]
    rw [app_after_save] <;> simp
  · simp [hv]

theorem deleteTrader_app (P : Platform) (w : World) (id : Nat) (confirmed writeOk : Bool) :
    (TraderManager.deleteTrader P w id confirmed writeOk).app =
      if confirmed then
        { w.app with traders := w.app.traders.filter fun t => decide (t.id ≠ id) }
      else w.app := by
  unfold TraderManager.deleteTrader
  cases confirmed
  · simp
  · simp only [Bool.not_true, Bool.false_eq_true, if_false, if_true, World.emit_app]
    rw [app_after_save] <;> simp

@[simp] theorem sendTaskReminder_app (w : World) :
    (WhatsAppService.sendTaskReminder w).app = w.app := by
  simp only [WhatsAppService.sendTaskReminder]
  split <;> rfl

/-! ## A valid candidate is appended -/

theorem strTruthy_eq_true_iff (s : String) : strTruthy s = true ↔ s ≠ "" := by
  simp [strTruthy]

theorem strTruthy_of_jsLength_pos (s : String) (h : 1 ≤ jsLength s) : strTruthy s = true := by
  rw [strTruthy_eq_true_iff]
  rintro rfl
  simp [jsLength] at h

theorem validateInput_of_within (raw : String) (n : Nat) (h : trimmedLengthWithin raw 1 n) :
    Validator.validateInput raw { maxLength := some n } = true := by
  obtain ⟨h1, h2⟩ := h
  have ht := strTruthy_of_jsLength_pos _ h1
  simp [Validator.validateInput, ht, exceedsMax]
  omega

theorem JSNum.lt_posInf_left (x : JSNum) : JSNum.lt .posInf x = false := by
  cases x <;> rfl

theorem validateNumber_of_nonNegative (P : Platform) (raw : String) (required : Bool)
    (hblank : required = true → jsTrim raw ≠ "") (h : holdsNonNegative P raw) :
    Validator.validateNumber P raw { min := .fin 0, required := required } = true := by
  unfold holdsNonNegative JSNum.ge at h
  simp only [Bool.and_eq_true, Bool.not_eq_true'] at h
  obtain ⟨⟨hn, -⟩, hlt⟩ := h
  cases required with
  | false => simp [Validator.validateNumber, hn, hlt, JSNum.gt, JSNum.lt_posInf_left]
  | true =>
    have hb := hblank rfl
    simp [Validator.validateNumber, hn, hlt, JSNum.gt, JSNum.lt_posInf_left, hb]

theorem validateNumber_of_optional (P : Platform) (hNaN : P.parseFloat "" = .nan)
    (raw : String) (h : raw = "" ∨ holdsNonNegative P raw) :
    Validator.validateNumber P raw { min := .fin 0 } = true := by
  rcases h with rfl | h
  · simp [Validator.validateNumber, hNaN, JSNum.isNaN]
  · exact validateNumber_of_nonNegative P raw false (by simp) h

theorem validateDate_of_wellFormed (P : Platform) (raw : String) (h : wellFormedDate P raw) :
    Validator.validateDate P raw true = true := by
  obtain ⟨h1, h2⟩ := h
  simp [Validator.validateDate, strTruthy, h1, h2]

theorem parseAmountOrZero_eq (P : Platform) (raw : String) :
    parseAmountOrZero P raw = parsedOrDefault P raw := by
  unfold parseAmountOrZero parsedOrDefault strTruthy
  by_cases h : raw = "" <;> simp [h]

theorem accepted_of_withinBounds (P : Platform) (hNaN : P.parseFloat "" = .nan)
    (f : TransactionForm) (h : f.withinBounds P) : f.accepted P = true := by
  obtain ⟨hd, ho, hp, hr⟩ := h
  simp [TransactionForm.accepted, validateDate_of_wellFormed P _ hd,
    validateInput_of_within _ _ ho, validateNumber_of_optional P hNaN _ hp,
    validateNumber_of_optional P hNaN _ hr]

theorem trader_accepted_of_withinBounds (P : Platform) (g : TraderForm)
    (h : g.withinBounds P) : g.accepted P = true := by
  obtain ⟨hn, hb, ha⟩ := h
  simp [TraderForm.accepted, validateInput_of_within _ _ hn,
    validateNumber_of_nonNegative P _ true (fun _ => hb) ha]

/-- A transaction form within the bounds whose date carries leading white space
is added, the save succeeding, with the date as entered: the stored date is not
the trimmed input. -/
theorem padded_date_stored_untrimmed :
    paddedDateForm.withinBounds Reference.platform ∧
    (TransactionManager.addTransaction Reference.platform World.empty paddedDateForm 1000
      sampleIso true).app.transactions.map Transaction.date = [" 2024-01-01"] ∧
    ((TransactionManager.addTransaction Reference.platform World.empty paddedDateForm 1000
      sampleIso true).localStorage.getItem "transactions").isSome = true ∧
    jsTrim " 2024-01-01" = "2024-01-01" ∧ (" 2024-01-01" : String) ≠ "2024-01-01" := by
  decide

/-- **C2 (amended).** On a platform whose `parseFloat` reads the empty string as
`NaN`, a candidate within the bounds of the data model is appended by the add
operation: the collection afterwards is the old collection followed by exactly
one record, whose text fields are the trimmed input except the date of a
transaction, which is the input as entered, whose numeric fields are the parsed
input (zero for an empty pay or receive field), and which, for a task, is not
completed.  This holds for every outcome of the save, in particular when it
succeeds. -/
theorem valid_add_appends (P : Platform) (hNaN : P.parseFloat "" = .nan) (w : World)
    (now : Nat) (iso : String) (writeOk : Bool) (text : String) (f : TransactionForm)
    (g : TraderForm) :
    (trimmedLengthWithin text 1 200 →
      (TaskManager.addTask P w text now iso writeOk).app.tasks =
        w.app.tasks ++ [{ id := now, text := jsTrim text, completed := false,
                          createdAt := iso }]) ∧
    (trimmedLengthWithin text 1 1000 →
      (NoteManager.addNote P w text now iso writeOk).app.notes =
        w.app.notes ++ [{ id := now, text := jsTrim text, createdAt := iso }]) ∧
    (f.withinBounds P →
      (TransactionManager.addTransaction P w f now iso writeOk).app.transactions =
        w.app.transactions ++
          [{ id := now, date := f.date, operation := jsTrim f.operation,
             pay := parsedOrDefault P f.pay, receive := parsedOrDefault P f.receive,
             call := jsTrim f.call, contact := jsTrim f.contact, other := jsTrim f.other,
             createdAt := iso }]) ∧
    (g.withinBounds P →
      (TraderManager.addTrader P w g now iso writeOk).app.traders =
        w.app.traders ++ [{ id := now, name := jsTrim g.name,
                            amount := P.parseFloat g.amount, createdAt := iso }]) := by
  refine ⟨?_, ?_, ?_, ?_⟩
  · intro h
    rw [addTask_app, validateInput_of_within text 200 h]
    rfl
  · intro h
    rw [addNote_app, validateInput_of_within text 1000 h]
    rfl
  · intro h
    rw [addTransaction_app, accepted_of_withinBounds P hNaN f h]
    simp [parseAmountOrZero_eq]
  · intro h
    rw [addTrader_app, trader_accepted_of_withinBounds P g h]
    rfl

/-- The append of C2 on the sample page, on the reference platform: a task text,
a note text, a transaction form and a trader form within the bounds. -/
theorem valid_add_appends_witness :
    (TaskManager.addTask Reference.platform sampleWorld "  Pay rent " 2000 sampleIso
        true).app.tasks =
      [{ id := 1000, text := "Buy milk", completed := false, createdAt := sampleIso },
       { id := 2000, text := "Pay rent", completed := false, createdAt := sampleIso }] ∧
    (TransactionManager.addTransaction Reference.platform sampleWorld sampleTransactionForm
        2000 sampleIso true).app.transactions =
      sampleWorld.app.transactions ++
        [{ id := 2000, date := "2024-02-29", operation := "Purchase", pay := .fin 75,
           receive := .fin 0, call := "yes", contact := "Huda", other := "",
           createdAt := sampleIso }] ∧
    (TraderManager.addTrader Reference.platform sampleWorld sampleTraderForm 2000 sampleIso
        true).app.traders =
      sampleWorld.app.traders ++
        [{ id := 2000, name := "Layla", amount := .fin 120, createdAt := sampleIso }] :=
  have h := valid_add_appends Reference.platform (by decide) sampleWorld 2000 sampleIso true
    "  Pay rent " sampleTransactionForm sampleTraderForm
  ⟨(h.1 (by decide)).trans (by decide), (h.2.2.1 (by decide)).trans (by decide),
    (h.2.2.2 (by decide)).trans (by decide)⟩

/-! ## Edit-save -/

/-- Rewriting the records under a key commutes with selecting that key, when the
rewrite keeps the key. -/
theorem filter_key_map_update {α : Type} (key : α → Nat) (upd : α → α) (i : Nat)
    (hk : ∀ r, key (upd r) = key r) (l : List α) :
    (l.map fun r => if key r = i then upd r else r).filter (fun r => decide (key r = i)) =
      (l.filter fun r => decide (key r = i)).map upd := by
  induction l with
  | nil => rfl
  | cons a l ih =>
    by_cases h : key a = i
    · simp [List.filter_cons, h, hk, ih]
    · simp [List.filter_cons, h, ih]

/-- Two tasks added at the same clock reading, then an edit-save on their id:
the collection holds two records with that id, not exactly one.  And an
edit-save of the sample transaction with a date that carries leading white
space stores the date as entered, not trimmed. -/
theorem edit_with_duplicate_ids :
    ((∃ r ∈ collidedWorld.app.tasks, r.id = 1000) ∧
      trimmedLengthWithin "Buy eggs" 1 200 ∧
      ((TaskManager.saveEdit Reference.platform collidedWorld 1000 "Buy eggs"
        true).app.tasks.filter fun r => decide (r.id = 1000)).length = 2) ∧
    (paddedDateForm.withinBounds Reference.platform ∧
      (TransactionManager.saveEdit Reference.platform sampleWorld 1002 paddedDateForm
        true).app.transactions.map Transaction.date = [" 2024-01-01"] ∧
      jsTrim " 2024-01-01" = "2024-01-01" ∧ (" 2024-01-01" : String) ≠ "2024-01-01") := by
  decide

/-- **C3 (amended).** When exactly one record of the collection has id `i` and
the update fields are within the bounds of the data model, the collection after
the edit-save for `i` holds exactly one record with id `i`: the record it held
before, with the same `id`, `createdAt` (and, for a task, `completed`), and with
its mutable fields replaced by the update fields: the text fields trimmed, except
the date of a transaction, which is stored as entered, and the numeric fields
parsed (zero for an empty pay or receive field).  The platform is one whose
`parseFloat` reads the empty string as `NaN`. -/
theorem edit_updates_the_record (P : Platform) (hNaN : P.parseFloat "" = .nan) (w : World)
    (i : Nat) (writeOk : Bool) (text : String) (f : TransactionForm) (g : TraderForm) :
    (∀ r0 : Task, (w.app.tasks.filter fun r => decide (r.id = i)) = [r0] →
      trimmedLengthWithin text 1 200 →
      ((TaskManager.saveEdit P w i text writeOk).app.tasks.filter
        fun r => decide (r.id = i)) = [{ r0 with text := jsTrim text }]) ∧
    (∀ r0 : Note, (w.app.notes.filter fun r => decide (r.id = i)) = [r0] →
      trimmedLengthWithin text 1 1000 →
      ((NoteManager.saveEdit P w i text writeOk).app.notes.filter
        fun r => decide (r.id = i)) = [{ r0 with text := jsTrim text }]) ∧
    (∀ r0 : Transaction, (w.app.transactions.filter fun r => decide (r.id = i)) = [r0] →
      f.withinBounds P →
      ((TransactionManager.saveEdit P w i f writeOk).app.transactions.filter
        fun r => decide (r.id = i)) =
        [{ r0 with
           date := f.date
           operation := jsTrim f.operation
           pay := parsedOrDefault P f.pay
           receive := parsedOrDefault P f.receive
           call := jsTrim f.call
           contact := jsTrim f.contact
           other := jsTrim f.other }]) ∧
    (∀ r0 : Trader, (w.app.traders.filter fun r => decide (r.id = i)) = [r0] →
      g.withinBounds P →
      ((TraderManager.saveEdit P w i g writeOk).app.traders.filter
        fun r => decide (r.id = i)) =
        [{ r0 with name := jsTrim g.name, amount := P.parseFloat g.amount }]) := by
  refine ⟨?_, ?_, ?_, ?_⟩
  · intro r0 h0 h
    rw [saveEditTask_app, validateInput_of_within text 200 h]
    simp only [if_true]
    rw [filter_key_map_update Task.id (fun r => { r with text := jsTrim text }) i
      (fun _ => rfl), h0]
    rfl
  · intro r0 h0 h
    rw [saveEditNote_app, validateInput_of_within text 1000 h]
    simp only [if_true]
    rw [filter_key_map_update Note.id (fun r => { r with text := jsTrim text }) i
      (fun _ => rfl), h0]
    rfl
  · intro r0 h0 h
    rw [saveEditTransaction_app, accepted_of_withinBounds P hNaN f h]
    simp only [if_true]
    rw [filter_key_map_update Transaction.id
      (fun t => { t with
        date := f.date
        operation := jsTrim f.operation
        pay := parseAmountOrZero P f.pay
        receive := parseAmountOrZero P f.receive
        call := jsTrim f.call
        contact := jsTrim f.contact
        other := jsTrim f.other }) i (fun _ => rfl), h0]
    simp [parseAmountOrZero_eq]
  · intro r0 h0 h
    rw [saveEditTrader_app, trader_accepted_of_withinBounds P g h]
    simp only [if_true]
    rw [filter_key_map_update Trader.id
      (fun t => { t with name := jsTrim g.name, amount := P.parseFloat g.amount }) i
      (fun _ => rfl), h0]
    rfl

/-- The edit-save of C3 on the sample page, on the reference platform. -/
theorem edit_updates_the_record_witness :
    ((TaskManager.saveEdit Reference.platform sampleWorld 1000 " Buy milk and bread "
        true).app.tasks.filter fun r => decide (r.id = 1000)) =
      [{ id := 1000, text := "Buy milk and bread", completed := false,
         createdAt := sampleIso }] ∧
    ((TransactionManager.saveEdit Reference.platform sampleWorld 1002 sampleTransactionForm
        true).app.transactions.filter fun r => decide (r.id = 1002)) =
      [{ id := 1002, date := "2024-02-29", operation := "Purchase", pay := .fin 75,
         receive := .fin 0, call := "yes", contact := "Huda", other := "",
         createdAt := sampleIso }] :=
  have h := edit_updates_the_record Reference.platform (by decide) sampleWorld
  ⟨((h 1000 true " Buy milk and bread " sampleTransactionForm sampleTraderForm).1
      { id := 1000, text := "Buy milk", completed := false, createdAt := sampleIso }
      (by decide) (by decide)).trans (by decide),
   ((h 1002 true "" sampleTransactionForm sampleTraderForm).2.2.1
      { id := 1002, date := "2024-01-01", operation := "Sale", pay := .fin 0,
        receive := .fin 250, call := "", contact := "Omar", other := "",
        createdAt := sampleIso }
      (by decide) (by decide)).trans (by decide)⟩

/-! ## Delete -/

/-- What remains of a collection once the records under a key are dropped: no
record with that key, and a sublist of the collection (same records, same
order). -/
theorem filter_key_ne {α : Type} (key : α → Nat) (i : Nat) (l : List α) :
    (∀ r ∈ l.filter (fun r => decide (key r ≠ i)), key r ≠ i) ∧
    (l.filter fun r => decide (key r ≠ i)).Sublist l ∧
    (∀ r, r ∈ l.filter (fun r => decide (key r ≠ i)) ↔ r ∈ l ∧ key r ≠ i) := by
  refine ⟨?_, List.filter_sublist l, ?_⟩
  · intro r hr
    simpa using (List.mem_filter.mp hr).2
  · intro r
    simp [List.mem_filter]

/-- **C4.** After a confirmed delete of `i`, in each of the four managers, the
collection is the original sequence restricted to the records whose id differs
from `i`, in their original order (a sublist of the original that keeps every
record with another id), and it holds no record with id `i`. -/
theorem delete_removes_exactly (P : Platform) (w : World) (i : Nat) (writeOk : Bool) :
    ((TaskManager.deleteTask P w i true writeOk).app.tasks =
        w.app.tasks.filter (fun r => decide (r.id ≠ i)) ∧
      (∀ r ∈ (TaskManager.deleteTask P w i true writeOk).app.tasks, r.id ≠ i) ∧
      (TaskManager.deleteTask P w i true writeOk).app.tasks.Sublist w.app.tasks) ∧
    ((NoteManager.deleteNote P w i true writeOk).app.notes =
        w.app.notes.filter (fun r => decide (r.id ≠ i)) ∧
      (∀ r ∈ (NoteManager.deleteNote P w i true writeOk).app.notes, r.id ≠ i) ∧
      (NoteManager.deleteNote P w i true writeOk).app.notes.Sublist w.app.notes) ∧
    ((TransactionManager.deleteTransaction P w i true writeOk).app.transactions =
        w.app.transactions.filter (fun r => decide (r.id ≠ i)) ∧
      (∀ r ∈ (TransactionManager.deleteTransaction P w i true writeOk).app.transactions,
        r.id ≠ i) ∧
      (TransactionManager.deleteTransaction P w i true writeOk).app.transactions.Sublist
        w.app.transactions) ∧
    ((TraderManager.deleteTrader P w i true writeOk).app.traders =
        w.app.traders.filter (fun r => decide (r.id ≠ i)) ∧
      (∀ r ∈ (TraderManager.deleteTrader P w i true writeOk).app.traders, r.id ≠ i) ∧
      (TraderManager.deleteTrader P w i true writeOk).app.traders.Sublist w.app.traders) := by
  rw [deleteTask_app, deleteNote_app, deleteTransaction_app, deleteTrader_app]
  exact ⟨⟨rfl, (filter_key_ne Task.id i _).1, (filter_key_ne Task.id i _).2.1⟩,
    ⟨rfl, (filter_key_ne Note.id i _).1, (filter_key_ne Note.id i _).2.1⟩,
    ⟨rfl, (filter_key_ne Transaction.id i _).1, (filter_key_ne Transaction.id i _).2.1⟩,
    ⟨rfl, (filter_key_ne Trader.id i _).1, (filter_key_ne Trader.id i _).2.1⟩⟩

/-! ## Operations on an id that no record holds -/

theorem map_update_absent {α : Type} (key : α → Nat) (upd : α → α) (i : Nat) (l : List α)
    (h : ∀ r ∈ l, key r ≠ i) : (l.map fun r => if key r = i then upd r else r) = l := by
  induction l with
  | nil => rfl
  | cons a l ih =>
    have ha : key a ≠ i := h a (List.mem_cons_self a l)
    simp [ha, ih fun r hr => h r (List.mem_cons_of_mem a hr)]

theorem filter_absent {α : Type} (key : α → Nat) (i : Nat) (l : List α)
    (h : ∀ r ∈ l, key r ≠ i) : (l.filter fun r => decide (key r ≠ i)) = l := by
  rw [List.filter_eq_self]
  intro r hr
  simpa using h r hr

theorem find_absent {α : Type} (key : α → Nat) (i : Nat) (l : List α)
    (h : ∀ r ∈ l, key r ≠ i) : (l.find? fun r => decide (key r = i)) = none := by
  rw [List.find?_eq_none]
  intro r hr
  simpa using h r hr

/-- **C5.** When no record of the collection holds the id `i`, the delete
(confirmed or not), the edit, the edit-save and, for tasks, the toggle called
with `i` leave the four collections as they were, element for element; opening
the editor does nothing at all. -/
theorem absent_id_is_noop (P : Platform) (w : World) (i : Nat) (confirmed writeOk : Bool)
    (text : String) (f : TransactionForm) (g : TraderForm) :
    ((∀ r ∈ w.app.tasks, r.id ≠ i) →
      (TaskManager.deleteTask P w i confirmed writeOk).app = w.app ∧
      TaskManager.editTask w i = w ∧
      (TaskManager.saveEdit P w i text writeOk).app = w.app ∧
      (TaskManager.toggleTask P w i writeOk).app = w.app) ∧
    ((∀ r ∈ w.app.notes, r.id ≠ i) →
      (NoteManager.deleteNote P w i confirmed writeOk).app = w.app ∧
      NoteManager.editNote w i = w ∧
      (NoteManager.saveEdit P w i text writeOk).app = w.app) ∧
    ((∀ r ∈ w.app.transactions, r.id ≠ i) →
      (TransactionManager.deleteTransaction P w i confirmed writeOk).app = w.app ∧
      TransactionManager.editTransaction w i = w ∧
      (TransactionManager.saveEdit P w i f writeOk).app = w.app) ∧
    ((∀ r ∈ w.app.traders, r.id ≠ i) →
      (TraderManager.deleteTrader P w i confirmed writeOk).app = w.app ∧
      TraderManager.editTrader w i = w ∧
      (TraderManager.saveEdit P w i g writeOk).app = w.app) := by
  refine ⟨?_, ?_, ?_, ?_⟩
  · intro h
    refine ⟨?_, ?_, ?_, ?_⟩
    · rw [deleteTask_app, filter_absent Task.id i _ h]
      split <;> rfl
    · simp only [TaskManager.editTask, find_absent Task.id i _ h]
    · rw [saveEditTask_app, map_update_absent Task.id _ i _ h]
      split <;> rfl
    · rw [toggleTask_app, map_update_absent Task.id _ i _ h]
  · intro h
    refine ⟨?_, ?_, ?_⟩
    · rw [deleteNote_app, filter_absent Note.id i _ h]
      split <;> rfl
    · simp only [NoteManager.editNote, find_absent Note.id i _ h]
    · rw [saveEditNote_app, map_update_absent Note.id _ i _ h]
      split <;> rfl
  · intro h
    refine ⟨?_, ?_, ?_⟩
    · rw [deleteTransaction_app, filter_absent Transaction.id i _ h]
      split <;> rfl
    · simp only [TransactionManager.editTransaction, find_absent Transaction.id i _ h]
    · rw [saveEditTransaction_app, map_update_absent Transaction.id _ i _ h]
      split <;> rfl
  · intro h
    refine ⟨?_, ?_, ?_⟩
    · rw [deleteTrader_app, filter_absent Trader.id i _ h]
      split <;> rfl
    · simp only [TraderManager.editTrader, find_absent Trader.id i _ h]
    · rw [saveEditTrader_app, map_update_absent Trader.id _ i _ h]
      split <;> rfl

/-- The no-op of C5 on the sample page, whose records have the ids 1000 to 1003,
for the id 7. -/
theorem absent_id_is_noop_witness :
    (TaskManager.deleteTask Reference.platform sampleWorld 7 true true).app = sampleWorld.app ∧
    (TaskManager.toggleTask Reference.platform sampleWorld 7 true).app = sampleWorld.app ∧
    TransactionManager.editTransaction sampleWorld 7 = sampleWorld ∧
    (TraderManager.saveEdit Reference.platform sampleWorld 7 sampleTraderForm true).app =
      sampleWorld.app :=
  have h := absent_id_is_noop Reference.platform sampleWorld 7 true true "Buy eggs"
    sampleTransactionForm sampleTraderForm
  ⟨(h.1 (by decide)).1, (h.1 (by decide)).2.2.2, (h.2.2.1 (by decide)).2.1,
    (h.2.2.2 (by decide)).2.2⟩

/-! ## A failed save -/

/-- A valid task is added while the store refuses the write: the failure is
reported, nothing is stored, and the task is in the in-memory collection, which
is no longer the (empty) collection of before. -/
theorem failed_save_keeps_the_task :
    Validator.validateInput "Buy milk" { maxLength := some 200 } = true ∧
    Effect.toast saveErrorToast "danger" ∈
      (TaskManager.addTask Reference.platform World.empty "Buy milk" 1000 sampleIso
        false).view ∧
    (TaskManager.addTask Reference.platform World.empty "Buy milk" 1000 sampleIso
        false).localStorage = World.empty.localStorage ∧
    (TaskManager.addTask Reference.platform World.empty "Buy milk" 1000 sampleIso
        false).app.tasks =
      [{ id := 1000, text := "Buy milk", completed := false, createdAt := sampleIso }] ∧
    (TaskManager.addTask Reference.platform World.empty "Buy milk" 1000 sampleIso
        false).app.tasks ≠ World.empty.app.tasks := by
  decide

/-- The collections after an event do not depend on the outcome of the store
write. -/
theorem step_app_setWriteOk (P : Platform) (w : World) (op : Op) (b : Bool) :
    (step P w (op.setWriteOk b)).app = (step P w op).app := by
  cases op <;>
    simp only [Op.setWriteOk, step, addTask_app, toggleTask_app, saveEditTask_app,
      deleteTask_app, addNote_app, saveEditNote_app, deleteNote_app, addTransaction_app,
      saveEditTransaction_app, deleteTransaction_app, addTrader_app, saveEditTrader_app,
      deleteTrader_app]

/-- A save that returned `true` changed nothing but the store, which accepted
the write. -/
theorem saveToStorage_eq_true (P : Platform) (w v : World) (key : String) (data : JSValue)
    (writeOk : Bool) (h : AppState.saveToStorage P w key data writeOk = (v, true)) :
    writeOk = true ∧ ∃ ls, v = { w with localStorage := ls } := by
  cases writeOk
  · rw [saveToStorage_writeOk_false] at h
    simp at h
  · refine ⟨rfl, ?_⟩
    unfold AppState.saveToStorage at h
    split at h
    · exact ⟨_, (congrArg Prod.fst h).symm⟩
    · simp at h

/-- A save that returned `false` added the failure report to the page and
changed nothing else. -/
theorem saveToStorage_eq_false (P : Platform) (w v : World) (key : String) (data : JSValue)
    (writeOk : Bool) (h : AppState.saveToStorage P w key data writeOk = (v, false)) :
    v = w.emit [.consoleError key, .toast saveErrorToast "danger"] := by
  unfold AppState.saveToStorage at h
  split at h
  · simp at h
  · exact (congrArg Prod.fst h).symm

theorem view_emit (w : World) (es : List Effect) : (w.emit es).view = w.view ++ es := rfl

theorem emit_nil (w : World) : w.emit [] = w := by
  cases w
  simp [World.emit]

theorem isNeutral_iff (e : Effect) :
    e.isNeutral = true ↔ e.isConsoleError = false ∧ e.isDependentUpdate = false := by
  simp [Effect.isNeutral]

theorem marks_neutral (el : String) (ok : Bool) :
    ∀ e ∈ Validator.marks el ok, e.isNeutral = true := by
  cases ok <;> simp [Validator.marks, Effect.isNeutral, Effect.isDependentUpdate,
    Effect.isConsoleError]

theorem focusTransaction_neutral (a b c d : String) (v1 v2 v3 v4 : Bool) :
    ∀ e ∈ TransactionManager.focusFirstInvalid a b c d v1 v2 v3 v4, e.isNeutral = true := by
  cases v1 <;> cases v2 <;> cases v3 <;> cases v4 <;>
    simp [TransactionManager.focusFirstInvalid, Effect.isNeutral, Effect.isDependentUpdate,
      Effect.isConsoleError]

theorem focusTrader_neutral (a b : String) (v1 v2 : Bool) :
    ∀ e ∈ TraderManager.focusFirstInvalid a b v1 v2, e.isNeutral = true := by
  cases v1 <;> cases v2 <;>
    simp [TraderManager.focusFirstInvalid, Effect.isNeutral, Effect.isDependentUpdate,
      Effect.isConsoleError]

theorem neutral_append {xs ys : List Effect} (hx : ∀ e ∈ xs, e.isNeutral = true)
    (hy : ∀ e ∈ ys, e.isNeutral = true) : ∀ e ∈ xs ++ ys, e.isNeutral = true := by
  intro e he
  rcases List.mem_append.mp he with h | h
  · exact hx e h
  · exact hy e h

/-- Neutral page writes are skipped by `fromConsoleError`. -/
theorem fromConsoleError_neutral_append (pre rest : List Effect)
    (hpre : ∀ e ∈ pre, e.isNeutral = true) :
    fromConsoleError (pre ++ rest) = fromConsoleError rest := by
  unfold fromConsoleError
  induction pre with
  | nil => rfl
  | cons a pre ih =>
    have ha : a.isConsoleError = false :=
      ((isNeutral_iff a).mp (hpre a (List.mem_cons_self a pre))).1
    simp only [List.cons_append, List.dropWhile, ha, Bool.not_false]
    exact ih fun e he => hpre e (List.mem_cons_of_mem a he)

/-- Page writes without a console error report no failure. -/
theorem not_reportsFailure (es : List Effect) (h : ∀ e ∈ es, e.isConsoleError = false) :
    ¬ reportsFailure es := by
  rintro ⟨key, hk⟩
  simpa [Effect.isConsoleError] using h _ hk

/-- Neutral page writes hold no dependent update and no console error. -/
theorem onlyFailureReport_of_neutral (es : List Effect)
    (h : ∀ e ∈ es, e.isNeutral = true) : onlyFailureReport es := by
  refine ⟨fun e he => ((isNeutral_iff e).mp (h e he)).2, ?_⟩
  have := fromConsoleError_neutral_append es [] h
  rw [List.append_nil] at this
  rw [this]
  intro e he
  simp [fromConsoleError] at he

/-- Neutral page writes, the failure report of a save, and then at most the
closing of the confirmation modal, are a failure report only. -/
theorem onlyFailureReport_of_failure (pre post : List Effect) (key : String)
    (hpre : ∀ e ∈ pre, e.isNeutral = true)
    (hpost : post = [] ∨ post = [.hideModal "confirmModal"]) :
    onlyFailureReport
      (pre ++ ([.consoleError key, .toast saveErrorToast "danger"] ++ post)) := by
  constructor
  · intro e he
    rcases List.mem_append.mp he with h | h
    · exact ((isNeutral_iff e).mp (hpre e h)).2
    · rcases hpost with rfl | rfl <;> simp at h <;>
        rcases h with rfl | rfl | rfl <;> simp [Effect.isDependentUpdate]
  · rw [fromConsoleError_neutral_append pre _ hpre]
    intro e he
    rcases hpost with rfl | rfl <;>
      simp [fromConsoleError, Effect.isConsoleError] at he <;>
      rcases he with rfl | rfl | rfl <;> simp [Effect.isFailureReport]

/-- An event that reaches no save writes neutral entries only. -/
theorem pageOutcome_of_neutral (writeOk : Bool) (w w1 : World) (es : List Effect)
    (hv : w1.view = w.view ++ es) (hs : w1.localStorage = w.localStorage)
    (h : ∀ e ∈ es, e.isNeutral = true) : pageOutcome writeOk w w1 :=
  ⟨es, hv, Or.inl ⟨onlyFailureReport_of_neutral es h, hs⟩⟩

/-- The page writes around a save: neutral writes `pre` before it, then on
success writes without a console error, on failure the failure report, and then
`post`, empty or the closing of the confirmation modal. -/
theorem pageOutcome_of_save (P : Platform) (w w1 : World) (key : String) (data : JSValue)
    (writeOk : Bool) (onSaved : World → World) (pre post : List Effect)
    (hw : w1.view = w.view ++ pre) (hls : w1.localStorage = w.localStorage)
    (hpre : ∀ e ∈ pre, e.isNeutral = true)
    (hpost : post = [] ∨ post = [.hideModal "confirmModal"])
    (hSaved : ∀ v, ∃ es, (onSaved v).view = v.view ++ es ∧ ∀ e ∈ es, e.isConsoleError = false) :
    pageOutcome writeOk w ((match AppState.saveToStorage P w1 key data writeOk with
        | (v, true) => onSaved v
        | (v, false) => v).emit post) := by
  split
  · next v hs =>
    obtain ⟨hok, ls, rfl⟩ := saveToStorage_eq_true _ _ _ _ _ _ hs
    obtain ⟨es, hes, hno⟩ := hSaved { w1 with localStorage := ls }
    refine ⟨pre ++ (es ++ post), ?_, Or.inr ⟨hok, not_reportsFailure _ ?_⟩⟩
    · rw [view_emit, hes]
      simp [hw]
    · intro e he
      rcases List.mem_append.mp he with h | h
      · exact ((isNeutral_iff e).mp (hpre e h)).1
      · rcases List.mem_append.mp h with h | h
        · exact hno e h
        · rcases hpost with rfl | rfl <;> simp at h
          subst h
          rfl
  · next v hs =>
    have hv := saveToStorage_eq_false _ _ _ _ _ _ hs
    subst hv
    refine ⟨pre ++ ([.consoleError key, .toast saveErrorToast "danger"] ++ post), ?_,
      Or.inl ⟨onlyFailureReport_of_failure pre post key hpre hpost, hls⟩⟩
    simp [view_emit, hw]

/-- The page writes around a save that nothing follows. -/
theorem pageOutcome_of_save_only (P : Platform) (w w1 : World) (key : String)
    (data : JSValue) (writeOk : Bool) (onSaved : World → World) (pre : List Effect)
    (hw : w1.view = w.view ++ pre) (hls : w1.localStorage = w.localStorage)
    (hpre : ∀ e ∈ pre, e.isNeutral = true)
    (hSaved : ∀ v, ∃ es, (onSaved v).view = v.view ++ es ∧ ∀ e ∈ es, e.isConsoleError = false) :
    pageOutcome writeOk w (match AppState.saveToStorage P w1 key data writeOk with
        | (v, true) => onSaved v
        | (v, false) => v) := by
  have h := pageOutcome_of_save P w w1 key data writeOk onSaved pre [] hw hls hpre
    (Or.inl rfl) hSaved
  rwa [emit_nil] at h

theorem updateNotifications_view (w : World) :
    ∃ es, (TaskManager.updateNotifications w).view = w.view ++ es ∧
      ∀ e ∈ es, e.isConsoleError = false := by
  simp only [TaskManager.updateNotifications]
  split
  · exact ⟨_, rfl, by simp [Effect.isConsoleError]⟩
  · exact ⟨_, rfl, by simp [Effect.isConsoleError]⟩

/-- Page writes listed after a world, followed by the reminder update. -/
theorem emit_updateNotifications_view (v : World) (es : List Effect)
    (h : ∀ e ∈ es, e.isConsoleError = false) :
    ∃ es1, (TaskManager.updateNotifications (v.emit es)).view = v.view ++ es1 ∧
      ∀ e ∈ es1, e.isConsoleError = false := by
  obtain ⟨es2, h2, hno⟩ := updateNotifications_view (v.emit es)
  refine ⟨es ++ es2, by rw [h2, view_emit, List.append_assoc], ?_⟩
  intro e he
  rcases List.mem_append.mp he with h1 | h1
  · exact h e h1
  · exact hno e h1

theorem emit_view_noError (v : World) (es : List Effect)
    (h : ∀ e ∈ es, e.isConsoleError = false) :
    ∃ es1, (v.emit es).view = v.view ++ es1 ∧ ∀ e ∈ es1, e.isConsoleError = false :=
  ⟨es, rfl, h⟩

theorem clearTransactionInputs_view (v : World) :
    ∃ es, ((TransactionManager.clearTransactionInputs
        (v.emit [.render "transactionBody"])).emit
          [.toast "تم إضافة العملية بنجاح." "success"]).view = v.view ++ es ∧
      ∀ e ∈ es, e.isConsoleError = false := by
  refine ⟨[.render "transactionBody"] ++ ((["transDate", "transOperation", "transPay",
    "transReceive", "transCall", "transContact", "transOther"].flatMap
      fun id => [Effect.clearValue id, Effect.clearInvalid id]) ++
    [.toast "تم إضافة العملية بنجاح." "success"]), ?_, ?_⟩
  · simp only [TransactionManager.clearTransactionInputs, view_emit, List.append_assoc]
  · simp [Effect.isConsoleError]

theorem outcome_addTask (P : Platform) (w : World) (taskInput : String) (now : Nat) (iso : String)
    (writeOk : Bool) :
    pageOutcome writeOk w (step P w (Op.addTask taskInput now iso writeOk)) := by
  simp only [step, TaskManager.addTask]
  split
  · exact pageOutcome_of_neutral writeOk w _ _
      (by rw [view_emit, view_emit, List.append_assoc]) rfl
      (neutral_append (marks_neutral _ _) (by
        simp [Effect.isNeutral, Effect.isConsoleError, Effect.isDependentUpdate]))
  · exact pageOutcome_of_save_only P w _ _ _ writeOk _
      (Validator.marks "taskInput" (Validator.validateInput taskInput { maxLength := some 200 }))
      rfl rfl (marks_neutral _ _)
      (fun v => emit_updateNotifications_view v _ (by simp [Effect.isConsoleError]))

theorem outcome_toggleTask (P : Platform) (w : World) (id : Nat) (writeOk : Bool) :
    pageOutcome writeOk w (step P w (Op.toggleTask id writeOk)) := by
  simp only [step, TaskManager.toggleTask]
  exact pageOutcome_of_save_only P w _ _ _ writeOk _ [] (List.append_nil _).symm rfl
    (by simp) (fun v => emit_updateNotifications_view v _ (by simp [Effect.isConsoleError]))

theorem outcome_editTask (P : Platform) (w : World) (id : Nat) (writeOk : Bool) :
    pageOutcome writeOk w (step P w (Op.editTask id)) := by
  simp only [step]
  rcases editTask_eq w id with h | h <;> rw [h]
  · exact pageOutcome_of_neutral writeOk w w [] (List.append_nil _).symm rfl (by simp)
  · exact pageOutcome_of_neutral writeOk w _ _ (view_emit _ _) rfl (by
      simp [Effect.isNeutral, Effect.isConsoleError, Effect.isDependentUpdate])

theorem outcome_saveEditTask (P : Platform) (w : World) (id : Nat) (editInput : String)
    (writeOk : Bool) :
    pageOutcome writeOk w (step P w (Op.saveEditTask id editInput writeOk)) := by
  simp only [step, TaskManager.saveEdit]
  split
  · exact pageOutcome_of_neutral writeOk w _ _
      (by rw [view_emit, view_emit, List.append_assoc]) rfl
      (neutral_append (marks_neutral _ _) (by
        simp [Effect.isNeutral, Effect.isConsoleError, Effect.isDependentUpdate]))
  · exact pageOutcome_of_save_only P w _ _ _ writeOk _
      (Validator.marks "editTaskInput" (Validator.validateInput editInput { maxLength := some 200 }))
      rfl rfl (marks_neutral _ _)
      (fun v => emit_view_noError v _ (by simp [Effect.isConsoleError]))

theorem outcome_deleteTask (P : Platform) (w : World) (id : Nat) (confirmed : Bool)
    (writeOk : Bool) :
    pageOutcome writeOk w (step P w (Op.deleteTask id confirmed writeOk)) := by
  simp only [step, TaskManager.deleteTask]
  split
  · exact pageOutcome_of_neutral writeOk w _ _ (view_emit _ _) rfl (by
      simp [Effect.isNeutral, Effect.isConsoleError, Effect.isDependentUpdate])
  · exact pageOutcome_of_save P w _ _ _ writeOk _ [.showModal "confirmModal"] _ rfl rfl
      (by simp [Effect.isNeutral, Effect.isConsoleError, Effect.isDependentUpdate])
      (Or.inr rfl) (fun v => emit_updateNotifications_view v _ (by simp [Effect.isConsoleError]))

theorem outcome_addNote (P : Platform) (w : World) (noteInput : String) (now : Nat) (iso : String)
    (writeOk : Bool) :
    pageOutcome writeOk w (step P w (Op.addNote noteInput now iso writeOk)) := by
  simp only [step, NoteManager.addNote]
  split
  · exact pageOutcome_of_neutral writeOk w _ _
      (by rw [view_emit, view_emit, List.append_assoc]) rfl
      (neutral_append (marks_neutral _ _) (by
        simp [Effect.isNeutral, Effect.isConsoleError, Effect.isDependentUpdate]))
  · exact pageOutcome_of_save_only P w _ _ _ writeOk _
      (Validator.marks "noteInput" (Validator.validateInput noteInput { maxLength := some 1000 }))
      rfl rfl (marks_neutral _ _)
      (fun v => emit_view_noError v _ (by simp [Effect.isConsoleError]))

theorem outcome_editNote (P : Platform) (w : World) (id : Nat) (writeOk : Bool) :
    pageOutcome writeOk w (step P w (Op.editNote id)) := by
  simp only [step]
  rcases editNote_eq w id with h | h <;> rw [h]
  · exact pageOutcome_of_neutral writeOk w w [] (List.append_nil _).symm rfl (by simp)
  · exact pageOutcome_of_neutral writeOk w _ _ (view_emit _ _) rfl (by
      simp [Effect.isNeutral, Effect.isConsoleError, Effect.isDependentUpdate])

theorem outcome_saveEditNote (P : Platform) (w : World) (id : Nat) (editInput : String)
    (writeOk : Bool) :
    pageOutcome writeOk w (step P w (Op.saveEditNote id editInput writeOk)) := by
  simp only [step, NoteManager.saveEdit]
  split
  · exact pageOutcome_of_neutral writeOk w _ _
      (by rw [view_emit, view_emit, List.append_assoc]) rfl
      (neutral_append (marks_neutral _ _) (by
        simp [Effect.isNeutral, Effect.isConsoleError, Effect.isDependentUpdate]))
  · exact pageOutcome_of_save_only P w _ _ _ writeOk _
      (Validator.marks "editNoteInput" (Validator.validateInput editInput { maxLength := some 1000 }))
      rfl rfl (marks_neutral _ _)
      (fun v => emit_view_noError v _ (by simp [Effect.isConsoleError]))

theorem outcome_deleteNote (P : Platform) (w : World) (id : Nat) (confirmed : Bool)
    (writeOk : Bool) :
    pageOutcome writeOk w (step P w (Op.deleteNote id confirmed writeOk)) := by
  simp only [step, NoteManager.deleteNote]
  split
  · exact pageOutcome_of_neutral writeOk w _ _ (view_emit _ _) rfl (by
      simp [Effect.isNeutral, Effect.isConsoleError, Effect.isDependentUpdate])
  · exact pageOutcome_of_save P w _ _ _ writeOk _ [.showModal "confirmModal"] _ rfl rfl
      (by simp [Effect.isNeutral, Effect.isConsoleError, Effect.isDependentUpdate])
      (Or.inr rfl) (fun v => emit_view_noError v _ (by simp [Effect.isConsoleError]))

theorem outcome_addTransaction (P : Platform) (w : World) (f : TransactionForm) (now : Nat)
    (iso : String) (writeOk : Bool) :
    pageOutcome writeOk w (step P w (Op.addTransaction f now iso writeOk)) := by
  have hm : ∀ e ∈ Validator.marks "transDate" (Validator.validateDate P f.date true) ++
        Validator.marks "transOperation"
          (Validator.validateInput f.operation { maxLength := some 100 }) ++
        Validator.marks "transPay" (Validator.validateNumber P f.pay { min := .fin 0 }) ++
        Validator.marks "transReceive" (Validator.validateNumber P f.receive { min := .fin 0 }),
      e.isNeutral = true :=
    neutral_append (neutral_append (neutral_append (marks_neutral _ _) (marks_neutral _ _))
      (marks_neutral _ _)) (marks_neutral _ _)
  simp only [step, TransactionManager.addTransaction]
  split
  · exact pageOutcome_of_neutral writeOk w _ _
      (by rw [view_emit, view_emit, List.append_assoc]) rfl
      (neutral_append hm (focusTransaction_neutral _ _ _ _ _ _ _ _))
  · exact pageOutcome_of_save_only P w _ _ _ writeOk _ _ rfl rfl hm
      (fun v => clearTransactionInputs_view v)

theorem outcome_editTransaction (P : Platform) (w : World) (id : Nat) (writeOk : Bool) :
    pageOutcome writeOk w (step P w (Op.editTransaction id)) := by
  simp only [step]
  rcases editTransaction_eq w id with h | h <;> rw [h]
  · exact pageOutcome_of_neutral writeOk w w [] (List.append_nil _).symm rfl (by simp)
  · exact pageOutcome_of_neutral writeOk w _ _ (view_emit _ _) rfl (by
      simp [Effect.isNeutral, Effect.isConsoleError, Effect.isDependentUpdate])

theorem outcome_saveEditTransaction (P : Platform) (w : World) (id : Nat) (f : TransactionForm)
    (writeOk : Bool) :
    pageOutcome writeOk w (step P w (Op.saveEditTransaction id f writeOk)) := by
  have hm : ∀ e ∈ Validator.marks "editTransDate" (Validator.validateDate P f.date true) ++
        Validator.marks "editTransOperation"
          (Validator.validateInput f.operation { maxLength := some 100 }) ++
        Validator.marks "editTransPay" (Validator.validateNumber P f.pay { min := .fin 0 }) ++
        Validator.marks "editTransReceive" (Validator.validateNumber P f.receive { min := .fin 0 }),
      e.isNeutral = true :=
    neutral_append (neutral_append (neutral_append (marks_neutral _ _) (marks_neutral _ _))
      (marks_neutral _ _)) (marks_neutral _ _)
  simp only [step, TransactionManager.saveEdit]
  split
  · exact pageOutcome_of_neutral writeOk w _ _
      (by rw [view_emit, view_emit, List.append_assoc]) rfl
      (neutral_append hm (focusTransaction_neutral _ _ _ _ _ _ _ _))
  · exact pageOutcome_of_save_only P w _ _ _ writeOk _ _ rfl rfl hm
      (fun v => emit_view_noError v _ (by simp [Effect.isConsoleError]))

theorem outcome_deleteTransaction (P : Platform) (w : World) (id : Nat) (confirmed : Bool)
    (writeOk : Bool) :
    pageOutcome writeOk w (step P w (Op.deleteTransaction id confirmed writeOk)) := by
  simp only [step, TransactionManager.deleteTransaction]
  split
  · exact pageOutcome_of_neutral writeOk w _ _ (view_emit _ _) rfl (by
      simp [Effect.isNeutral, Effect.isConsoleError, Effect.isDependentUpdate])
  · exact pageOutcome_of_save P w _ _ _ writeOk _ [.showModal "confirmModal"] _ rfl rfl
      (by simp [Effect.isNeutral, Effect.isConsoleError, Effect.isDependentUpdate])
      (Or.inr rfl) (fun v => emit_view_noError v _ (by simp [Effect.isConsoleError]))

theorem outcome_addTrader (P : Platform) (w : World) (g : TraderForm) (now : Nat) (iso : String)
    (writeOk : Bool) :
    pageOutcome writeOk w (step P w (Op.addTrader g now iso writeOk)) := by
  have hm : ∀ e ∈ Validator.marks "traderName" (Validator.validateInput g.name { maxLength := some 50 }) ++
        Validator.marks "traderAmount"
          (Validator.validateNumber P g.amount { min := .fin 0, required := true }),
      e.isNeutral = true :=
    neutral_append (marks_neutral _ _) (marks_neutral _ _)
  simp only [step, TraderManager.addTrader]
  split
  · exact pageOutcome_of_neutral writeOk w _ _
      (by rw [view_emit, view_emit, List.append_assoc]) rfl
      (neutral_append hm (focusTrader_neutral _ _ _ _))
  · exact pageOutcome_of_save_only P w _ _ _ writeOk _ _ rfl rfl hm
      (fun v => emit_view_noError v _ (by simp [Effect.isConsoleError]))

theorem outcome_editTrader (P : Platform) (w : World) (id : Nat) (writeOk : Bool) :
    pageOutcome writeOk w (step P w (Op.editTrader id)) := by
  simp only [step]
  rcases editTrader_eq w id with h | h <;> rw [h]
  · exact pageOutcome_of_neutral writeOk w w [] (List.append_nil _).symm rfl (by simp)
  · exact pageOutcome_of_neutral writeOk w _ _ (view_emit _ _) rfl (by
      simp [Effect.isNeutral, Effect.isConsoleError, Effect.isDependentUpdate])

theorem outcome_saveEditTrader (P : Platform) (w : World) (id : Nat) (g : TraderForm)
    (writeOk : Bool) :
    pageOutcome writeOk w (step P w (Op.saveEditTrader id g writeOk)) := by
  have hm : ∀ e ∈ Validator.marks "editTraderName" (Validator.validateInput g.name { maxLength := some 50 }) ++
        Validator.marks "editTraderAmount"
          (Validator.validateNumber P g.amount { min := .fin 0, required := true }),
      e.isNeutral = true :=
    neutral_append (marks_neutral _ _) (marks_neutral _ _)
  simp only [step, TraderManager.saveEdit]
  split
  · exact pageOutcome_of_neutral writeOk w _ _
      (by rw [view_emit, view_emit, List.append_assoc]) rfl
      (neutral_append hm (focusTrader_neutral _ _ _ _))
  · exact pageOutcome_of_save_only P w _ _ _ writeOk _ _ rfl rfl hm
      (fun v => emit_view_noError v _ (by simp [Effect.isConsoleError]))

theorem outcome_deleteTrader (P : Platform) (w : World) (id : Nat) (confirmed : Bool)
    (writeOk : Bool) :
    pageOutcome writeOk w (step P w (Op.deleteTrader id confirmed writeOk)) := by
  simp only [step, TraderManager.deleteTrader]
  split
  · exact pageOutcome_of_neutral writeOk w _ _ (view_emit _ _) rfl (by
      simp [Effect.isNeutral, Effect.isConsoleError, Effect.isDependentUpdate])
  · exact pageOutcome_of_save P w _ _ _ writeOk _ [.showModal "confirmModal"] _ rfl rfl
      (by simp [Effect.isNeutral, Effect.isConsoleError, Effect.isDependentUpdate])
      (Or.inr rfl) (fun v => emit_view_noError v _ (by simp [Effect.isConsoleError]))

/-- The outcome of every event other than the timer reminder: its page writes
and the store are those of an event that reached no save or whose save failed,
or the write was accepted and no failure is reported. -/
theorem step_outcome (P : Platform) (w : World) (op : Op) (b : Bool)
    (h : op ≠ .sendTaskReminder) : pageOutcome ((op.writeOk?).getD b) w (step P w op) := by
  cases op
  case addTask taskInput now iso writeOk => exact outcome_addTask P w taskInput now iso writeOk
  case toggleTask id writeOk => exact outcome_toggleTask P w id writeOk
  case editTask id => exact outcome_editTask P w id b
  case saveEditTask id editInput writeOk => exact outcome_saveEditTask P w id editInput writeOk
  case deleteTask id confirmed writeOk => exact outcome_deleteTask P w id confirmed writeOk
  case addNote noteInput now iso writeOk => exact outcome_addNote P w noteInput now iso writeOk
  case editNote id => exact outcome_editNote P w id b
  case saveEditNote id editInput writeOk => exact outcome_saveEditNote P w id editInput writeOk
  case deleteNote id confirmed writeOk => exact outcome_deleteNote P w id confirmed writeOk
  case addTransaction f now iso writeOk => exact outcome_addTransaction P w f now iso writeOk
  case editTransaction id => exact outcome_editTransaction P w id b
  case saveEditTransaction id f writeOk => exact outcome_saveEditTransaction P w id f writeOk
  case deleteTransaction id confirmed writeOk => exact outcome_deleteTransaction P w id confirmed writeOk
  case addTrader g now iso writeOk => exact outcome_addTrader P w g now iso writeOk
  case editTrader id => exact outcome_editTrader P w id b
  case saveEditTrader id g writeOk => exact outcome_saveEditTrader P w id g writeOk
  case deleteTrader id confirmed writeOk => exact outcome_deleteTrader P w id confirmed writeOk
  case sendTaskReminder => exact absurd rfl h

theorem setWriteOk_false_writeOk (op : Op) :
    ((op.setWriteOk false).writeOk?).getD false = false := by
  cases op <;> rfl

/-- **C6 (amended).** When the store refuses the write of an add, toggle,
edit-save or delete, `localStorage` keeps its previous content and the in-memory
collections are the mutated ones, exactly those the same operation leaves in
memory when the write succeeds: the attempted mutation is kept, not rolled back.
More generally, whenever the page writes of an operation report a failed save,
whatever made it fail, `localStorage` is left as it was. -/
theorem failed_save_keeps_mutation (P : Platform) (w : World) (op : Op) :
    (step P w (op.setWriteOk false)).localStorage = w.localStorage ∧
    (step P w (op.setWriteOk false)).app = (step P w (op.setWriteOk true)).app ∧
    (op ≠ .sendTaskReminder → ∀ es, (step P w op).view = w.view ++ es → reportsFailure es →
      (step P w op).localStorage = w.localStorage) := by
  refine ⟨?_, by rw [step_app_setWriteOk, step_app_setWriteOk], ?_⟩
  · by_cases hop : op = .sendTaskReminder
    · subst hop
      simp only [Op.setWriteOk, step, WhatsAppService.sendTaskReminder]
      split <;> rfl
    · have hne : op.setWriteOk false ≠ .sendTaskReminder := by
        cases op <;> simp [Op.setWriteOk] at hop ⊢
      obtain ⟨es, -, h | h⟩ := step_outcome P w (op.setWriteOk false) false hne
      · exact h.2
      · rw [setWriteOk_false_writeOk] at h
        exact absurd h.1 (by simp)
  · intro hop es hes hrep
    obtain ⟨es1, hes1, h | h⟩ := step_outcome P w op true hop
    · exact h.2
    · rw [hes1] at hes
      exact absurd (List.append_cancel_left hes ▸ hrep) h.2

/-! ## Unique identifiers -/

/-- **C7 (failing input).** Two tasks added while `Date.now()` reads the same
millisecond, a non-decreasing clock, get the same id: the ids of the task
collection are `[1000, 1000]`, which has a repetition. -/
theorem same_millisecond_same_id :
    (clockReadings collidingAdds).Pairwise (· ≤ ·) ∧
    (run Reference.platform World.empty collidingAdds).app.tasks.map Task.id = [1000, 1000] ∧
    ¬ ((run Reference.platform World.empty collidingAdds).app.tasks.map Task.id).Nodup := by
  decide

/-- The ids of a collection after an update of the records under a key that
keeps the key. -/
theorem map_update_ids {α : Type} (key : α → Nat) (upd : α → α) (i : Nat)
    (hk : ∀ r, key (upd r) = key r) (l : List α) :
    (l.map fun r => if key r = i then upd r else r).map key = l.map key := by
  induction l with
  | nil => rfl
  | cons a l ih =>
    by_cases h : key a = i
    · simp [h, hk, ih]
    · simp [h, ih]

theorem map_update_ids_sublist {α : Type} (key : α → Nat) (upd : α → α) (i : Nat)
    (hk : ∀ r, key (upd r) = key r) (l : List α) :
    ((l.map fun r => if key r = i then upd r else r).map key).Sublist (l.map key) := by
  rw [map_update_ids key upd i hk]

/-- The ids of a collection after a delete are a sublist of the ids before. -/
theorem filter_ids_sublist {α : Type} (key : α → Nat) (i : Nat) (l : List α) :
    ((l.filter fun r => decide (key r ≠ i)).map key).Sublist (l.map key) :=
  (List.filter_sublist l).map key

/-- Strictly increasing ids below a bound stay so on a sublist. -/
theorem ids_sublist {l1 l2 : List Nat} {b : Nat} (hs : l1.Sublist l2)
    (h : l2.Pairwise (· < ·) ∧ ∀ i ∈ l2, i < b) :
    l1.Pairwise (· < ·) ∧ ∀ i ∈ l1, i < b :=
  ⟨h.1.sublist hs, fun i hi => h.2 i (hs.subset hi)⟩

/-- Strictly increasing ids below a bound stay so when a reading at or above the
bound is appended, with the next bound. -/
theorem ids_append {l : List Nat} {b now : Nat} (hb : b ≤ now)
    (h : l.Pairwise (· < ·) ∧ ∀ i ∈ l, i < b) :
    (l ++ [now]).Pairwise (· < ·) ∧ ∀ i ∈ l ++ [now], i < now + 1 := by
  constructor
  · rw [List.pairwise_append]
    refine ⟨h.1, List.pairwise_singleton _ _, ?_⟩
    intro x hx y hy
    simp only [List.mem_singleton] at hy
    subst hy
    exact Nat.lt_of_lt_of_le (h.2 x hx) hb
  · intro i hi
    rcases List.mem_append.mp hi with h1 | h1
    · exact Nat.lt_succ_of_lt (Nat.lt_of_lt_of_le (h.2 i h1) hb)
    · simp only [List.mem_singleton] at h1
      omega

theorem ids_mono {l : List Nat} {b c : Nat} (hbc : b ≤ c)
    (h : l.Pairwise (· < ·) ∧ ∀ i ∈ l, i < b) :
    l.Pairwise (· < ·) ∧ ∀ i ∈ l, i < c :=
  ⟨h.1, fun i hi => Nat.lt_of_lt_of_le (h.2 i hi) hbc⟩

theorem IdsBelow.mono {a : AppState} {b c : Nat} (hbc : b ≤ c) (h : IdsBelow a b) :
    IdsBelow a c :=
  ⟨ids_mono hbc h.1, ids_mono hbc h.2.1, ids_mono hbc h.2.2.1, ids_mono hbc h.2.2.2⟩

/-- An event that creates no record changes no id: the ids of each collection
after it are a sublist of the ids before it. -/
theorem ids_kept_without_add (P : Platform) (w : World) (op : Op) (h : op.clock? = none) :
    ((step P w op).app.tasks.map Task.id).Sublist (w.app.tasks.map Task.id) ∧
    ((step P w op).app.notes.map Note.id).Sublist (w.app.notes.map Note.id) ∧
    ((step P w op).app.transactions.map Transaction.id).Sublist
      (w.app.transactions.map Transaction.id) ∧
    ((step P w op).app.traders.map Trader.id).Sublist (w.app.traders.map Trader.id) := by
  cases op
  case addTask => simp [Op.clock?] at h
  case addNote => simp [Op.clock?] at h
  case addTransaction => simp [Op.clock?] at h
  case addTrader => simp [Op.clock?] at h
  case toggleTask id writeOk =>
    simp only [step, toggleTask_app]
    exact ⟨map_update_ids_sublist Task.id _ id (by intro r; rfl) _, List.Sublist.refl _,
      List.Sublist.refl _, List.Sublist.refl _⟩
  case editTask id =>
    simp only [step]
    rcases editTask_eq w id with h1 | h1 <;> rw [h1] <;>
      exact ⟨List.Sublist.refl _, List.Sublist.refl _, List.Sublist.refl _, List.Sublist.refl _⟩
  case saveEditTask id editInput writeOk =>
    simp only [step, saveEditTask_app]
    split
    · exact ⟨map_update_ids_sublist Task.id _ id (by intro r; rfl) _, List.Sublist.refl _,
        List.Sublist.refl _, List.Sublist.refl _⟩
    · exact ⟨List.Sublist.refl _, List.Sublist.refl _, List.Sublist.refl _, List.Sublist.refl _⟩
  case deleteTask id confirmed writeOk =>
    simp only [step, deleteTask_app]
    split
    · exact ⟨filter_ids_sublist Task.id id _, List.Sublist.refl _, List.Sublist.refl _,
        List.Sublist.refl _⟩
    · exact ⟨List.Sublist.refl _, List.Sublist.refl _, List.Sublist.refl _, List.Sublist.refl _⟩
  case editNote id =>
    simp only [step]
    rcases editNote_eq w id with h1 | h1 <;> rw [h1] <;>
      exact ⟨List.Sublist.refl _, List.Sublist.refl _, List.Sublist.refl _, List.Sublist.refl _⟩
  case saveEditNote id editInput writeOk =>
    simp only [step, saveEditNote_app]
    split
    · exact ⟨List.Sublist.refl _, map_update_ids_sublist Note.id _ id (by intro r; rfl) _,
        List.Sublist.refl _, List.Sublist.refl _⟩
    · exact ⟨List.Sublist.refl _, List.Sublist.refl _, List.Sublist.refl _, List.Sublist.refl _⟩
  case deleteNote id confirmed writeOk =>
    simp only [step, deleteNote_app]
    split
    · exact ⟨List.Sublist.refl _, filter_ids_sublist Note.id id _, List.Sublist.refl _,
        List.Sublist.refl _⟩
    · exact ⟨List.Sublist.refl _, List.Sublist.refl _, List.Sublist.refl _, List.Sublist.refl _⟩
  case editTransaction id =>
    simp only [step]
    rcases editTransaction_eq w id with h1 | h1 <;> rw [h1] <;>
      exact ⟨List.Sublist.refl _, List.Sublist.refl _, List.Sublist.refl _, List.Sublist.refl _⟩
  case saveEditTransaction id f writeOk =>
    simp only [step, saveEditTransaction_app]
    split
    · exact ⟨List.Sublist.refl _, List.Sublist.refl _,
        map_update_ids_sublist Transaction.id _ id (by intro r; rfl) _, List.Sublist.refl _⟩
    · exact ⟨List.Sublist.refl _, List.Sublist.refl _, List.Sublist.refl _, List.Sublist.refl _⟩
  case deleteTransaction id confirmed writeOk =>
    simp only [step, deleteTransaction_app]
    split
    · exact ⟨List.Sublist.refl _, List.Sublist.refl _, filter_ids_sublist Transaction.id id _,
        List.Sublist.refl _⟩
    · exact ⟨List.Sublist.refl _, List.Sublist.refl _, List.Sublist.refl _, List.Sublist.refl _⟩
  case editTrader id =>
    simp only [step]
    rcases editTrader_eq w id with h1 | h1 <;> rw [h1] <;>
      exact ⟨List.Sublist.refl _, List.Sublist.refl _, List.Sublist.refl _, List.Sublist.refl _⟩
  case saveEditTrader id g writeOk =>
    simp only [step, saveEditTrader_app]
    split
    · exact ⟨List.Sublist.refl _, List.Sublist.refl _,
        List.Sublist.refl _, map_update_ids_sublist Trader.id _ id (by intro r; rfl) _⟩
    · exact ⟨List.Sublist.refl _, List.Sublist.refl _, List.Sublist.refl _, List.Sublist.refl _⟩
  case deleteTrader id confirmed writeOk =>
    simp only [step, deleteTrader_app]
    split
    · exact ⟨List.Sublist.refl _, List.Sublist.refl _, List.Sublist.refl _,
        filter_ids_sublist Trader.id id _⟩
    · exact ⟨List.Sublist.refl _, List.Sublist.refl _, List.Sublist.refl _, List.Sublist.refl _⟩
  case sendTaskReminder =>
    simp only [step, sendTaskReminder_app]
    exact ⟨List.Sublist.refl _, List.Sublist.refl _, List.Sublist.refl _, List.Sublist.refl _⟩

/-- An event that creates a record at a reading at or above the bound keeps the
ids strictly increasing, below the next bound. -/
theorem IdsBelow.step_add (P : Platform) (w : World) (op : Op) (b now : Nat)
    (hop : op.clock? = some now) (hb : b ≤ now) (h : IdsBelow w.app b) :
    IdsBelow (step P w op).app (now + 1) := by
  have hm : IdsBelow w.app (now + 1) := h.mono (Nat.le_succ_of_le hb)
  cases op <;> simp only [Op.clock?, Option.some.injEq] at hop <;> try exact absurd hop (by simp)
  case addTask taskInput n iso writeOk =>
    subst hop
    simp only [step, addTask_app]
    split
    · refine ⟨?_, hm.2.1, hm.2.2.1, hm.2.2.2⟩
      simpa using ids_append hb h.1
    · exact hm
  case addNote noteInput n iso writeOk =>
    subst hop
    simp only [step, addNote_app]
    split
    · refine ⟨hm.1, ?_, hm.2.2.1, hm.2.2.2⟩
      simpa using ids_append hb h.2.1
    · exact hm
  case addTransaction f n iso writeOk =>
    subst hop
    simp only [step, addTransaction_app]
    split
    · refine ⟨hm.1, hm.2.1, ?_, hm.2.2.2⟩
      simpa using ids_append hb h.2.2.1
    · exact hm
  case addTrader g n iso writeOk =>
    subst hop
    simp only [step, addTrader_app]
    split
    · refine ⟨hm.1, hm.2.1, hm.2.2.1, ?_⟩
      simpa using ids_append hb h.2.2.2
    · exact hm

/-- An event that creates no record keeps the ids strictly increasing and below
the bound. -/
theorem IdsBelow.step_other (P : Platform) (w : World) (op : Op) (b : Nat)
    (hop : op.clock? = none) (h : IdsBelow w.app b) : IdsBelow (step P w op).app b := by
  obtain ⟨h1, h2, h3, h4⟩ := ids_kept_without_add P w op hop
  exact ⟨ids_sublist h1 h.1, ids_sublist h2 h.2.1, ids_sublist h3 h.2.2.1,
    ids_sublist h4 h.2.2.2⟩

/-- Strictly increasing clock readings keep the ids strictly increasing along a
run. -/
theorem IdsBelow.run (P : Platform) (ops : List Op) :
    ∀ (w : World) (b : Nat), IdsBelow w.app b → (clockReadings ops).Pairwise (· < ·) →
      (∀ r ∈ clockReadings ops, b ≤ r) → ∃ c, IdsBelow (run P w ops).app c := by
  induction ops with
  | nil => exact fun w b h _ _ => ⟨b, h⟩
  | cons op ops ih =>
    intro w b h hp hr
    cases hc : op.clock? with
    | none =>
      have hcr : clockReadings (op :: ops) = clockReadings ops := by
        simp [clockReadings, List.filterMap_cons, hc]
      rw [hcr] at hp hr
      exact ih (step P w op) b (IdsBelow.step_other P w op b hc h) hp hr
    | some now =>
      have hcr : clockReadings (op :: ops) = now :: clockReadings ops := by
        simp [clockReadings, List.filterMap_cons, hc]
      rw [hcr] at hp hr
      rw [List.pairwise_cons] at hp
      exact ih (step P w op) (now + 1)
        (IdsBelow.step_add P w op b now hc (hr now (List.mem_cons_self _ _)) h) hp.2
        (fun r hrm => hp.1 r hrm)

/-- The two halves of C7 that the code does keep.  In every state reached from
the empty collections by a sequence of add, toggle, edit, edit-save and delete
operations (and timer reminders) in which `Date.now()` reads a strictly greater
value at each add than at the add before, no two records of a collection have the
same id; and an operation other than add changes no id: the ids of each
collection after it are the ids before it, in order, less those of deleted
records. -/
theorem ids_unique_of_increasing_clock (P : Platform) (ops : List Op)
    (h : (clockReadings ops).Pairwise (· < ·)) :
    (((run P World.empty ops).app.tasks.map Task.id).Nodup ∧
      ((run P World.empty ops).app.notes.map Note.id).Nodup ∧
      ((run P World.empty ops).app.transactions.map Transaction.id).Nodup ∧
      ((run P World.empty ops).app.traders.map Trader.id).Nodup) ∧
    ∀ (w : World) (op : Op), op.clock? = none →
      ((step P w op).app.tasks.map Task.id).Sublist (w.app.tasks.map Task.id) ∧
      ((step P w op).app.notes.map Note.id).Sublist (w.app.notes.map Note.id) ∧
      ((step P w op).app.transactions.map Transaction.id).Sublist
        (w.app.transactions.map Transaction.id) ∧
      ((step P w op).app.traders.map Trader.id).Sublist (w.app.traders.map Trader.id) := by
  obtain ⟨c, hc⟩ := IdsBelow.run P ops World.empty 0
    (by simp [IdsBelow, World.empty]) h (fun _ _ => Nat.zero_le _)
  have nodup : ∀ l : List Nat, l.Pairwise (· < ·) → l.Nodup := fun l hl =>
    hl.imp (fun hab => Nat.ne_of_lt hab)
  exact ⟨⟨nodup _ hc.1.1, nodup _ hc.2.1.1, nodup _ hc.2.2.1.1, nodup _ hc.2.2.2.1⟩,
    fun w op hop => ids_kept_without_add P w op hop⟩

/-- Unique ids on a sample run with the readings 1000 to 1003. -/
theorem ids_unique_of_increasing_clock_witness :
    clockReadings sampleRun = [1000, 1001, 1002, 1003] ∧
    ((run Reference.platform World.empty sampleRun).app.tasks.map Task.id).Nodup ∧
    (run Reference.platform World.empty sampleRun).app.tasks.map Task.id = [1001, 1003] :=
  ⟨by decide, (ids_unique_of_increasing_clock Reference.platform sampleRun (by decide)).1.1,
    by decide⟩

/-! ## Save and load -/

theorem find_put (items : List (String × String)) (key value : String) :
    LocalStorage.find (LocalStorage.put items key value) key = some value := by
  induction items with
  | nil => simp [LocalStorage.put, LocalStorage.find]
  | cons kv rest ih =>
    obtain ⟨k, v⟩ := kv
    by_cases h : k = key
    · simp [LocalStorage.put, LocalStorage.find, h]
    · simp [LocalStorage.put, LocalStorage.find, h, ih]

theorem saveToStorage_true_iff (P : Platform) (w : World) (key : String) (data : JSValue)
    (writeOk : Bool) :
    (AppState.saveToStorage P w key data writeOk).2 = true ↔
      (∃ text, P.jsonStringify data = .ok text) ∧ writeOk = true := by
  unfold AppState.saveToStorage AppState.saveToStorage.tryBody LocalStorage.setItem
  cases P.jsonStringify data <;> cases writeOk <;> simp

theorem saveToStorage_stored (P : Platform) (w : World) (key : String) (data : JSValue)
    (text : String) (h : P.jsonStringify data = .ok text) :
    (AppState.saveToStorage P w key data true).1.localStorage.getItem key = some text := by
  simp [AppState.saveToStorage, AppState.saveToStorage.tryBody, LocalStorage.setItem, h,
    LocalStorage.getItem, find_put]

/-! ## The reference JSON reads back what it writes -/

namespace Reference

theorem digitsValue_append (l1 l2 : List Char) (acc : Nat) :
    digitsValue (l1 ++ l2) acc = digitsValue l2 (digitsValue l1 acc) := by
  simp [digitsValue, List.foldl_append]

/-- Reading a run of digits that ends before a character that is no digit. -/
theorem takeDigits_append (l : List Char) (hl : ∀ c ∈ l, c.isDigit = true) (rest : List Char)
    (hrest : ∀ c ∈ rest.head?, c.isDigit = false) :
    ∀ acc k, takeDigits (l ++ rest) acc k = (digitsValue l acc, k + l.length, rest) := by
  induction l with
  | nil =>
    intro acc k
    cases rest with
    | nil => rfl
    | cons c cs =>
      have hc : c.isDigit = false := hrest c (by simp)
      simp [takeDigits, hc, digitsValue]
  | cons c cs ih =>
    intro acc k
    have hc : c.isDigit = true := hl c (List.mem_cons_self _ _)
    have ih2 := ih (fun x hx => hl x (List.mem_cons_of_mem _ hx)) (acc * 10 + (c.toNat - 48))
      (k + 1)
    show takeDigits (c :: (cs ++ rest)) acc k = _
    rw [takeDigits, if_pos hc, ih2]
    simp only [digitsValue, List.foldl_cons, List.length_cons, Prod.mk.injEq, and_true, true_and]
    omega

theorem digitChar_isDigit : ∀ m < 10, (Nat.digitChar m).isDigit = true ∧
    (Nat.digitChar m).toNat - 48 = m ∧ (Nat.digitChar m = '0' → m = 0) := by
  decide

/-- The digits that `toDigitsCore` puts before the ones it was given: they are
decimal digits, their value is the number, and the first is `0` only for the
number zero. -/
theorem toDigitsCore_spec (fuel : Nat) :
    ∀ (n : Nat) (ds : List Char), n < fuel →
      ∃ pre : List Char, Nat.toDigitsCore 10 fuel n ds = pre ++ ds ∧ pre ≠ [] ∧
        (∀ c ∈ pre, c.isDigit = true) ∧
        (∀ acc, digitsValue pre acc = acc * 10 ^ pre.length + n) ∧
        (pre.head? = some '0' → n = 0 ∧ pre.length = 1) := by
  induction fuel with
  | zero => intro n ds h; omega
  | succ fuel ih =>
    intro n ds h
    have hd := digitChar_isDigit (n % 10) (Nat.mod_lt _ (by decide))
    simp only [Nat.toDigitsCore]
    by_cases h0 : n / 10 = 0
    · rw [if_pos h0]
      have hn : n % 10 = n := Nat.mod_eq_of_lt (by omega)
      refine ⟨[Nat.digitChar (n % 10)], rfl, by simp, ?_, ?_, ?_⟩
      · intro c hc
        rw [List.mem_singleton.1 hc]
        exact hd.1
      · intro acc
        have h2 := hd.2.1
        rw [hn] at h2
        simp only [digitsValue, List.foldl_cons, List.foldl_nil, List.length_singleton,
          pow_one, hn, h2]
      · intro hh
        simp only [List.head?_cons, Option.some.injEq] at hh
        exact ⟨by rw [← hn]; exact hd.2.2 hh, rfl⟩
    · rw [if_neg h0]
      obtain ⟨pre, hpre, hne, hdig, hval, hhead⟩ :=
        ih (n / 10) (Nat.digitChar (n % 10) :: ds) (by omega)
      refine ⟨pre ++ [Nat.digitChar (n % 10)], by simp [hpre], by simp, ?_, ?_, ?_⟩
      · intro c hc
        rcases List.mem_append.1 hc with h1 | h1
        · exact hdig c h1
        · rw [List.mem_singleton.1 h1]
          exact hd.1
      · intro acc
        rw [digitsValue_append, hval]
        simp only [digitsValue, List.foldl_cons, List.foldl_nil, hd.2.1, List.length_append,
          List.length_singleton, pow_succ]
        have := Nat.div_add_mod n 10
        nlinarith [Nat.div_add_mod n 10]
      · intro hh
        cases pre with
        | nil => exact absurd rfl hne
        | cons c cs =>
          simp only [List.cons_append, List.head?_cons, Option.some.injEq] at hh
          have := hhead (by simp [hh])
          omega

/-- The decimal text of a natural number: decimal digits whose value is the
number, the first being `0` only for zero. -/
theorem toDigits_spec (n : Nat) :
    Nat.toDigits 10 n ≠ [] ∧ (∀ c ∈ Nat.toDigits 10 n, c.isDigit = true) ∧
    (∀ acc, digitsValue (Nat.toDigits 10 n) acc = acc * 10 ^ (Nat.toDigits 10 n).length + n) ∧
    ((Nat.toDigits 10 n).head? = some '0' → n = 0 ∧ (Nat.toDigits 10 n).length = 1) := by
  obtain ⟨pre, hpre, hne, hdig, hval, hhead⟩ := toDigitsCore_spec (n + 1) n [] (by omega)
  have hp : Nat.toDigits 10 n = pre := by
    unfold Nat.toDigits
    rw [hpre, List.append_nil]
  rw [hp]
  exact ⟨hne, hdig, hval, hhead⟩

theorem digitOfNat : ∀ m < 10, (Char.ofNat (48 + m)).isDigit = true ∧
    (Char.ofNat (48 + m)).toNat - 48 = m := by
  decide

/-- The fraction digits of `r / d` when the expansion ends within the fuel: they
are decimal digits, none when `r = 0`, and read as a number `x` of that many
places they give `x / 10 ^ places = r / d`. -/
theorem fractionDigits_spec (d : Nat) (hd : 0 < d) (fuel : Nat) :
    ∀ r, r < d → d ∣ r * 10 ^ fuel →
      (∀ c ∈ fractionDigits fuel r d, c.isDigit = true) ∧
      (fractionDigits fuel r d = [] ↔ r = 0) ∧
      ∃ x, (∀ acc, digitsValue (fractionDigits fuel r d) acc =
          acc * 10 ^ (fractionDigits fuel r d).length + x) ∧
        x * d = r * 10 ^ (fractionDigits fuel r d).length := by
  induction fuel with
  | zero =>
    intro r hr hdvd
    have h0 : r = 0 := by
      rw [pow_zero, mul_one] at hdvd
      exact Nat.eq_zero_of_dvd_of_lt hdvd hr
    subst h0
    exact ⟨by simp [fractionDigits], by simp [fractionDigits],
      0, by simp [fractionDigits, digitsValue], by simp⟩
  | succ fuel ih =>
    intro r hr hdvd
    by_cases h0 : r = 0
    · subst h0
      exact ⟨by simp [fractionDigits], by simp [fractionDigits],
        0, by simp [fractionDigits, digitsValue], by simp⟩
    · have hlt : r * 10 / d < 10 := by
        apply Nat.div_lt_of_lt_mul
        nlinarith
      have hdig := digitOfNat (r * 10 / d) hlt
      have hmod : r * 10 % d < d := Nat.mod_lt _ hd
      have hdvd2 : d ∣ r * 10 % d * 10 ^ fuel := by
        have h1 : r * 10 ^ (fuel + 1) = (d * (r * 10 / d) + r * 10 % d) * 10 ^ fuel := by
          rw [Nat.div_add_mod, pow_succ]
          ring
        rw [h1, add_mul] at hdvd
        have h2 : d ∣ d * (r * 10 / d) * 10 ^ fuel := ⟨(r * 10 / d) * 10 ^ fuel, by ring⟩
        exact (Nat.dvd_add_right h2).1 hdvd
      obtain ⟨ihdig, -, x, hx, hxd⟩ := ih (r * 10 % d) hmod hdvd2
      have hunfold : fractionDigits (fuel + 1) r d =
          Char.ofNat (48 + r * 10 / d) :: fractionDigits fuel (r * 10 % d) d := by
        simp [fractionDigits, h0]
      rw [hunfold]
      refine ⟨?_, by simp [h0], x + r * 10 / d * 10 ^ (fractionDigits fuel (r * 10 % d) d).length,
        ?_, ?_⟩
      · intro c hc
        rcases List.mem_cons.1 hc with h1 | h1
        · rw [h1]
          exact hdig.1
        · exact ihdig c h1
      · intro acc
        have hcons : digitsValue (Char.ofNat (48 + r * 10 / d) ::
            fractionDigits fuel (r * 10 % d) d) acc =
            digitsValue (fractionDigits fuel (r * 10 % d) d)
              (acc * 10 + ((Char.ofNat (48 + r * 10 / d)).toNat - 48)) := rfl
        rw [hcons, hx, hdig.2, List.length_cons, pow_succ]
        ring
      · rw [List.length_cons, pow_succ, add_mul, hxd]
        have h3 := Nat.div_add_mod (r * 10) d
        calc r * 10 % d * 10 ^ (fractionDigits fuel (r * 10 % d) d).length +
              r * 10 / d * 10 ^ (fractionDigits fuel (r * 10 % d) d).length * d
            = (d * (r * 10 / d) + r * 10 % d) *
                10 ^ (fractionDigits fuel (r * 10 % d) d).length := by ring
          _ = r * (10 ^ (fractionDigits fuel (r * 10 % d) d).length * 10) := by
            rw [h3]
            ring

theorem scale_neg (m : Int) (k : Nat) : scale m (-(k : Int)) = (m : ℚ) / (10 : ℚ) ^ k := by
  cases k with
  | zero =>
    show scale m (Int.ofNat 0) = _
    simp [scale, Rat.mkRat_eq_div]
  | succ k =>
    show scale m (Int.negSucc k) = _
    simp [scale, Rat.mkRat_eq_div]

/-- What `parseNumber` does after the integer digits, when they are followed by
a character other than the decimal point. -/
theorem parseNumber_of_whole (neg : Bool) (cs : List Char) (ip k : Nat) (c : Char)
    (rest : List Char) (q : ℚ) (r2 : List Char)
    (h : takeDigits cs 0 0 = (ip, k + 1, c :: rest))
    (hz : cs.head? = some '0' → k = 0) (hdot : c ≠ '.')
    (hpe : parseExponent ip 0 (c :: rest) = .ok (q, r2)) :
    parseNumber neg cs = .ok (.num (.fin (if neg then -q else q)), r2) := by
  delta parseNumber
  delta parseNumber.match_2
  generalize hx : takeDigits cs 0 0 = x
  rw [h] at hx
  subst hx
  cases cs with
  | nil => simp [hdot, hpe]
  | cons d0 tail =>
    by_cases h0 : d0 = '0'
    · subst h0
      have hk := hz rfl
      subst hk
      simp [hdot, hpe]
    · simp [h0, hdot, hpe]

/-- What `parseNumber` does after the integer digits, when they are followed by
the decimal point and fraction digits. -/
theorem parseNumber_of_fraction (neg : Bool) (cs : List Char) (ip k m fk : Nat)
    (rest r2 r3 : List Char) (q : ℚ)
    (h : takeDigits cs 0 0 = (ip, k + 1, '.' :: rest))
    (hz : cs.head? = some '0' → k = 0)
    (hf : takeDigits rest ip 0 = (m, fk + 1, r2))
    (hpe : parseExponent m (fk + 1) r2 = .ok (q, r3)) :
    parseNumber neg cs = .ok (.num (.fin (if neg then -q else q)), r3) := by
  delta parseNumber
  delta parseNumber.match_2
  generalize hx : takeDigits cs 0 0 = x
  rw [h] at hx
  subst hx
  cases cs with
  | nil => simp [hf, hpe]
  | cons d0 tail =>
    by_cases h0 : d0 = '0'
    · subst h0
      have hk := hz rfl
      subst hk
      simp [hf, hpe]
    · simp [h0, hf, hpe]

/-- No exponent follows: the number read is the mantissa scaled by the fraction
places. -/
theorem parseExponent_none (m : Int) (fk : Nat) (c : Char) (rest : List Char)
    (he : c ≠ 'e') (hE : c ≠ 'E') :
    parseExponent m fk (c :: rest) = .ok ((m : ℚ) / (10 : ℚ) ^ fk, c :: rest) := by
  simp [parseExponent, he, hE, scale_neg]

theorem isDigit_cases (c : Char) (h : c.isDigit = true) :
    c = '0' ∨ c = '1' ∨ c = '2' ∨ c = '3' ∨ c = '4' ∨ c = '5' ∨ c = '6' ∨ c = '7' ∨
      c = '8' ∨ c = '9' := by
  have hv : 48 ≤ c.toNat ∧ c.toNat ≤ 57 := by
    simp only [Char.isDigit, Bool.and_eq_true, decide_eq_true_eq] at h
    exact ⟨h.1, h.2⟩
  have hc : c = Char.ofNat c.toNat := (Char.ofNat_toNat c).symm
  obtain ⟨h1, h2⟩ := hv
  interval_cases hh : c.toNat <;> rw [hc] <;> decide

/-- A text that starts with a digit is read as a number. -/
theorem parseValue_digit (fuel : Nat) (c : Char) (rest : List Char) (h : c.isDigit = true) :
    parseValue (fuel + 1) (c :: rest) = parseNumber false (c :: rest) := by
  rcases isDigit_cases c h with h | h | h | h | h | h | h | h | h | h <;> subst h <;> rfl

/-- The unsigned decimal text of `n / d`, before a character that ends a number,
is read as that number. -/
theorem parseNumber_decimal (neg : Bool) (n d : Nat) (hd : 0 < d) (places : Nat)
    (hdvd : d ∣ 10 ^ places)
    (c : Char) (rest : List Char) (hc : c.isDigit = false) (hdot : c ≠ '.') (he : c ≠ 'e')
    (hE : c ≠ 'E') :
    (fractionDigits places (n % d) d = [] →
      parseNumber neg (Nat.toDigits 10 (n / d) ++ c :: rest) =
        .ok (.num (.fin (if neg then -((n : ℚ) / d) else (n : ℚ) / d)), c :: rest)) ∧
    (fractionDigits places (n % d) d ≠ [] →
      parseNumber neg (Nat.toDigits 10 (n / d) ++
          '.' :: (fractionDigits places (n % d) d ++ c :: rest)) =
        .ok (.num (.fin (if neg then -((n : ℚ) / d) else (n : ℚ) / d)), c :: rest)) := by
  obtain ⟨hne, hdig, hval, hhead⟩ := toDigits_spec (n / d)
  obtain ⟨fdig, fnil, x, hx, hxd⟩ :=
    fractionDigits_spec d hd places (n % d) (Nat.mod_lt _ hd) (Dvd.dvd.mul_left hdvd _)
  have hdq : (d : ℚ) ≠ 0 := by exact_mod_cast (Nat.pos_iff_ne_zero.1 hd)
  have hlen : ∃ k, (Nat.toDigits 10 (n / d)).length = k + 1 :=
    ⟨(Nat.toDigits 10 (n / d)).length - 1, by
      have := List.length_pos.2 hne
      omega⟩
  obtain ⟨k, hk⟩ := hlen
  have hz : ∀ tail : List Char, (Nat.toDigits 10 (n / d) ++ tail).head? = some '0' → k = 0 := by
    intro tail h0
    have h1 : (Nat.toDigits 10 (n / d)).head? = some '0' := by
      cases hl : Nat.toDigits 10 (n / d) with
      | nil => exact absurd hl hne
      | cons a l =>
        rw [hl] at h0
        simpa using h0
    have := (hhead h1).2
    omega
  constructor
  · intro hnil
    have hr : n % d = 0 := fnil.1 hnil
    have ht := takeDigits_append _ hdig (c :: rest) (by simp [hc]) 0 0
    rw [hval, hk] at ht
    simp only [Nat.zero_mul, Nat.zero_add] at ht
    rw [parseNumber_of_whole neg _ (n / d) k c rest _ _ ht (hz _) hdot
      (parseExponent_none _ 0 c rest he hE)]
    have hq : (((n / d : Nat) : Int) : ℚ) / (10 : ℚ) ^ 0 = (n : ℚ) / d := by
      have h1 : n / d * d = n := by
        have := Nat.div_add_mod n d
        rw [Nat.mul_comm]
        omega
      rw [pow_zero, div_one, eq_div_iff hdq]
      exact_mod_cast h1
    simp only [hq]
  · intro hcons
    have ht := takeDigits_append _ hdig ('.' :: (fractionDigits places (n % d) d ++ c :: rest))
      (by simp) 0 0
    rw [hval, hk] at ht
    simp only [Nat.zero_mul, Nat.zero_add] at ht
    have hf := takeDigits_append _ fdig (c :: rest) (by simp [hc]) (n / d) 0
    rw [hx] at hf
    obtain ⟨fk, hfk⟩ : ∃ fk, (fractionDigits places (n % d) d).length = fk + 1 :=
      ⟨(fractionDigits places (n % d) d).length - 1, by
        have := List.length_pos.2 hcons
        omega⟩
    rw [hfk] at hf hxd
    simp only [Nat.zero_add] at hf
    rw [parseNumber_of_fraction neg _ (n / d) k _ fk _ _ _ _ ht (hz _) hf
      (parseExponent_none _ (fk + 1) c rest he hE)]
    have hq : (((n / d * 10 ^ (fk + 1) + x : Nat) : Int) : ℚ) / (10 : ℚ) ^ (fk + 1) =
        (n : ℚ) / d := by
      have h10 : ((10 : ℚ) ^ (fk + 1)) ≠ 0 := pow_ne_zero _ (by norm_num)
      rw [div_eq_div_iff h10 hdq]
      have h1 : (n / d * 10 ^ (fk + 1) + x) * d = n * 10 ^ (fk + 1) := by
        have h2 := Nat.div_add_mod n d
        calc (n / d * 10 ^ (fk + 1) + x) * d
            = (d * (n / d)) * 10 ^ (fk + 1) + x * d := by ring
          _ = (d * (n / d)) * 10 ^ (fk + 1) + n % d * 10 ^ (fk + 1) := by rw [hxd]
          _ = (d * (n / d) + n % d) * 10 ^ (fk + 1) := by ring
          _ = n * 10 ^ (fk + 1) := by rw [h2]
      exact_mod_cast h1
    simp only [hq]

theorem numberText_data (q : ℚ) :
    (numberText q).data =
      (if q.num < 0 then ['-'] else []) ++ Nat.toDigits 10 (q.num.natAbs / q.den) ++
        (if fractionDigits q.den (q.num.natAbs % q.den) q.den = [] then []
          else '.' :: fractionDigits q.den (q.num.natAbs % q.den) q.den) := by
  unfold numberText
  simp only []
  split
  next h =>
    rw [h]
    by_cases hn : q.num < 0 <;> simp [hn] <;> rfl
  next h =>
    rw [if_neg h]
    by_cases hn : q.num < 0 <;> simp [hn] <;> rfl

/-- The text of a finite number with a terminating decimal expansion, before a
character that ends a number, is read as that number. -/
theorem parseValue_number (fuel : Nat) (q : ℚ) (hq : q.den ∣ 10 ^ q.den) (c : Char)
    (rest : List Char) (hc : c.isDigit = false) (hdot : c ≠ '.') (he : c ≠ 'e')
    (hE : c ≠ 'E') :
    parseValue (fuel + 1) ((numberText q).data ++ c :: rest) =
      .ok (.num (.fin q), c :: rest) := by
  have hd : 0 < q.den := q.den_pos
  obtain ⟨h1, h2⟩ := parseNumber_decimal (decide (q.num < 0)) q.num.natAbs q.den hd q.den hq c rest
    hc hdot he hE
  have hval : (if decide (q.num < 0) = true then -((q.num.natAbs : ℚ) / q.den)
      else (q.num.natAbs : ℚ) / q.den) = q := by
    have hq2 := Rat.num_div_den q
    by_cases hn : q.num < 0
    · have h4 : (q.num.natAbs : Int) = -q.num := Int.ofNat_natAbs_of_nonpos (le_of_lt hn)
      have h3 : (q.num.natAbs : ℚ) = -(q.num : ℚ) := by
        rw [← Int.cast_natCast, h4, Int.cast_neg]
      simp only [hn, decide_True, if_true, h3, neg_div, neg_neg, hq2]
    · have h4 : (q.num.natAbs : Int) = q.num := Int.natAbs_of_nonneg (not_lt.1 hn)
      have h3 : (q.num.natAbs : ℚ) = (q.num : ℚ) := by
        rw [← Int.cast_natCast, h4]
      simp only [hn, decide_False, if_false, h3, hq2, Bool.false_eq_true]
  rw [hval] at h1 h2
  have hdig := toDigits_spec (q.num.natAbs / q.den)
  rw [numberText_data]
  by_cases hn : q.num < 0
  · simp only [hn, decide_True, if_true] at h1 h2 ⊢
    by_cases hf : fractionDigits q.den (q.num.natAbs % q.den) q.den = []
    · rw [if_pos hf]
      simp only [List.append_nil, List.cons_append, List.nil_append, List.append_assoc]
      exact h1 hf
    · rw [if_neg hf]
      simp only [List.cons_append, List.nil_append, List.append_assoc]
      exact h2 hf
  · simp only [hn, decide_False, if_false, Bool.false_eq_true] at h1 h2 ⊢
    obtain ⟨a, l, hal⟩ : ∃ a l, Nat.toDigits 10 (q.num.natAbs / q.den) = a :: l := by
      cases h : Nat.toDigits 10 (q.num.natAbs / q.den) with
      | nil => exact absurd h hdig.1
      | cons a l => exact ⟨a, l, rfl⟩
    have ha : a.isDigit = true := hdig.2.1 a (by rw [hal]; exact List.mem_cons_self _ _)
    by_cases hf : fractionDigits q.den (q.num.natAbs % q.den) q.den = []
    · rw [if_pos hf]
      have h3 := h1 hf
      rw [hal] at h3 ⊢
      simp only [List.append_nil, List.cons_append, List.nil_append, List.append_assoc] at h3 ⊢
      rw [parseValue_digit fuel a _ ha]
      exact h3
    · rw [if_neg hf]
      have h3 := h2 hf
      rw [hal] at h3 ⊢
      simp only [List.cons_append, List.nil_append, List.append_assoc] at h3 ⊢
      rw [parseValue_digit fuel a _ ha]
      exact h3

theorem hexDigit_value : ∀ n < 32, hexValue? (hexDigit (n / 16)) = some (n / 16) ∧
    hexValue? (hexDigit (n % 16)) = some (n % 16) ∧ hexDigit (n / 16) ≠ '"' := by
  decide

/-- An escaped character read back: it is put before the characters read so far. -/
theorem parseStringBody_escapeChar (c : Char) (rest acc : List Char) :
    parseStringBody (escapeChar c ++ rest) acc = parseStringBody rest (c :: acc) := by
  unfold escapeChar
  by_cases h1 : c = '"'
  · subst h1; rfl
  by_cases h2 : c = '\\'
  · subst h2; rfl
  by_cases h3 : c = '\n'
  · subst h3; rfl
  by_cases h4 : c = '\r'
  · subst h4; rfl
  by_cases h5 : c = '\t'
  · subst h5; rfl
  by_cases h6 : c.toNat = 8
  · have hc : c = Char.ofNat 8 := by rw [← h6, Char.ofNat_toNat]
    subst hc; rfl
  by_cases h7 : c.toNat = 12
  · have hc : c = Char.ofNat 12 := by rw [← h7, Char.ofNat_toNat]
    subst hc; rfl
  by_cases h8 : c.toNat < 32
  · have hc : c = Char.ofNat c.toNat := (Char.ofNat_toNat c).symm
    rw [if_neg h1, if_neg h2, if_neg h3, if_neg h4, if_neg h5, if_neg h6, if_neg h7, if_pos h8]
    interval_cases hh : c.toNat <;> rw [hc] <;> rfl
  · rw [if_neg h1, if_neg h2, if_neg h3, if_neg h4, if_neg h5, if_neg h6, if_neg h7, if_neg h8]
    show parseStringBody (c :: rest) acc = _
    rw [parseStringBody]
    · rw [if_neg h8]
    · intro r; exact h1 r
    · intro a b c1 d r hc; exact absurd hc h2
    · intro e r hc; exact absurd hc h2

/-- The body of a string literal read back: the string, and what follows the
closing quote. -/
theorem parseStringBody_escaped (l : List Char) (rest : List Char) :
    ∀ acc, parseStringBody (l.flatMap escapeChar ++ '"' :: rest) acc =
      .ok (String.mk (acc.reverse ++ l), rest) := by
  induction l with
  | nil =>
    intro acc
    simp [parseStringBody]
  | cons c cs ih =>
    intro acc
    rw [List.flatMap_cons, List.append_assoc, parseStringBody_escapeChar, ih]
    simp

theorem quote_data (s : String) :
    (quote s).data = '"' :: (s.data.flatMap escapeChar ++ ['"']) := by
  simp [quote, String.toList]

/-- A string literal is read back as the string. -/
theorem parseValue_string (fuel : Nat) (s : String) (rest : List Char) :
    parseValue (fuel + 1) ((quote s).data ++ rest) = .ok (.str s, rest) := by
  rw [quote_data]
  show (match parseStringBody ((s.data.flatMap escapeChar ++ ['"']) ++ rest) [] with
    | .ok (s, rest) => Except.ok (JSValue.str s, rest)
    | .error e => .error e) = _
  rw [List.append_assoc, List.singleton_append, parseStringBody_escaped]
  rfl

theorem parseValue_bool (fuel : Nat) (b : Bool) (rest : List Char) :
    parseValue (fuel + 1) ((if b then "true" else "false" : String).data ++ rest) =
      .ok (.bool b, rest) := by
  cases b <;> rfl

theorem skipWs_cons (c : Char) (cs : List Char) (h1 : c ≠ ' ') (h2 : c ≠ '\t') (h3 : c ≠ '\n')
    (h4 : c ≠ '\r') : skipWs (c :: cs) = c :: cs := by
  simp [skipWs, List.dropWhile, h1, h2, h3, h4]

/-- A denominator that divides a power of ten divides `10 ^ d`: the decimal
expansion has fewer places than the denominator. -/
theorem dvd_pow_self_of_dvd_pow : ∀ (d k : Nat), d ∣ 10 ^ k → d ∣ 10 ^ d := by
  intro d
  induction d using Nat.strong_induction_on with
  | _ d ih =>
    intro k h
    by_cases h1 : d = 1
    · subst h1
      exact one_dvd _
    · obtain ⟨p, hp, hpd⟩ := Nat.exists_prime_and_dvd h1
      obtain ⟨e, rfl⟩ := hpd
      have hpos : 0 < p * e := by
        rcases Nat.eq_zero_or_pos (p * e) with h0 | h0
        · rw [h0] at h
          exact absurd (Nat.eq_zero_of_zero_dvd h) (pow_ne_zero _ (by decide))
        · exact h0
      have he : 0 < e := Nat.pos_of_mul_pos_left hpos
      have hlt : e < p * e := by
        have := hp.two_le
        nlinarith
      have h10 : p ∣ 10 := hp.dvd_of_dvd_pow ((Dvd.intro e rfl).trans h)
      have h2 : e ∣ 10 ^ e := ih e hlt k ((Dvd.intro_left p rfl).trans h)
      have h3 : p * e ∣ 10 ^ (e + 1) := by
        rw [pow_succ, Nat.mul_comm (10 ^ e) 10]
        exact Nat.mul_dvd_mul h10 h2
      exact h3.trans (pow_dvd_pow 10 hlt)

/-- A property value is read back, before the comma or the closing brace that
follows it. -/
theorem parseValue_flat (fuel : Nat) (v : JSValue) (hv : v.isFlat) (d : Char)
    (rest : List Char) (hd : d = ',' ∨ d = Char.ofNat 125) :
    parseValue (fuel + 1) ((stringify v).data ++ d :: rest) = .ok (v, d :: rest) := by
  cases v with
  | null => exact absurd hv (by simp [JSValue.isFlat])
  | arr _ => exact absurd hv (by simp [JSValue.isFlat])
  | obj _ => exact absurd hv (by simp [JSValue.isFlat])
  | str s =>
    show parseValue (fuel + 1) ((quote s).data ++ d :: rest) = _
    exact parseValue_string fuel s _
  | bool b =>
    have h : stringify (.bool b) = if b then "true" else "false" := by
      cases b <;> rfl
    rw [h]
    exact parseValue_bool fuel b _
  | num x =>
    cases x with
    | fin q =>
      have hq : q.den ∣ 10 ^ q.den := by
        obtain ⟨k, hk⟩ := hv
        exact dvd_pow_self_of_dvd_pow q.den k hk
      show parseValue (fuel + 1) ((numberText q).data ++ d :: rest) = _
      rcases hd with hd | hd <;> subst hd <;>
        exact parseValue_number fuel q hq _ rest (by decide) (by decide) (by decide) (by decide)
    | nan => exact absurd hv (by simp [JSValue.isFlat, JSNum.isFinite])
    | posInf => exact absurd hv (by simp [JSValue.isFlat, JSNum.isFinite])
    | negInf => exact absurd hv (by simp [JSValue.isFlat, JSNum.isFinite])

theorem setField_new (acc : List (String × JSValue)) (k : String) (v : JSValue)
    (h : k ∉ acc.map Prod.fst) : setField acc k v = acc ++ [(k, v)] := by
  unfold setField
  rw [if_neg]
  intro hany
  rw [List.any_eq_true] at hany
  obtain ⟨kv, hkv, he⟩ := hany
  exact h (List.mem_map.2 ⟨kv, hkv, by simpa using he⟩)

theorem stringifyFields_data (k : String) (v : JSValue) (kv : String × JSValue)
    (kvs : List (String × JSValue)) :
    (stringifyFields [(k, v)]).data = (quote k).data ++ ':' :: (stringify v).data ∧
    (stringifyFields ((k, v) :: kv :: kvs)).data =
      (quote k).data ++ ':' :: ((stringify v).data ++ ',' :: (stringifyFields (kv :: kvs)).data) := by
  constructor
  · show (quote k ++ ":" ++ stringify v).data = _
    simp
  · show (quote k ++ ":" ++ stringify v ++ "," ++ stringifyFields (kv :: kvs)).data = _
    simp

/-- One member of an object read by `parseMembers`, up to the value. -/
theorem parseMembers_step (n : Nat) (k : String) (v : JSValue) (hv : v.isFlat) (d : Char)
    (rest : List Char) (hd : d = ',' ∨ d = Char.ofNat 125) (acc : List (String × JSValue)) :
    parseMembers (n + 2) ((quote k).data ++ ':' :: ((stringify v).data ++ d :: rest)) acc =
      if d = ',' then parseMembers (n + 1) rest (setField acc k v)
      else .ok (.obj (setField acc k v), rest) := by
  rw [quote_data]
  conv_lhs => unfold parseMembers
  rw [List.cons_append, skipWs_cons _ _ (by decide) (by decide) (by decide) (by decide)]
  simp only [List.append_assoc, List.singleton_append]
  rw [parseStringBody_escaped]
  simp only [List.reverse_nil, List.nil_append]
  rw [skipWs_cons _ _ (by decide) (by decide) (by decide) (by decide)]
  simp only []
  rw [parseValue_flat n v hv d rest hd]
  simp only []
  rcases hd with hd | hd <;> subst hd
  · rw [skipWs_cons _ _ (by decide) (by decide) (by decide) (by decide)]
    simp
  · rw [skipWs_cons _ _ (by decide) (by decide) (by decide) (by decide)]
    rfl

/-- The members of a record read back: they are added, in order, to the members
read before. -/
theorem parseMembers_fields (rest : List Char) :
    ∀ (fs : List (String × JSValue)), fs ≠ [] → (∀ kv ∈ fs, kv.2.isFlat) →
      ∀ (acc : List (String × JSValue)) (fuel : Nat), fs.length + 1 ≤ fuel →
        ((acc ++ fs).map Prod.fst).Nodup →
        parseMembers fuel ((stringifyFields fs).data ++ Char.ofNat 125 :: rest) acc =
          .ok (.obj (acc ++ fs), rest) := by
  intro fs
  induction fs with
  | nil => intro h; exact absurd rfl h
  | cons kv kvs ih =>
    intro _ hflat acc fuel hfuel hnd
    obtain ⟨k, v⟩ := kv
    have hv : v.isFlat := hflat (k, v) (List.mem_cons_self _ _)
    have hk : k ∉ acc.map Prod.fst := by
      rw [List.map_append, List.map_cons] at hnd
      have := (List.nodup_append.1 hnd).2.2
      intro hmem
      exact this hmem (List.mem_cons_self _ _)
    cases kvs with
    | nil =>
      obtain ⟨n, rfl⟩ : ∃ n, fuel = n + 2 := ⟨fuel - 2, by simp at hfuel; omega⟩
      rw [(stringifyFields_data k v (k, v) []).1, List.append_assoc, List.cons_append,
        parseMembers_step n k v hv _ rest (Or.inr rfl) acc, if_neg (by decide),
        setField_new acc k v hk]
    | cons kv2 kvs =>
      obtain ⟨n, rfl⟩ : ∃ n, fuel = n + 2 := ⟨fuel - 2, by simp at hfuel; omega⟩
      rw [(stringifyFields_data k v kv2 kvs).2, List.append_assoc, List.cons_append,
        List.append_assoc, List.cons_append,
        parseMembers_step n k v hv _ _ (Or.inl rfl) acc, if_pos rfl,
        setField_new acc k v hk]
      rw [ih (by simp) (fun x hx => hflat x (List.mem_cons_of_mem _ hx)) (acc ++ [(k, v)]) (n + 1)
        (by simp at hfuel ⊢; omega) (by simpa using hnd)]
      simp

/-- A record with at least one member, distinct keys and flat values. -/
theorem parseValue_record (fs : List (String × JSValue)) (hne : fs ≠ [])
    (hflat : ∀ kv ∈ fs, kv.2.isFlat) (hnd : (fs.map Prod.fst).Nodup) (fuel : Nat)
    (hfuel : fs.length + 2 ≤ fuel) (rest : List Char) :
    parseValue fuel ((stringify (.obj fs)).data ++ rest) = .ok (.obj fs, rest) := by
  obtain ⟨n, rfl⟩ : ∃ n, fuel = n + 1 := ⟨fuel - 1, by omega⟩
  have h := parseMembers_fields rest fs hne hflat [] n (by omega) (by simpa using hnd)
  have hdata : (stringify (.obj fs)).data ++ rest =
      Char.ofNat 123 :: ((stringifyFields fs).data ++ Char.ofNat 125 :: rest) := by
    show (String.singleton (Char.ofNat 123) ++ stringifyFields fs ++
      String.singleton (Char.ofNat 125)).data ++ rest = _
    simp
  rw [hdata]
  obtain ⟨⟨k, v⟩, kvs, rfl⟩ : ∃ kv kvs, fs = kv :: kvs := by
    cases fs with
    | nil => exact absurd rfl hne
    | cons kv kvs => exact ⟨kv, kvs, rfl⟩
  have hq : ∃ tail, (stringifyFields ((k, v) :: kvs)).data = '"' :: tail := by
    cases kvs with
    | nil => exact ⟨_, by rw [(stringifyFields_data k v (k, v) []).1, quote_data]; rfl⟩
    | cons kv2 kvs => exact ⟨_, by rw [(stringifyFields_data k v kv2 kvs).2, quote_data]; rfl⟩
  obtain ⟨tail, ht⟩ := hq
  rw [ht] at h ⊢
  rw [List.nil_append] at h
  rw [← h]
  rfl

theorem stringifyFields_length : ∀ fs : List (String × JSValue),
    fs.length ≤ (stringifyFields fs).data.length := by
  intro fs
  induction fs with
  | nil => simp
  | cons kv kvs ih =>
    obtain ⟨k, v⟩ := kv
    cases kvs with
    | nil =>
      rw [(stringifyFields_data k v (k, v) []).1, quote_data]
      simp
    | cons kv2 kvs =>
      rw [(stringifyFields_data k v kv2 kvs).2, quote_data]
      simp only [List.length_cons, List.length_append] at ih ⊢
      omega

theorem stringify_obj_data (fs : List (String × JSValue)) :
    (stringify (.obj fs)).data =
      Char.ofNat 123 :: ((stringifyFields fs).data ++ [Char.ofNat 125]) := by
  show (String.singleton (Char.ofNat 123) ++ stringifyFields fs ++
    String.singleton (Char.ofNat 125)).data = _
  simp

theorem stringifyItems_data (v v2 : JSValue) (vs : List JSValue) :
    (stringifyItems [v]).data = (stringify v).data ∧
    (stringifyItems (v :: v2 :: vs)).data =
      (stringify v).data ++ ',' :: (stringifyItems (v2 :: vs)).data := by
  constructor
  · rfl
  · show (stringify v ++ "," ++ stringifyItems (v2 :: vs)).data = _
    simp

/-- The elements of an array of records read back: they follow, in order, the
elements read before. -/
theorem parseElements_items (rest : List Char) :
    ∀ (vs : List JSValue), vs ≠ [] →
      (∀ v ∈ vs, ∃ fs, v = .obj fs ∧ fs ≠ [] ∧ (∀ kv ∈ fs, kv.2.isFlat) ∧
        (fs.map Prod.fst).Nodup) →
      ∀ (acc : List JSValue) (fuel : Nat), (stringifyItems vs).data.length + 1 ≤ fuel →
        parseElements fuel ((stringifyItems vs).data ++ ']' :: rest) acc =
          .ok (.arr (acc.reverse ++ vs), rest) := by
  intro vs
  induction vs with
  | nil => intro h; exact absurd rfl h
  | cons v vs ih =>
    intro _ hrec acc fuel hfuel
    obtain ⟨fs, rfl, hne, hflat, hnd⟩ := hrec v (List.mem_cons_self _ _)
    have hlen : fs.length + 2 ≤ (stringify (.obj fs)).data.length := by
      rw [stringify_obj_data]
      have := stringifyFields_length fs
      simp only [List.length_cons, List.length_append, List.length_nil]
      omega
    obtain ⟨n, rfl⟩ : ∃ n, fuel = n + 1 := ⟨fuel - 1, by omega⟩
    cases vs with
    | nil =>
      rw [(stringifyItems_data (.obj fs) (.obj fs) []).1] at hfuel ⊢
      unfold parseElements
      rw [parseValue_record fs hne hflat hnd n (by omega)]
      simp only []
      rw [skipWs_cons _ _ (by decide) (by decide) (by decide) (by decide)]
      simp
    | cons v2 vs =>
      rw [(stringifyItems_data (.obj fs) v2 vs).2] at hfuel ⊢
      simp only [List.length_append, List.length_cons] at hfuel
      conv_lhs => unfold parseElements
      rw [List.append_assoc, parseValue_record fs hne hflat hnd n (by omega)]
      simp only []
      rw [List.cons_append, skipWs_cons _ _ (by decide) (by decide) (by decide) (by decide)]
      simp only []
      rw [ih (by simp) (fun x hx => hrec x (List.mem_cons_of_mem _ hx)) _ n (by omega)]
      simp

theorem dataRecord_flat (v : JSValue) (h : DataRecord v) :
    ∃ fs, v = .obj fs ∧ fs ≠ [] ∧ (∀ kv ∈ fs, kv.2.isFlat) ∧ (fs.map Prod.fst).Nodup := by
  have hnat : ∀ n : Nat, (JSValue.num (.ofNat n)).isFlat := by
    intro n
    show ∃ k, ((n : ℚ)).den ∣ 10 ^ k
    rw [Rat.den_natCast]
    exact ⟨0, one_dvd _⟩
  rcases h with ⟨t, rfl⟩ | ⟨t, rfl⟩ | ⟨t, h1, h2, rfl⟩ | ⟨t, h1, rfl⟩
  · refine ⟨_, rfl, by simp, ?_, ?_⟩
    · intro kv hkv
      simp only [List.mem_cons, List.mem_singleton, List.not_mem_nil, or_false] at hkv
      rcases hkv with rfl | rfl | rfl | rfl <;> first | exact hnat _ | exact trivial
    · simp only [List.map_cons, List.map_nil]
      decide
  · refine ⟨_, rfl, by simp, ?_, ?_⟩
    · intro kv hkv
      simp only [List.mem_cons, List.mem_singleton, List.not_mem_nil, or_false] at hkv
      rcases hkv with rfl | rfl | rfl <;> first | exact hnat _ | exact trivial
    · simp only [List.map_cons, List.map_nil]
      decide
  · refine ⟨_, rfl, by simp, ?_, ?_⟩
    · intro kv hkv
      simp only [List.mem_cons, List.mem_singleton, List.not_mem_nil, or_false] at hkv
      rcases hkv with rfl | rfl | rfl | rfl | rfl | rfl | rfl | rfl | rfl <;>
        first | exact hnat _ | exact trivial | exact h1 | exact h2
    · simp only [List.map_cons, List.map_nil]
      decide
  · refine ⟨_, rfl, by simp, ?_, ?_⟩
    · intro kv hkv
      simp only [List.mem_cons, List.mem_singleton, List.not_mem_nil, or_false] at hkv
      rcases hkv with rfl | rfl | rfl | rfl <;> first | exact hnat _ | exact trivial | exact h1
    · simp only [List.map_cons, List.map_nil]
      decide

/-- The reference JSON is faithful on the collections of the page. -/
theorem jsonFaithful : JsonFaithful platform := by
  intro items hrec
  refine ⟨stringify (.arr items), rfl, ?_, ?_⟩
  · intro h
    have h2 : (stringify (.arr items)).data = [] := by rw [h]
    have h3 : (stringify (.arr items)).data = '[' :: ((stringifyItems items).data ++ [']']) := by
      show ("[" ++ stringifyItems items ++ "]").data = _
      simp
    rw [h3] at h2
    exact absurd h2 (by simp)
  · show jsonParse (stringify (.arr items)) = _
    cases items with
    | nil => rfl
    | cons v vs =>
      have h3 : (stringify (.arr (v :: vs))).data =
          '[' :: ((stringifyItems (v :: vs)).data ++ ']' :: []) := by
        show ("[" ++ stringifyItems (v :: vs) ++ "]").data = _
        simp
      have hflat := fun x hx => dataRecord_flat x (hrec x hx)
      have h4 := parseElements_items [] (v :: vs) (by simp) hflat []
        ((stringifyItems (v :: vs)).data.length + 2) (by omega)
      obtain ⟨fs, rfl, -⟩ := hflat v (List.mem_cons_self _ _)
      have h5 : ∃ tail, (stringifyItems (.obj fs :: vs)).data = Char.ofNat 123 :: tail := by
        cases vs with
        | nil =>
          rw [(stringifyItems_data (.obj fs) (.obj fs) []).1, stringify_obj_data]
          exact ⟨_, rfl⟩
        | cons v2 vs =>
          rw [(stringifyItems_data (.obj fs) v2 vs).2, stringify_obj_data]
          exact ⟨_, rfl⟩
      obtain ⟨tail, ht⟩ := h5
      have hlen : (stringify (.arr (.obj fs :: vs))).length + 1 =
          ((stringifyItems (.obj fs :: vs)).data.length + 2) + 1 := by
        show (stringify (.arr (.obj fs :: vs))).data.length + 1 = _
        rw [h3]
        simp
      unfold jsonParse
      rw [hlen]
      show (match parseValue _ (stringify (.arr (.obj fs :: vs))).data with
        | .ok (v, rest) => if (skipWs rest).isEmpty then Except.ok v else malformed
        | .error e => .error e) = _
      rw [h3]
      rw [ht] at h4 ⊢
      have h6 : parseValue ((Char.ofNat 123 :: tail).length + 2 + 1)
          ('[' :: (Char.ofNat 123 :: tail ++ [']'])) =
          parseElements ((Char.ofNat 123 :: tail).length + 2)
            (Char.ofNat 123 :: tail ++ [']']) [] := rfl
      rw [h6, h4]
      rfl

end Reference

/-- A trader whose amount is `Infinity` is accepted by `addTrader`; saving its
collection succeeds, the store holds `null` for the amount, and loading the key
yields a collection that differs from the one saved. -/
theorem infinite_amount_not_restored :
    infiniteAmountForm.accepted Reference.platform = true ∧
    infiniteAmountWorld.app.traders =
      [{ id := 1000, name := "Layla", amount := .posInf, createdAt := sampleIso }] ∧
    (AppState.saveToStorage Reference.platform World.empty "traders"
      infiniteAmountWorld.app.tradersJS true).2 = true ∧
    AppState.loadCollection Reference.platform
      (AppState.saveToStorage Reference.platform World.empty "traders"
        infiniteAmountWorld.app.tradersJS true).1.localStorage "traders" =
      .arr [.obj [("id", .num (.fin 1000)), ("name", .str "Layla"), ("amount", .null),
        ("createdAt", .str sampleIso)]] ∧
    AppState.loadCollection Reference.platform
      (AppState.saveToStorage Reference.platform World.empty "traders"
        infiniteAmountWorld.app.tradersJS true).1.localStorage "traders" ≠
      infiniteAmountWorld.app.tradersJS := by
  have h4 : AppState.loadCollection Reference.platform
      (AppState.saveToStorage Reference.platform World.empty "traders"
        infiniteAmountWorld.app.tradersJS true).1.localStorage "traders" =
      .arr [.obj [("id", .num (.fin 1000)), ("name", .str "Layla"), ("amount", .null),
        ("createdAt", .str sampleIso)]] := rfl
  have h2 : infiniteAmountWorld.app.traders =
      [{ id := 1000, name := "Layla", amount := .posInf, createdAt := sampleIso }] := by decide
  refine ⟨by decide, h2, rfl, h4, ?_⟩
  rw [h4]
  intro h
  simp [AppState.tradersJS, h2, Trader.toJS] at h

/-- **C8 (amended).** For every key and every collection `C` of records of the
data-model shapes whose numbers are finite (the empty one included), once
`saveToStorage(key, C)` has returned `true`, loading the key from the store it
left, as the constructor does with its `|| []` default, yields `C`: on every
platform whose JSON is faithful on such collections, and on the reference
platform, whose JSON is proved to be. -/
theorem save_then_load (w : World) (key : String) (items : List JSValue) (writeOk : Bool)
    (hrec : ∀ v ∈ items, DataRecord v) :
    (∀ P : Platform, JsonFaithful P →
      (AppState.saveToStorage P w key (.arr items) writeOk).2 = true →
      AppState.loadCollection P
        (AppState.saveToStorage P w key (.arr items) writeOk).1.localStorage key =
          .arr items) ∧
    ((AppState.saveToStorage Reference.platform w key (.arr items) writeOk).2 = true →
      AppState.loadCollection Reference.platform
        (AppState.saveToStorage Reference.platform w key (.arr items) writeOk).1.localStorage
          key = .arr items) := by
  have main : ∀ P : Platform, JsonFaithful P →
      (AppState.saveToStorage P w key (.arr items) writeOk).2 = true →
      AppState.loadCollection P
        (AppState.saveToStorage P w key (.arr items) writeOk).1.localStorage key =
          .arr items := by
    intro P hP hsaved
    obtain ⟨text, hs, hne, hp⟩ := hP items hrec
    have hw : writeOk = true := ((saveToStorage_true_iff P w key _ writeOk).mp hsaved).2
    subst hw
    have hget := saveToStorage_stored P w key (.arr items) text hs
    have ht : strTruthy text = true := (strTruthy_eq_true_iff text).mpr hne
    simp [AppState.loadCollection, AppState.loadFromStorage, AppState.loadFromStorage.tryBody,
      hget, ht, hp, JSValue.or, JSValue.truthy]
  exact ⟨main, main Reference.platform Reference.jsonFaithful⟩

/-- The round trip of C8 on the reference platform, for the transactions of the
sample page and for the empty collection. -/
theorem save_then_load_witness :
    (∀ v ∈ sampleWorld.app.transactions.map Transaction.toJS, DataRecord v) ∧
    (AppState.saveToStorage Reference.platform sampleWorld "transactions"
      sampleWorld.app.transactionsJS true).2 = true ∧
    AppState.loadCollection Reference.platform
      (AppState.saveToStorage Reference.platform sampleWorld "transactions"
        sampleWorld.app.transactionsJS true).1.localStorage "transactions" =
          sampleWorld.app.transactionsJS ∧
    AppState.loadCollection Reference.platform
      (AppState.saveToStorage Reference.platform sampleWorld "notes" (.arr [])
        true).1.localStorage "notes" = .arr [] :=
  have hfin : ∀ n : Nat, (JSNum.fin (n : ℚ)).isFinite := fun n => by
    show ∃ k, ((n : ℚ)).den ∣ 10 ^ k
    rw [Rat.den_natCast]
    exact ⟨0, one_dvd _⟩
  have hrec : ∀ v ∈ sampleWorld.app.transactions.map Transaction.toJS, DataRecord v :=
    fun v hv => by
      simp only [sampleWorld, List.map_cons, List.map_nil, List.mem_singleton] at hv
      subst hv
      exact Or.inr (Or.inr (Or.inl ⟨_, hfin 0, hfin 250, rfl⟩))
  ⟨hrec, rfl,
    (save_then_load sampleWorld "transactions"
      (sampleWorld.app.transactions.map Transaction.toJS) true hrec).2 rfl,
    (save_then_load sampleWorld "notes" [] true (fun _ hv => absurd hv (List.not_mem_nil _))).1
      Reference.platform Reference.jsonFaithful rfl⟩

/-- **C9.** Loading a collection (`loadFromStorage(key) || []`) returns a value
for every key, store content and platform, no error of the `try` body escaping:
the empty array when the key is absent, when its string is empty, when
`JSON.parse` throws on it, or when the parsed value is falsy; and the parsed
value itself when it is truthy, as every array, that is every stored collection,
is. -/
theorem load_never_fails (P : Platform) (ls : LocalStorage) (key : String) :
    (∀ e, AppState.loadFromStorage.tryBody P ls key = .error e →
      AppState.loadFromStorage P ls key = .null ∧
      AppState.loadCollection P ls key = .arr []) ∧
    (ls.getItem key = none → AppState.loadCollection P ls key = .arr []) ∧
    (ls.getItem key = some "" → AppState.loadCollection P ls key = .arr []) ∧
    (∀ data e, ls.getItem key = some data → P.jsonParse data = .error e →
      AppState.loadCollection P ls key = .arr []) ∧
    (∀ data items, ls.getItem key = some data → data ≠ "" →
      P.jsonParse data = .ok (.arr items) → AppState.loadCollection P ls key = .arr items) ∧
    (∀ data v, ls.getItem key = some data → data ≠ "" → P.jsonParse data = .ok v →
      AppState.loadCollection P ls key = if v.truthy then v else .arr []) := by
  refine ⟨?_, ?_, ?_, ?_, ?_, ?_⟩
  · intro e h
    simp [AppState.loadCollection, AppState.loadFromStorage, h, JSValue.or, JSValue.truthy]
  · intro h
    simp [AppState.loadCollection, AppState.loadFromStorage, AppState.loadFromStorage.tryBody,
      h, JSValue.or, JSValue.truthy]
  · intro h
    simp [AppState.loadCollection, AppState.loadFromStorage, AppState.loadFromStorage.tryBody,
      h, JSValue.or, JSValue.truthy, strTruthy]
  · intro data e h hp
    by_cases hd : data = ""
    · simp [AppState.loadCollection, AppState.loadFromStorage,
        AppState.loadFromStorage.tryBody, h, hd, JSValue.or, JSValue.truthy, strTruthy]
    · simp [AppState.loadCollection, AppState.loadFromStorage,
        AppState.loadFromStorage.tryBody, h, hd, hp, JSValue.or, JSValue.truthy, strTruthy]
  · intro data items h hd hp
    simp [AppState.loadCollection, AppState.loadFromStorage, AppState.loadFromStorage.tryBody,
      h, hd, hp, JSValue.or, JSValue.truthy, strTruthy]
  · intro data v h hd hp
    simp [AppState.loadCollection, AppState.loadFromStorage, AppState.loadFromStorage.tryBody,
      h, hd, hp, JSValue.or, strTruthy]

/-- The cases of C9 on the reference platform: an absent key, a string that is
not JSON, and a stored array. -/
theorem load_never_fails_witness :
    AppState.loadCollection Reference.platform ⟨[]⟩ "tasks" = .arr [] ∧
    AppState.loadCollection Reference.platform ⟨[("tasks", "[1,")]⟩ "tasks" = .arr [] ∧
    AppState.loadCollection Reference.platform ⟨[("tasks", "[true, null]")]⟩ "tasks" =
      .arr [.bool true, .null] :=
  ⟨(load_never_fails Reference.platform ⟨[]⟩ "tasks").2.1 rfl,
    (load_never_fails Reference.platform ⟨[("tasks", "[1,")]⟩ "tasks").2.2.2.1 "[1,"
      ⟨"SyntaxError"⟩ rfl rfl,
    (load_never_fails Reference.platform ⟨[("tasks", "[true, null]")]⟩ "tasks").2.2.2.2.1
      "[true, null]" [.bool true, .null] rfl (by decide) rfl⟩

/-- **C10.** `saveToStorage` returns to its caller in every case: `true`
exactly when `JSON.stringify` returned a text and the store accepted the write,
the text then being stored under the key and nothing written to the page;
`false` otherwise, the world then being the one before with only the failure
report (console error and failure toast) added to the page.  In every manager
operation, whenever its page writes report a failed save or the store refuses
the write, none of the page writes is a render, a field clearing, a success
toast, a reminder update or the closing of the edit modal, and from the console
error on they are only the failure report (console error, failure toast and, for
a delete, the closing of its confirmation modal). -/
theorem save_failure_is_reported (P : Platform) (w : World) (key : String) (data : JSValue)
    (writeOk : Bool) (op : Op) :
    ((AppState.saveToStorage P w key data writeOk).2 = true ↔
      (∃ text, P.jsonStringify data = .ok text) ∧ writeOk = true) ∧
    (∀ text, P.jsonStringify data = .ok text →
      (AppState.saveToStorage P w key data true).1.localStorage.getItem key = some text ∧
      (AppState.saveToStorage P w key data true).1.view = w.view) ∧
    ((AppState.saveToStorage P w key data writeOk).2 = false →
      (AppState.saveToStorage P w key data writeOk).1 =
        w.emit [.consoleError key, .toast saveErrorToast "danger"]) ∧
    (op ≠ .sendTaskReminder → ∃ es, (step P w op).view = w.view ++ es ∧
      (reportsFailure es ∨ op.writeOk? = some false → onlyFailureReport es)) := by
  refine ⟨saveToStorage_true_iff P w key data writeOk,
    fun text h => ⟨saveToStorage_stored P w key data text h, by
      simp [AppState.saveToStorage, AppState.saveToStorage.tryBody, LocalStorage.setItem, h]⟩,
    fun h => by rw [(saveToStorage_false_iff P w key data writeOk).mp h], fun hop => ?_⟩
  obtain ⟨es, hes, h | h⟩ := step_outcome P w op true hop
  · exact ⟨es, hes, fun _ => h.1⟩
  · refine ⟨es, hes, fun hc => ?_⟩
    rcases hc with hc | hc
    · exact absurd hc h.2
    · rw [hc] at h
      exact absurd h.1 (by simp)

/-- The failure of C10 on the sample page: a valid task whose write the store
refuses leaves, after the validity mark of the field, only the failure report
on the page. -/
theorem save_failure_is_reported_witness :
    (step Reference.platform sampleWorld (.addTask "Pay rent" 2000 sampleIso false)).view =
      sampleWorld.view ++ [.clearInvalid "taskInput", .consoleError "tasks",
        .toast saveErrorToast "danger"] ∧
    ∃ es, (step Reference.platform sampleWorld (.addTask "Pay rent" 2000 sampleIso false)).view =
        sampleWorld.view ++ es ∧
      (reportsFailure es ∨ (Op.addTask "Pay rent" 2000 sampleIso false).writeOk? = some false →
        onlyFailureReport es) :=
  ⟨by decide,
    (save_failure_is_reported Reference.platform sampleWorld "tasks" (.arr []) false
      (.addTask "Pay rent" 2000 sampleIso false)).2.2.2 (by decide)⟩

/-! ## The rule of `validateInput` -/

theorem utf16Units_pos (c : Char) : 1 ≤ utf16Units c := by
  unfold utf16Units
  split <;> decide

theorem jsLength_eq_zero_iff (s : String) : jsLength s = 0 ↔ s = "" := by
  obtain ⟨cs⟩ := s
  cases cs with
  | nil => simp [jsLength]
  | cons c cs =>
    have := utf16Units_pos c
    constructor
    · intro h
      simp [jsLength] at h
      omega
    · intro h
      exact absurd h (by simp [String.ext_iff])

theorem exceedsMax_eq_false_iff (len : Nat) (maxLength : Option Nat) :
    exceedsMax len maxLength = false ↔ withinMax len maxLength := by
  cases maxLength <;> simp [exceedsMax, withinMax]

/-- The code's rejection rule, read off `validateInput`. -/
theorem validateInput_eq_false_iff (raw : String) (o : InputOptions) :
    Validator.validateInput raw o = false ↔
      (o.required = true ∧ jsTrim raw = "") ∨
      (jsTrim raw ≠ "" ∧ ¬ lengthWithin (jsLength (jsTrim raw)) o) := by
  unfold Validator.validateInput lengthWithin
  rw [← exceedsMax_eq_false_iff]
  by_cases hv : jsTrim raw = ""
  · cases hr : o.required <;> simp [hv, strTruthy]
  · have hs : strTruthy (jsTrim raw) = true := (strTruthy_eq_true_iff _).2 hv
    cases hr : o.required <;>
      cases hx : exceedsMax (jsLength (jsTrim raw)) o.maxLength <;>
        simp [hv, hs, hx, Nat.not_le]

/-- An optional blank field is accepted although its trimmed length, zero, lies
outside `[1, Infinity]`: the specified rejection rule does not hold of it. -/
theorem optional_blank_accepted :
    Validator.validateInput "  " { required := false } = true ∧
    specRejectsInput "  " { required := false } := by
  decide

/-- **C11 (amended).** `validateInput` rejects if and only if the value is
required and empty after trimming, or the trimmed value is not empty and its
length lies outside `[minLength, maxLength]`; the length of an empty value is
not checked.  When the value is required or `minLength` is zero, that is the
rule as specified. -/
theorem validateInput_rejects_iff (raw : String) (o : InputOptions) :
    (Validator.validateInput raw o = false ↔
      (o.required = true ∧ jsTrim raw = "") ∨
      (jsTrim raw ≠ "" ∧ ¬ lengthWithin (jsLength (jsTrim raw)) o)) ∧
    (Validator.validateInput raw o = true ↔
      ¬ ((o.required = true ∧ jsTrim raw = "") ∨
        (jsTrim raw ≠ "" ∧ ¬ lengthWithin (jsLength (jsTrim raw)) o))) ∧
    (o.required = true ∨ o.minLength = 0 →
      (Validator.validateInput raw o = false ↔ specRejectsInput raw o)) := by
  have h := validateInput_eq_false_iff raw o
  refine ⟨h, ?_, ?_⟩
  · rw [← h]
    simp
  · intro hopt
    rw [h]
    unfold specRejectsInput
    by_cases hv : jsTrim raw = ""
    · have h0 : jsLength (jsTrim raw) = 0 := (jsLength_eq_zero_iff _).2 hv
      rcases hopt with hr | hm
      · simp [hv, hr]
      · have hw : lengthWithin (jsLength (jsTrim raw)) o := by
          refine ⟨by omega, ?_⟩
          rw [h0]
          cases o.maxLength <;> simp [withinMax]
        rw [hv] at hw
        simp [hv, hw]
    · simp [hv]

/-- The rule of C11 on a field of 3 to 5 characters: a value that trims to two
letters is rejected for its length, one of three letters is accepted, and a
required blank value is rejected. -/
theorem validateInput_rejects_iff_witness :
    Validator.validateInput "  ab " { minLength := 3, maxLength := some 5 } = false ∧
    Validator.validateInput "abc" { minLength := 3, maxLength := some 5 } = true ∧
    (Validator.validateInput " \t " { maxLength := some 200 } = false ↔
      specRejectsInput " \t " { maxLength := some 200 }) :=
  ⟨(validateInput_rejects_iff "  ab " { minLength := 3, maxLength := some 5 }).1.2
      (Or.inr ⟨by decide, by decide⟩),
    (validateInput_rejects_iff "abc" { minLength := 3, maxLength := some 5 }).2.1.2 (by decide),
    (validateInput_rejects_iff " \t " { maxLength := some 200 }).2.2 (Or.inl rfl)⟩

/-! ## The rule of `validateNumber` -/

theorem trimChars_eq_nil_iff (cs : List Char) :
    trimChars cs = [] ↔ cs.dropWhile isJSWhitespace = [] := by
  unfold trimChars
  constructor
  · intro h
    rw [List.reverse_eq_nil_iff, List.dropWhile_eq_nil_iff] at h
    by_contra hne
    have hpos : 0 < (cs.dropWhile isJSWhitespace).length := List.length_pos.2 hne
    have hnot := List.dropWhile_get_zero_not isJSWhitespace cs hpos
    exact hnot (h _ (List.mem_reverse.2 (List.get_mem _ _ _)))
  · intro h
    simp [h]

theorem jsTrim_eq_empty_iff (s : String) :
    jsTrim s = "" ↔ s.toList.dropWhile isJSWhitespace = [] := by
  rw [← trimChars_eq_nil_iff]
  unfold jsTrim
  constructor
  · intro h
    have := congrArg String.toList h
    simpa using this
  · intro h
    rw [h]

/-- The reference `parseFloat` reads no number from a blank text. -/
theorem Reference.parseFloat_blank (s : String) (h : jsTrim s = "") :
    Reference.parseFloat s = .nan := by
  rw [jsTrim_eq_empty_iff] at h
  unfold Reference.parseFloat
  rw [h]
  rfl

/-- The code's rejection rule, read off `validateNumber`. -/
theorem validateNumber_eq_false_iff (P : Platform) (raw : String) (o : NumberOptions) :
    Validator.validateNumber P raw o = false ↔
      (o.required = true ∧ ((P.parseFloat raw).isNaN = true ∨ jsTrim raw = "")) ∨
      ((P.parseFloat raw).isNaN = false ∧ (P.parseFloat raw).outside o.min o.max) := by
  simp only [Validator.validateNumber, JSNum.outside]
  cases hr : o.required <;> cases hn : (P.parseFloat raw).isNaN <;>
    cases hl : (P.parseFloat raw).lt o.min <;> cases hg : (P.parseFloat raw).gt o.max <;>
      by_cases hb : jsTrim raw = "" <;> simp [hb]

theorem JSNum.not_outside_of_inside {x min max : JSNum} (h : x.inside min max) :
    ¬ x.outside min max := by
  obtain ⟨h1, h2⟩ := h
  unfold JSNum.ge at h1 h2
  unfold JSNum.outside JSNum.gt
  simp only [Bool.and_eq_true, Bool.not_eq_true', Bool.not_eq_eq_eq_not, Bool.not_true] at h1 h2
  rw [h1.2, h2.2]
  simp

/-- **C12.** `validateNumber` rejects a required field that holds no number,
rejects a number outside `[min, max]`, accepts a number inside `[min, max]`, and
accepts an optional field left empty.  The platform assumption is that of every
JavaScript engine: `parseFloat` reads no number from a blank text. -/
theorem validateNumber_contract (P : Platform) (raw : String) (o : NumberOptions)
    (hblank : jsTrim raw = "" → P.parseFloat raw = .nan) :
    (o.required = true → ¬ parseable P raw → Validator.validateNumber P raw o = false) ∧
    (parseable P raw → (P.parseFloat raw).outside o.min o.max →
      Validator.validateNumber P raw o = false) ∧
    (parseable P raw → (P.parseFloat raw).inside o.min o.max →
      Validator.validateNumber P raw o = true) ∧
    (o.required = false → jsTrim raw = "" → Validator.validateNumber P raw o = true) := by
  have hiff := validateNumber_eq_false_iff P raw o
  unfold parseable
  refine ⟨?_, ?_, ?_, ?_⟩
  · intro hr hp
    exact hiff.2 (Or.inl ⟨hr, Or.inl (by simpa using hp)⟩)
  · intro hp hout
    exact hiff.2 (Or.inr ⟨hp, hout⟩)
  · intro hp hin
    have hne : jsTrim raw ≠ "" := by
      intro hb
      rw [hblank hb] at hp
      exact absurd hp (by decide)
    cases hv : Validator.validateNumber P raw o
    · rcases hiff.1 hv with ⟨_, hn | hb⟩ | ⟨_, hout⟩
      · rw [hp] at hn
        exact absurd hn (by decide)
      · exact absurd hb hne
      · exact absurd hout (JSNum.not_outside_of_inside hin)
    · rfl
  · intro hr hb
    have hn : (P.parseFloat raw).isNaN = true := by
      rw [hblank hb]
      rfl
    cases hv : Validator.validateNumber P raw o
    · rcases hiff.1 hv with ⟨hr1, _⟩ | ⟨hp, _⟩
      · rw [hr] at hr1
        exact absurd hr1 (by decide)
      · rw [hn] at hp
        exact absurd hp (by decide)
    · rfl

/-- The rule of C12 on an amount field with `min = 0`: `"12"` is inside the
range and accepted, `"-3"` is outside and rejected, a required `"abc"` is
rejected and an optional empty field is accepted. -/
theorem validateNumber_contract_witness :
    Validator.validateNumber Reference.platform "12" { min := .fin 0, required := true } = true ∧
    Validator.validateNumber Reference.platform "-3" { min := .fin 0 } = false ∧
    Validator.validateNumber Reference.platform "abc" { min := .fin 0, required := true } = false ∧
    Validator.validateNumber Reference.platform "" { min := .fin 0 } = true :=
  ⟨(validateNumber_contract Reference.platform "12" { min := .fin 0, required := true }
      (Reference.parseFloat_blank "12")).2.2.1 (by decide) (by decide),
    (validateNumber_contract Reference.platform "-3" { min := .fin 0 }
      (Reference.parseFloat_blank "-3")).2.1 (by decide) (by decide),
    (validateNumber_contract Reference.platform "abc" { min := .fin 0, required := true }
      (Reference.parseFloat_blank "abc")).1 rfl (by decide),
    (validateNumber_contract Reference.platform "" { min := .fin 0 }
      (Reference.parseFloat_blank "")).2.2.2 rfl (by decide)⟩

/-! ## The reminder -/

/-- What `updateNotifications` writes, by the list of incomplete tasks. -/
theorem updateNotifications_eq (w : World) :
    TaskManager.updateNotifications w =
      if 0 < (w.app.tasks.filter fun task => !task.completed).length then
        w.emit [.showReminder (w.app.tasks.filter fun task => !task.completed).length,
          .whatsApp (TaskManager.notificationMessage
            (w.app.tasks.filter fun task => !task.completed))]
      else w.emit [.hideReminder] := rfl

/-- What `sendTaskReminder` writes, by the list of incomplete tasks. -/
theorem sendTaskReminder_eq (w : World) :
    WhatsAppService.sendTaskReminder w =
      if 0 < (w.app.tasks.filter fun task => !task.completed).length then
        w.emit [.whatsApp (WhatsAppService.reminderMessage
          (w.app.tasks.filter fun task => !task.completed))]
      else w := rfl

/-- **C13.** Both reminder paths work on one list `inc` of tasks: a subsequence
of the task collection (so in the original relative order) whose members are
all incomplete and which every subsequence of incomplete tasks is a
subsequence of, that is, exactly the incomplete tasks in order.  The banner is
given the count `inc.length` and the messages are built from `inc`.  On the
tasks A (open), B (done), C (open) the list is `[A, C]` and the count is 2. -/
theorem incomplete_tasks_in_order :
    (∀ w : World, ∃ inc : List Task,
      inc.Sublist w.app.tasks ∧ (∀ t ∈ inc, t.completed = false) ∧
      (∀ l : List Task, l.Sublist w.app.tasks → (∀ t ∈ l, t.completed = false) →
        l.Sublist inc) ∧
      TaskManager.updateNotifications w =
        (if 0 < inc.length then
          w.emit [.showReminder inc.length, .whatsApp (TaskManager.notificationMessage inc)]
        else w.emit [.hideReminder]) ∧
      WhatsAppService.sendTaskReminder w =
        (if 0 < inc.length then w.emit [.whatsApp (WhatsAppService.reminderMessage inc)]
        else w)) ∧
    TaskManager.updateNotifications abcWorld =
      abcWorld.emit [.showReminder 2, .whatsApp (TaskManager.notificationMessage acTasks)] ∧
    WhatsAppService.sendTaskReminder abcWorld =
      abcWorld.emit [.whatsApp (WhatsAppService.reminderMessage acTasks)] := by
  refine ⟨?_, by decide, by decide⟩
  intro w
  refine ⟨w.app.tasks.filter fun task => !task.completed, List.filter_sublist _, ?_, ?_,
    updateNotifications_eq w, sendTaskReminder_eq w⟩
  · intro t ht
    simpa using (List.mem_filter.1 ht).2
  · intro l hl hall
    have hself : l.filter (fun task => !task.completed) = l :=
      List.filter_eq_self.2 fun a ha => by simp [hall a ha]
    rw [← hself]
    exact hl.filter _

/-! ## The message -/

theorem digitChar_ne_newline : ∀ m < 10, Nat.digitChar m ≠ '\n' := by decide

theorem toDigitsCore_no_newline (fuel : Nat) :
    ∀ (n : Nat) (ds : List Char), '\n' ∉ ds → '\n' ∉ Nat.toDigitsCore 10 fuel n ds := by
  induction fuel with
  | zero => intro n ds h; simpa [Nat.toDigitsCore] using h
  | succ fuel ih =>
    intro n ds h
    have hd : '\n' ∉ Nat.digitChar (n % 10) :: ds := by
      intro hmem
      rcases List.mem_cons.1 hmem with h1 | h1
      · exact digitChar_ne_newline (n % 10) (Nat.mod_lt _ (by decide)) h1.symm
      · exact h h1
    simp only [Nat.toDigitsCore]
    split
    · exact hd
    · exact ih _ _ hd

/-- The decimal text of a natural number holds no newline. -/
theorem toString_no_newline (n : Nat) : '\n' ∉ (toString n).toList := by
  show '\n' ∉ (Nat.toDigits 10 n).asString.toList
  exact toDigitsCore_no_newline _ _ _ (List.not_mem_nil _)

theorem notificationHeader_no_newline (n : Nat) :
    '\n' ∉ (TaskManager.notificationHeader n).toList := by
  have h := toString_no_newline n
  unfold TaskManager.notificationHeader
  simp only [String.toList, String.data_append, List.mem_append, not_or] at h ⊢
  exact ⟨⟨by decide, h⟩, by decide⟩

theorem reminderHeader_no_newline (n : Nat) :
    '\n' ∉ (WhatsAppService.reminderHeader n).toList := by
  have h := toString_no_newline n
  unfold WhatsAppService.reminderHeader
  simp only [String.toList, String.data_append, List.mem_append, not_or] at h ⊢
  exact ⟨⟨by decide, h⟩, by decide⟩

theorem notificationMessage_eq (inc : List Task) :
    TaskManager.notificationMessage inc =
      TaskManager.notificationHeader inc.length ++ "\n" ++
        "\n".intercalate (inc.map fun task => "• " ++ task.text) := by
  unfold TaskManager.notificationMessage TaskManager.notificationHeader bulletList
  have h : ("):\n" : String) = "):" ++ "\n" := by decide
  rw [h]
  simp only [String.append_assoc]

theorem reminderMessage_eq (inc : List Task) :
    WhatsAppService.reminderMessage inc =
      WhatsAppService.reminderHeader inc.length ++ "\n" ++
        "\n".intercalate (inc.map fun task => "• " ++ task.text) := by
  unfold WhatsAppService.reminderMessage WhatsAppService.reminderHeader bulletList
  have h : (" مهمة غير منجزة:\n" : String) = " مهمة غير منجزة:" ++ "\n" := by decide
  rw [h]
  simp only [String.append_assoc]

/-- The two header lines differ, whatever the counts and whatever follows. -/
theorem headers_differ (n m : Nat) (rest1 rest2 : String) :
    TaskManager.notificationHeader n ++ rest1 ≠ WhatsAppService.reminderHeader m ++ rest2 := by
  intro h
  have h2 := congrArg (fun s : String => s.data.head?) h
  simp [TaskManager.notificationHeader, WhatsAppService.reminderHeader,
    String.data_append] at h2

theorem filter_incomplete_pos (tasks : List Task)
    (h : ∃ t ∈ tasks, t.completed = false) :
    0 < (tasks.filter fun task => !task.completed).length := by
  obtain ⟨t, ht, hc⟩ := h
  exact List.length_pos_of_mem (List.mem_filter.2 ⟨ht, by simp [hc]⟩)

theorem filter_incomplete_nil (tasks : List Task)
    (h : ∀ t ∈ tasks, t.completed = true) :
    (tasks.filter fun task => !task.completed) = [] :=
  List.filter_eq_nil_iff.2 fun t ht => by simp [h t ht]

/-- **C14.** With at least one incomplete task, each reminder path writes one
message: a header line holding the number `n` of incomplete tasks (a line: it
holds no newline), a newline, and the `n` entries `"• " ++ text` of the
incomplete tasks in order, joined by newlines.  With no incomplete task the
page update only hides the banner and the timer path writes nothing: no message
is produced. -/
theorem notification_message_shape (w : World) :
    ((∃ t ∈ w.app.tasks, t.completed = false) →
      ∃ inc : List Task, inc = (w.app.tasks.filter fun task => !task.completed) ∧
        0 < inc.length ∧
        (TaskManager.updateNotifications w).view =
          w.view ++ [.showReminder inc.length,
            .whatsApp (TaskManager.notificationHeader inc.length ++ "\n" ++
              "\n".intercalate (inc.map fun task => "• " ++ task.text))] ∧
        (WhatsAppService.sendTaskReminder w).view =
          w.view ++ [.whatsApp (WhatsAppService.reminderHeader inc.length ++ "\n" ++
            "\n".intercalate (inc.map fun task => "• " ++ task.text))] ∧
        TaskManager.notificationHeader inc.length =
          "المهام غير المنجزة (" ++ toString inc.length ++ "):" ∧
        WhatsAppService.reminderHeader inc.length =
          "تذكير: لديك " ++ toString inc.length ++ " مهمة غير منجزة:" ∧
        '\n' ∉ (TaskManager.notificationHeader inc.length).toList ∧
        '\n' ∉ (WhatsAppService.reminderHeader inc.length).toList ∧
        (inc.map fun task => "• " ++ task.text).length = inc.length) ∧
    ((∀ t ∈ w.app.tasks, t.completed = true) →
      (TaskManager.updateNotifications w).view = w.view ++ [.hideReminder] ∧
      (WhatsAppService.sendTaskReminder w).view = w.view) := by
  constructor
  · intro h
    have hpos := filter_incomplete_pos w.app.tasks h
    refine ⟨_, rfl, hpos, ?_, ?_, rfl, rfl, notificationHeader_no_newline _,
      reminderHeader_no_newline _, List.length_map _ _⟩
    · rw [updateNotifications_eq, if_pos hpos, notificationMessage_eq]
      rfl
    · rw [sendTaskReminder_eq, if_pos hpos, reminderMessage_eq]
      rfl
  · intro h
    have hnil := filter_incomplete_nil w.app.tasks h
    constructor
    · rw [updateNotifications_eq, hnil]
      rfl
    · rw [sendTaskReminder_eq, hnil]
      rfl

/-- The messages of C14 on the example: with A and C open both paths write a
header with the count 2 and the two entries; with the only task done no message
is written. -/
theorem notification_message_shape_witness :
    (TaskManager.updateNotifications abcWorld).view =
      [.showReminder 2, .whatsApp "المهام غير المنجزة (2):\n• A\n• C"] ∧
    (WhatsAppService.sendTaskReminder abcWorld).view =
      [.whatsApp "تذكير: لديك 2 مهمة غير منجزة:\n• A\n• C"] ∧
    (TaskManager.updateNotifications doneWorld).view = [.hideReminder] ∧
    (WhatsAppService.sendTaskReminder doneWorld).view = [] := by
  obtain ⟨inc, hinc, -, h1, h2, -⟩ :=
    (notification_message_shape abcWorld).1 ⟨_, List.mem_cons_self _ _, rfl⟩
  have h3 := (notification_message_shape doneWorld).2 (by decide)
  subst hinc
  exact ⟨h1, h2, h3.1, h3.2⟩

/-- On the tasks A (open), B (done), C (open) the page update and the hourly
timer write different messages: the header lines differ. -/
theorem reminder_paths_differ :
    (TaskManager.updateNotifications abcWorld).view =
      [.showReminder 2, .whatsApp "المهام غير المنجزة (2):\n• A\n• C"] ∧
    (WhatsAppService.sendTaskReminder abcWorld).view =
      [.whatsApp "تذكير: لديك 2 مهمة غير منجزة:\n• A\n• C"] ∧
    ("المهام غير المنجزة (2):\n• A\n• C" : String) ≠ "تذكير: لديك 2 مهمة غير منجزة:\n• A\n• C" := by
  decide

/-- **C15 (amended).** The hourly timer and the page update summarise the same
incomplete tasks: with none, neither writes a message; otherwise both messages
carry the same count and the same bullet list, each after its own header line,
and as strings the two messages differ. -/
theorem reminder_paths_same_summary (w : World) :
    ∃ inc : List Task, inc = (w.app.tasks.filter fun task => !task.completed) ∧
      (inc = [] →
        (TaskManager.updateNotifications w).view = w.view ++ [.hideReminder] ∧
        (WhatsAppService.sendTaskReminder w).view = w.view) ∧
      (inc ≠ [] → ∃ body : String, body = bulletList inc ∧
        (TaskManager.updateNotifications w).view =
          w.view ++ [.showReminder inc.length,
            .whatsApp (TaskManager.notificationHeader inc.length ++ "\n" ++ body)] ∧
        (WhatsAppService.sendTaskReminder w).view =
          w.view ++ [.whatsApp (WhatsAppService.reminderHeader inc.length ++ "\n" ++ body)] ∧
        TaskManager.notificationHeader inc.length ++ "\n" ++ body ≠
          WhatsAppService.reminderHeader inc.length ++ "\n" ++ body) := by
  refine ⟨_, rfl, ?_, ?_⟩
  · intro hnil
    constructor
    · rw [updateNotifications_eq, hnil]
      rfl
    · rw [sendTaskReminder_eq, hnil]
      rfl
  · intro hne
    have hpos : 0 < (w.app.tasks.filter fun task => !task.completed).length :=
      List.length_pos.2 hne
    refine ⟨_, rfl, ?_, ?_, ?_⟩
    · rw [updateNotifications_eq, if_pos hpos, notificationMessage_eq]
      rfl
    · rw [sendTaskReminder_eq, if_pos hpos, reminderMessage_eq]
      rfl
    · rw [String.append_assoc, String.append_assoc]
      exact headers_differ _ _ _ _

/-- The summary of C15 on the example: both paths list A and C under the count
2, and the two messages differ. -/
theorem reminder_paths_same_summary_witness :
    ∃ body : String, body = "• A\n• C" ∧
      (TaskManager.updateNotifications abcWorld).view =
        [.showReminder 2, .whatsApp (TaskManager.notificationHeader 2 ++ "\n" ++ body)] ∧
      (WhatsAppService.sendTaskReminder abcWorld).view =
        [.whatsApp (WhatsAppService.reminderHeader 2 ++ "\n" ++ body)] ∧
      TaskManager.notificationHeader 2 ++ "\n" ++ body ≠
        WhatsAppService.reminderHeader 2 ++ "\n" ++ body := by
  obtain ⟨inc, hinc, -, h⟩ := reminder_paths_same_summary abcWorld
  have hval : inc = acTasks := by
    rw [hinc]
    decide
  subst hval
  obtain ⟨body, hbody, h1, h2, h3⟩ := h (by decide)
  exact ⟨body, by rw [hbody]; decide, h1, h2, h3⟩

/-! ## Amounts -/

theorem JSNum.isNaN_of_lt {x y : JSNum} (h : x.lt y = true) : x.isNaN = false := by
  cases x <;> simp_all [JSNum.lt, JSNum.isNaN]

/-- An optional amount field that holds a negative number fails `min = 0`. -/
theorem validateNumber_of_negative (P : Platform) (raw : String) (required : Bool)
    (h : (P.parseFloat raw).lt (.fin 0) = true) :
    Validator.validateNumber P raw { min := .fin 0, required := required } = false := by
  have hn := JSNum.isNaN_of_lt h
  simp [Validator.validateNumber, hn, h]

/-- **C16.** A transaction candidate whose pay field, or whose receive field,
holds a negative number is rejected by `addTransaction` whatever the other
fields hold: the validators do not all accept, and the collections and the
content of `localStorage` are those before the call. -/
theorem negative_amount_rejected (P : Platform) (w : World) (f : TransactionForm) (now : Nat)
    (iso : String) (writeOk : Bool)
    (hneg : (P.parseFloat f.pay).lt (.fin 0) = true ∨
      (P.parseFloat f.receive).lt (.fin 0) = true) :
    f.accepted P = false ∧
    (TransactionManager.addTransaction P w f now iso writeOk).app.transactions =
      w.app.transactions ∧
    (TransactionManager.addTransaction P w f now iso writeOk).sameData w := by
  have hacc : f.accepted P = false := by
    rcases hneg with h | h
    · simp [TransactionForm.accepted, validateNumber_of_negative P f.pay false h]
    · simp [TransactionForm.accepted, validateNumber_of_negative P f.receive false h]
  have hb : (!Validator.validateDate P f.date true ||
      !Validator.validateInput f.operation { maxLength := some 100 } ||
      !Validator.validateNumber P f.pay { min := .fin 0 } ||
      !Validator.validateNumber P f.receive { min := .fin 0 }) = true := by
    rw [transaction_guard, hacc]
    rfl
  have hsame : (TransactionManager.addTransaction P w f now iso writeOk).sameData w := by
    simp [TransactionManager.addTransaction, hb, World.sameData, World.emit]
  exact ⟨hacc, by rw [hsame.1], hsame⟩

/-- The example of C16: adding the candidate with date `2024-01-01`, operation
`Sale` and pay `-5` to the empty collection leaves it empty. -/
theorem negative_amount_rejected_witness :
    (TransactionManager.addTransaction Reference.platform World.empty negativePayForm 1000
      sampleIso true).app.transactions = [] :=
  (negative_amount_rejected Reference.platform World.empty negativePayForm 1000 sampleIso true
    (Or.inl (by decide))).2.1

theorem validateNumber_ge_of_parseable (P : Platform) (raw : String) (required : Bool)
    (hv : Validator.validateNumber P raw { min := .fin 0, required := required } = true)
    (hp : parseable P raw) : (P.parseFloat raw).ge (.fin 0) = true := by
  unfold parseable at hp
  cases hl : (P.parseFloat raw).lt (.fin 0)
  · unfold JSNum.ge
    rw [hp, hl]
    rfl
  · rw [validateNumber_of_negative P raw required hl] at hv
    exact absurd hv (by decide)

theorem parseable_of_required (P : Platform) (raw : String) (min : JSNum)
    (hv : Validator.validateNumber P raw { min := min, required := true } = true) :
    parseable P raw := by
  unfold parseable
  cases hn : (P.parseFloat raw).isNaN
  · rfl
  · simp [Validator.validateNumber, hn] at hv

theorem amountStored_of_valid (P : Platform) (raw : String)
    (hv : Validator.validateNumber P raw { min := .fin 0 } = true) :
    amountStored P raw (parseAmountOrZero P raw) := by
  unfold amountStored parseAmountOrZero
  by_cases he : raw = ""
  · subst he
    exact ⟨fun _ => rfl, fun _ => rfl⟩
  · have hs : strTruthy raw = true := (strTruthy_eq_true_iff raw).2 he
    rw [if_pos hs]
    refine ⟨fun h => absurd h he, fun h => ?_⟩
    rcases h with h | h
    · exact absurd h he
    · exact validateNumber_ge_of_parseable P raw false hv h

/-- A pay field holding `abc` passes the validation of `addTransaction`, and the
record is stored with a pay that is `NaN`, which is not `>= 0`. -/
theorem unreadable_pay_stored_as_nan :
    unreadablePayForm.accepted Reference.platform = true ∧
    (TransactionManager.addTransaction Reference.platform World.empty unreadablePayForm 1000
      sampleIso true).app.transactions.map Transaction.pay = [JSNum.nan] ∧
    JSNum.ge .nan (.fin 0) = false := by
  decide

/-- **C17 (amended).** A transaction record stored by `addTransaction` or by the
transaction edit-save has, for each of pay and receive, the amount 0 when the
field was left empty and a number `>= 0` whenever the field is empty or holds
text that reads as a number (the values a number field can hold); a trader
record stored by `addTrader` or by the trader edit-save has an amount that is a
number `>= 0`. -/
theorem stored_amounts_nonNegative (P : Platform) (w : World) (id now : Nat) (iso : String)
    (writeOk : Bool) (f : TransactionForm) (g : TraderForm) :
    (f.accepted P = true →
      (∃ r : Transaction,
        (TransactionManager.addTransaction P w f now iso writeOk).app.transactions =
          w.app.transactions ++ [r] ∧
        amountStored P f.pay r.pay ∧ amountStored P f.receive r.receive) ∧
      (∀ r ∈ (TransactionManager.saveEdit P w id f writeOk).app.transactions,
        r ∈ w.app.transactions ∨
        (r.id = id ∧ amountStored P f.pay r.pay ∧ amountStored P f.receive r.receive))) ∧
    (g.accepted P = true →
      (∃ r : Trader,
        (TraderManager.addTrader P w g now iso writeOk).app.traders = w.app.traders ++ [r] ∧
        r.amount.isNaN = false ∧ r.amount.ge (.fin 0) = true) ∧
      (∀ r ∈ (TraderManager.saveEdit P w id g writeOk).app.traders,
        r ∈ w.app.traders ∨
        (r.id = id ∧ r.amount.isNaN = false ∧ r.amount.ge (.fin 0) = true))) := by
  constructor
  · intro hacc
    have hv := hacc
    simp only [TransactionForm.accepted, Bool.and_eq_true] at hv
    obtain ⟨⟨⟨_, _⟩, hpay⟩, hreceive⟩ := hv
    have h1 := amountStored_of_valid P f.pay hpay
    have h2 := amountStored_of_valid P f.receive hreceive
    constructor
    · rw [addTransaction_app, if_pos hacc]
      exact ⟨_, rfl, h1, h2⟩
    · rw [saveEditTransaction_app, if_pos hacc]
      intro r hr
      obtain ⟨t, ht, rfl⟩ := List.mem_map.1 hr
      by_cases hid : t.id = id
      · rw [if_pos hid]
        exact Or.inr ⟨hid, h1, h2⟩
      · rw [if_neg hid]
        exact Or.inl ht
  · intro hacc
    have hv := hacc
    simp only [TraderForm.accepted, Bool.and_eq_true] at hv
    obtain ⟨_, hamount⟩ := hv
    have hp := parseable_of_required P g.amount (.fin 0) hamount
    have hge := validateNumber_ge_of_parseable P g.amount true hamount hp
    constructor
    · rw [addTrader_app, if_pos hacc]
      exact ⟨_, rfl, hp, hge⟩
    · rw [saveEditTrader_app, if_pos hacc]
      intro r hr
      obtain ⟨t, ht, rfl⟩ := List.mem_map.1 hr
      by_cases hid : t.id = id
      · rw [if_pos hid]
        exact Or.inr ⟨hid, hp, hge⟩
      · rw [if_neg hid]
        exact Or.inl ht

/-- The amounts of C17 on the sample forms: the transaction added from a form
with pay `75` and an empty receive field holds the pay 75 and the receive 0, and
the trader added with the amount `120` holds 120. -/
theorem stored_amounts_nonNegative_witness :
    (∃ r : Transaction,
      (TransactionManager.addTransaction Reference.platform sampleWorld sampleTransactionForm
        2000 sampleIso true).app.transactions = sampleWorld.app.transactions ++ [r] ∧
      r.pay.ge (.fin 0) = true ∧ r.receive = .fin 0) ∧
    (∃ r : Trader,
      (TraderManager.addTrader Reference.platform sampleWorld sampleTraderForm 2000 sampleIso
        true).app.traders = sampleWorld.app.traders ++ [r] ∧
      r.amount.ge (.fin 0) = true) := by
  have h := stored_amounts_nonNegative Reference.platform sampleWorld 1002 2000 sampleIso true
    sampleTransactionForm sampleTraderForm
  obtain ⟨r, hr, hpay, hreceive⟩ := (h.1 (by decide)).1
  obtain ⟨t, ht, -, hamount⟩ := (h.2 (by decide)).1
  exact ⟨⟨r, hr, hpay.2 (Or.inr (by decide)), hreceive.1 rfl⟩, ⟨t, ht, hamount⟩⟩

/-! ## Identity, creation time and order -/

/-- A rewrite of the records under an id that keeps a projection of every
record keeps the sequence of projections. -/
theorem map_update_proj {α β : Type} (proj : α → β) (key : α → Nat) (upd : α → α) (i : Nat)
    (hk : ∀ r, proj (upd r) = proj r) (l : List α) :
    (l.map fun r => if key r = i then upd r else r).map proj = l.map proj := by
  induction l with
  | nil => rfl
  | cons a l ih =>
    by_cases h : key a = i
    · simp [h, hk, ih]
    · simp [h, ih]

/-- **C18.** A toggle and an edit-save leave the id and the creation time of
every record as they were, position by position; the records left by a delete
are records of the collection before it, unchanged. -/
theorem id_and_createdAt_kept (P : Platform) (w : World) (id : Nat) (confirmed writeOk : Bool)
    (text : String) (f : TransactionForm) (g : TraderForm) :
    ((TaskManager.toggleTask P w id writeOk).app.tasks.map Task.stamp =
        w.app.tasks.map Task.stamp ∧
      (TaskManager.saveEdit P w id text writeOk).app.tasks.map Task.stamp =
        w.app.tasks.map Task.stamp ∧
      (NoteManager.saveEdit P w id text writeOk).app.notes.map Note.stamp =
        w.app.notes.map Note.stamp ∧
      (TransactionManager.saveEdit P w id f writeOk).app.transactions.map Transaction.stamp =
        w.app.transactions.map Transaction.stamp ∧
      (TraderManager.saveEdit P w id g writeOk).app.traders.map Trader.stamp =
        w.app.traders.map Trader.stamp) ∧
    ((TaskManager.deleteTask P w id confirmed writeOk).app.tasks.Sublist w.app.tasks ∧
      (NoteManager.deleteNote P w id confirmed writeOk).app.notes.Sublist w.app.notes ∧
      (TransactionManager.deleteTransaction P w id confirmed writeOk).app.transactions.Sublist
        w.app.transactions ∧
      (TraderManager.deleteTrader P w id confirmed writeOk).app.traders.Sublist
        w.app.traders) := by
  refine ⟨⟨?_, ?_, ?_, ?_, ?_⟩, ?_, ?_, ?_, ?_⟩
  · rw [toggleTask_app]
    exact map_update_proj Task.stamp Task.id _ id (by intro r; rfl) _
  · rw [saveEditTask_app]
    split
    · exact map_update_proj Task.stamp Task.id _ id (by intro r; rfl) _
    · rfl
  · rw [saveEditNote_app]
    split
    · exact map_update_proj Note.stamp Note.id _ id (by intro r; rfl) _
    · rfl
  · rw [saveEditTransaction_app]
    split
    · exact map_update_proj Transaction.stamp Transaction.id _ id (by intro r; rfl) _
    · rfl
  · rw [saveEditTrader_app]
    split
    · exact map_update_proj Trader.stamp Trader.id _ id (by intro r; rfl) _
    · rfl
  · rw [deleteTask_app]
    split
    · exact List.filter_sublist _
    · exact List.Sublist.refl _
  · rw [deleteNote_app]
    split
    · exact List.filter_sublist _
    · exact List.Sublist.refl _
  · rw [deleteTransaction_app]
    split
    · exact List.filter_sublist _
    · exact List.Sublist.refl _
  · rw [deleteTrader_app]
    split
    · exact List.filter_sublist _
    · exact List.Sublist.refl _

/-! ## Text bounds -/

theorem length_le_jsLength (s : String) : s.length ≤ jsLength s := by
  obtain ⟨cs⟩ := s
  show cs.length ≤ (cs.map utf16Units).sum
  induction cs with
  | nil => simp
  | cons c cs ih =>
    have hc : 1 ≤ utf16Units c := by
      unfold utf16Units
      split <;> decide
    simp only [List.length_cons, List.map_cons, List.sum_cons]
    omega

/-- Stripping white space from a stripped list changes nothing. -/
theorem trimChars_idem (cs : List Char) : trimChars (trimChars cs) = trimChars cs := by
  have hdef : ∀ l : List Char,
      trimChars l = (l.dropWhile isJSWhitespace).rdropWhile isJSWhitespace := fun _ => rfl
  have hhead : (trimChars cs).dropWhile isJSWhitespace = trimChars cs := by
    rw [List.dropWhile_eq_self_iff]
    intro hl
    obtain ⟨rest, hrest⟩ : trimChars cs <+: cs.dropWhile isJSWhitespace := by
      rw [hdef]
      exact List.rdropWhile_prefix _ _
    have hpos : 0 < (cs.dropWhile isJSWhitespace).length := by
      rw [← hrest, List.length_append]
      omega
    have hnot := List.dropWhile_get_zero_not isJSWhitespace cs hpos
    have hget : (trimChars cs).get ⟨0, hl⟩ = (cs.dropWhile isJSWhitespace).get ⟨0, hpos⟩ := by
      simp only [List.get_eq_getElem, ← hrest]
      rw [List.getElem_append_left]
    rw [hget]
    exact hnot
  rw [hdef (trimChars cs), hhead, hdef cs, List.rdropWhile_idempotent]

/-- The method `trim` is idempotent. -/
theorem jsTrim_idem (s : String) : jsTrim (jsTrim s) = jsTrim s := by
  unfold jsTrim
  show String.mk (trimChars (trimChars s.toList)) = String.mk (trimChars s.toList)
  rw [trimChars_idem]

/-- A field that passes `validateInput` with a maximal length trims to a text
within the bounds. -/
theorem textOk_of_valid (raw : String) (n : Nat)
    (h : Validator.validateInput raw { maxLength := some n } = true) :
    textOk n (jsTrim raw) := by
  have hne : jsTrim raw ≠ "" := by
    intro he
    simp [Validator.validateInput, he, strTruthy] at h
  have hs : strTruthy (jsTrim raw) = true := (strTruthy_eq_true_iff _).2 hne
  have hlen : jsLength (jsTrim raw) ≤ n := by
    by_contra hgt
    have hlt : n < jsLength (jsTrim raw) := Nat.lt_of_not_le hgt
    simp [Validator.validateInput, hs, exceedsMax, hlt] at h
  exact ⟨hne, jsTrim_idem raw, hlen, Nat.le_trans (length_le_jsLength _) hlen⟩

theorem accepted_operation (P : Platform) (f : TransactionForm) (h : f.accepted P = true) :
    Validator.validateInput f.operation { maxLength := some 100 } = true := by
  simp only [TransactionForm.accepted, Bool.and_eq_true] at h
  exact h.1.1.2

theorem accepted_name (P : Platform) (g : TraderForm) (h : g.accepted P = true) :
    Validator.validateInput g.name { maxLength := some 50 } = true := by
  simp only [TraderForm.accepted, Bool.and_eq_true] at h
  exact h.1

/-- What one event does to each of the four collections. -/
theorem step_change (P : Platform) (w : World) (op : Op) :
    Change Task.id (fun t => textOk 200 t.text) (fun r r1 => r1.stamp = r.stamp)
      w.app.tasks (step P w op).app.tasks ∧
    Change Note.id (fun n => textOk 1000 n.text) (fun r r1 => r1.stamp = r.stamp)
      w.app.notes (step P w op).app.notes ∧
    Change Transaction.id (fun t => textOk 100 t.operation) (fun r r1 => r1.stamp = r.stamp)
      w.app.transactions (step P w op).app.transactions ∧
    Change Trader.id (fun t => textOk 50 t.name) (fun r r1 => r1.stamp = r.stamp)
      w.app.traders (step P w op).app.traders := by
  cases op
  case addTask taskInput now iso writeOk =>
    simp only [step, addTask_app]
    split
    next hv => exact ⟨.added _ (textOk_of_valid _ _ hv), .same, .same, .same⟩
    next => exact ⟨.same, .same, .same, .same⟩
  case addNote noteInput now iso writeOk =>
    simp only [step, addNote_app]
    split
    next hv => exact ⟨.same, .added _ (textOk_of_valid _ _ hv), .same, .same⟩
    next => exact ⟨.same, .same, .same, .same⟩
  case addTransaction f now iso writeOk =>
    simp only [step, addTransaction_app]
    split
    next hv => exact ⟨.same, .same, .added _ (textOk_of_valid _ _ (accepted_operation P f hv)), .same⟩
    next => exact ⟨.same, .same, .same, .same⟩
  case addTrader g now iso writeOk =>
    simp only [step, addTrader_app]
    split
    next hv => exact ⟨.same, .same, .same, .added _ (textOk_of_valid _ _ (accepted_name P g hv))⟩
    next => exact ⟨.same, .same, .same, .same⟩
  case toggleTask id writeOk =>
    simp only [step, toggleTask_app]
    exact ⟨.updated id _ (by intro r; exact ⟨rfl, fun h => h⟩), .same, .same, .same⟩
  case editTask id =>
    simp only [step]
    rcases editTask_eq w id with h1 | h1 <;> rw [h1] <;> exact ⟨.same, .same, .same, .same⟩
  case editNote id =>
    simp only [step]
    rcases editNote_eq w id with h1 | h1 <;> rw [h1] <;> exact ⟨.same, .same, .same, .same⟩
  case editTransaction id =>
    simp only [step]
    rcases editTransaction_eq w id with h1 | h1 <;> rw [h1] <;> exact ⟨.same, .same, .same, .same⟩
  case editTrader id =>
    simp only [step]
    rcases editTrader_eq w id with h1 | h1 <;> rw [h1] <;> exact ⟨.same, .same, .same, .same⟩
  case saveEditTask id editInput writeOk =>
    simp only [step, saveEditTask_app]
    split
    next hv => exact ⟨.updated id _ (by intro r; exact ⟨rfl, fun _ => textOk_of_valid _ _ hv⟩), .same, .same, .same⟩
    next => exact ⟨.same, .same, .same, .same⟩
  case saveEditNote id editInput writeOk =>
    simp only [step, saveEditNote_app]
    split
    next hv => exact ⟨.same, .updated id _ (by intro r; exact ⟨rfl, fun _ => textOk_of_valid _ _ hv⟩), .same, .same⟩
    next => exact ⟨.same, .same, .same, .same⟩
  case saveEditTransaction id f writeOk =>
    simp only [step, saveEditTransaction_app]
    split
    next hv => exact ⟨.same, .same, .updated id _ (by intro r; exact ⟨rfl, fun _ => textOk_of_valid _ _ (accepted_operation P f hv)⟩), .same⟩
    next => exact ⟨.same, .same, .same, .same⟩
  case saveEditTrader id g writeOk =>
    simp only [step, saveEditTrader_app]
    split
    next hv => exact ⟨.same, .same, .same, .updated id _ (by intro r; exact ⟨rfl, fun _ => textOk_of_valid _ _ (accepted_name P g hv)⟩)⟩
    next => exact ⟨.same, .same, .same, .same⟩
  case deleteTask id confirmed writeOk =>
    simp only [step, deleteTask_app]
    split
    · exact ⟨.removed id, .same, .same, .same⟩
    · exact ⟨.same, .same, .same, .same⟩
  case deleteNote id confirmed writeOk =>
    simp only [step, deleteNote_app]
    split
    · exact ⟨.same, .removed id, .same, .same⟩
    · exact ⟨.same, .same, .same, .same⟩
  case deleteTransaction id confirmed writeOk =>
    simp only [step, deleteTransaction_app]
    split
    · exact ⟨.same, .same, .removed id, .same⟩
    · exact ⟨.same, .same, .same, .same⟩
  case deleteTrader id confirmed writeOk =>
    simp only [step, deleteTrader_app]
    split
    · exact ⟨.same, .same, .same, .removed id⟩
    · exact ⟨.same, .same, .same, .same⟩
  case sendTaskReminder =>
    simp only [step, sendTaskReminder_app]
    exact ⟨.same, .same, .same, .same⟩

/-- A change of a collection keeps its records in order. -/
theorem Change.keepsOrder {α : Type} {key : α → Nat} {good : α → Prop} {keeps : α → α → Prop}
    {before after : List α} (hkey : ∀ r r1, keeps r r1 → key r1 = key r)
    (h : Change key good keeps before after) : orderKept key before after := by
  cases h with
  | same => exact Or.inr (Or.inl ⟨rfl, rfl⟩)
  | added r hr => exact Or.inl ⟨r, rfl⟩
  | updated i upd hupd =>
    exact Or.inr (Or.inl ⟨List.length_map _ _,
      map_update_proj key key upd i (fun r => hkey _ _ (hupd r).1) _⟩)
  | removed i => exact Or.inr (Or.inr (List.filter_sublist _))

/-- A change of a collection whose records are all good leaves them all good. -/
theorem Change.good_kept {α : Type} {key : α → Nat} {good : α → Prop} {keeps : α → α → Prop}
    {before after : List α} (h : Change key good keeps before after)
    (hb : ∀ r ∈ before, good r) : ∀ r ∈ after, good r := by
  cases h with
  | same => exact hb
  | added r hr =>
    intro x hx
    rcases List.mem_append.1 hx with h1 | h1
    · exact hb x h1
    · rw [List.mem_singleton.1 h1]
      exact hr
  | updated i upd hupd =>
    intro x hx
    obtain ⟨r, hr, rfl⟩ := List.mem_map.1 hx
    by_cases hi : key r = i
    · rw [if_pos hi]
      exact (hupd r).2 (hb r hr)
    · rw [if_neg hi]
      exact hb r hr
  | removed i =>
    intro x hx
    exact hb x (List.mem_filter.1 hx).1

theorem stamp_id_task (r r1 : Task) (h : r1.stamp = r.stamp) : r1.id = r.id :=
  congrArg Prod.fst h

theorem stamp_id_note (r r1 : Note) (h : r1.stamp = r.stamp) : r1.id = r.id :=
  congrArg Prod.fst h

theorem stamp_id_transaction (r r1 : Transaction) (h : r1.stamp = r.stamp) : r1.id = r.id :=
  congrArg Prod.fst h

theorem stamp_id_trader (r r1 : Trader) (h : r1.stamp = r.stamp) : r1.id = r.id :=
  congrArg Prod.fst h

/-- **C19.** Every operation keeps the insertion order.  An add appends the new
record after all existing ones (and a rejected add changes nothing); a toggle
and an edit-save keep the length of the collection and its sequence of ids; a
delete leaves a subsequence of the previous collection; and whatever the event,
each of the four collections afterwards is the previous one with a record
appended, or with the same length and ids, or a subsequence of it. -/
theorem insertion_order_kept (P : Platform) (w : World) :
    ((∀ text now iso writeOk,
        (∃ r, (TaskManager.addTask P w text now iso writeOk).app.tasks = w.app.tasks ++ [r]) ∨
        (TaskManager.addTask P w text now iso writeOk).app.tasks = w.app.tasks) ∧
      (∀ text now iso writeOk,
        (∃ r, (NoteManager.addNote P w text now iso writeOk).app.notes = w.app.notes ++ [r]) ∨
        (NoteManager.addNote P w text now iso writeOk).app.notes = w.app.notes) ∧
      (∀ f now iso writeOk,
        (∃ r, (TransactionManager.addTransaction P w f now iso writeOk).app.transactions =
          w.app.transactions ++ [r]) ∨
        (TransactionManager.addTransaction P w f now iso writeOk).app.transactions =
          w.app.transactions) ∧
      (∀ g now iso writeOk,
        (∃ r, (TraderManager.addTrader P w g now iso writeOk).app.traders =
          w.app.traders ++ [r]) ∨
        (TraderManager.addTrader P w g now iso writeOk).app.traders = w.app.traders)) ∧
    ((∀ id writeOk,
        (TaskManager.toggleTask P w id writeOk).app.tasks.length = w.app.tasks.length ∧
        (TaskManager.toggleTask P w id writeOk).app.tasks.map Task.id =
          w.app.tasks.map Task.id) ∧
      (∀ id text writeOk,
        (TaskManager.saveEdit P w id text writeOk).app.tasks.length = w.app.tasks.length ∧
        (TaskManager.saveEdit P w id text writeOk).app.tasks.map Task.id =
          w.app.tasks.map Task.id) ∧
      (∀ id text writeOk,
        (NoteManager.saveEdit P w id text writeOk).app.notes.length = w.app.notes.length ∧
        (NoteManager.saveEdit P w id text writeOk).app.notes.map Note.id =
          w.app.notes.map Note.id) ∧
      (∀ id f writeOk,
        (TransactionManager.saveEdit P w id f writeOk).app.transactions.length =
          w.app.transactions.length ∧
        (TransactionManager.saveEdit P w id f writeOk).app.transactions.map Transaction.id =
          w.app.transactions.map Transaction.id) ∧
      (∀ id g writeOk,
        (TraderManager.saveEdit P w id g writeOk).app.traders.length = w.app.traders.length ∧
        (TraderManager.saveEdit P w id g writeOk).app.traders.map Trader.id =
          w.app.traders.map Trader.id)) ∧
    ((∀ id confirmed writeOk,
        (TaskManager.deleteTask P w id confirmed writeOk).app.tasks.Sublist w.app.tasks) ∧
      (∀ id confirmed writeOk,
        (NoteManager.deleteNote P w id confirmed writeOk).app.notes.Sublist w.app.notes) ∧
      (∀ id confirmed writeOk,
        (TransactionManager.deleteTransaction P w id confirmed
          writeOk).app.transactions.Sublist w.app.transactions) ∧
      (∀ id confirmed writeOk,
        (TraderManager.deleteTrader P w id confirmed writeOk).app.traders.Sublist
          w.app.traders)) ∧
    (∀ op : Op,
      orderKept Task.id w.app.tasks (step P w op).app.tasks ∧
      orderKept Note.id w.app.notes (step P w op).app.notes ∧
      orderKept Transaction.id w.app.transactions (step P w op).app.transactions ∧
      orderKept Trader.id w.app.traders (step P w op).app.traders) := by
  refine ⟨⟨?_, ?_, ?_, ?_⟩, ⟨?_, ?_, ?_, ?_, ?_⟩, ⟨?_, ?_, ?_, ?_⟩, ?_⟩
  · intro text now iso writeOk
    rw [addTask_app]
    split
    · exact Or.inl ⟨_, rfl⟩
    · exact Or.inr rfl
  · intro text now iso writeOk
    rw [addNote_app]
    split
    · exact Or.inl ⟨_, rfl⟩
    · exact Or.inr rfl
  · intro f now iso writeOk
    rw [addTransaction_app]
    split
    · exact Or.inl ⟨_, rfl⟩
    · exact Or.inr rfl
  · intro g now iso writeOk
    rw [addTrader_app]
    split
    · exact Or.inl ⟨_, rfl⟩
    · exact Or.inr rfl
  · intro id writeOk
    rw [toggleTask_app]
    exact ⟨List.length_map _ _, map_update_proj Task.id Task.id _ id (by intro r; rfl) _⟩
  · intro id text writeOk
    rw [saveEditTask_app]
    split
    · exact ⟨List.length_map _ _, map_update_proj Task.id Task.id _ id (by intro r; rfl) _⟩
    · exact ⟨rfl, rfl⟩
  · intro id text writeOk
    rw [saveEditNote_app]
    split
    · exact ⟨List.length_map _ _, map_update_proj Note.id Note.id _ id (by intro r; rfl) _⟩
    · exact ⟨rfl, rfl⟩
  · intro id f writeOk
    rw [saveEditTransaction_app]
    split
    · exact ⟨List.length_map _ _,
        map_update_proj Transaction.id Transaction.id _ id (by intro r; rfl) _⟩
    · exact ⟨rfl, rfl⟩
  · intro id g writeOk
    rw [saveEditTrader_app]
    split
    · exact ⟨List.length_map _ _, map_update_proj Trader.id Trader.id _ id (by intro r; rfl) _⟩
    · exact ⟨rfl, rfl⟩
  · intro id confirmed writeOk
    rw [deleteTask_app]
    split
    · exact List.filter_sublist _
    · exact List.Sublist.refl _
  · intro id confirmed writeOk
    rw [deleteNote_app]
    split
    · exact List.filter_sublist _
    · exact List.Sublist.refl _
  · intro id confirmed writeOk
    rw [deleteTransaction_app]
    split
    · exact List.filter_sublist _
    · exact List.Sublist.refl _
  · intro id confirmed writeOk
    rw [deleteTrader_app]
    split
    · exact List.filter_sublist _
    · exact List.Sublist.refl _
  · intro op
    obtain ⟨h1, h2, h3, h4⟩ := step_change P w op
    exact ⟨h1.keepsOrder stamp_id_task, h2.keepsOrder stamp_id_note,
      h3.keepsOrder stamp_id_transaction, h4.keepsOrder stamp_id_trader⟩

/-- One event keeps the text bounds. -/
theorem textsOk_step (P : Platform) (w : World) (op : Op) (h : w.app.textsOk) :
    (step P w op).app.textsOk := by
  obtain ⟨h1, h2, h3, h4⟩ := step_change P w op
  exact ⟨h1.good_kept h.1, h2.good_kept h.2.1, h3.good_kept h.2.2.1, h4.good_kept h.2.2.2⟩

/-- A run keeps the text bounds. -/
theorem textsOk_run (P : Platform) (ops : List Op) :
    ∀ w : World, w.app.textsOk → (run P w ops).app.textsOk := by
  induction ops with
  | nil => exact fun w h => h
  | cons op ops ih => exact fun w h => ih (step P w op) (textsOk_step P w op h)

/-- **C20.** In every state reached from the empty collections by a sequence of
events, every task text is non-empty, equal to its trimmed form and at most 200
characters long, and likewise every note text with the bound 1000, every
transaction operation with 100 and every trader name with 50. -/
theorem texts_within_bounds (P : Platform) (ops : List Op) :
    (∀ t ∈ (run P World.empty ops).app.tasks, textOk 200 t.text) ∧
    (∀ n ∈ (run P World.empty ops).app.notes, textOk 1000 n.text) ∧
    (∀ t ∈ (run P World.empty ops).app.transactions, textOk 100 t.operation) ∧
    (∀ t ∈ (run P World.empty ops).app.traders, textOk 50 t.name) :=
  textsOk_run P ops World.empty
    ⟨fun _ h => absurd h (List.not_mem_nil _), fun _ h => absurd h (List.not_mem_nil _),
      fun _ h => absurd h (List.not_mem_nil _), fun _ h => absurd h (List.not_mem_nil _)⟩

/-- The bounds of C20 on the sample run: its two remaining tasks and its note
hold texts within the bounds. -/
theorem texts_within_bounds_witness :
    (run Reference.platform World.empty sampleRun).app.tasks.map Task.text =
      ["Buy brown bread", "Pay rent"] ∧
    (∀ t ∈ (run Reference.platform World.empty sampleRun).app.tasks, textOk 200 t.text) ∧
    (∀ n ∈ (run Reference.platform World.empty sampleRun).app.notes, textOk 1000 n.text) :=
  ⟨by decide, (texts_within_bounds Reference.platform sampleRun).1,
    (texts_within_bounds Reference.platform sampleRun).2.1⟩

/-! ## The field that receives the focus -/

theorem focusedFields_marks (el : String) (ok : Bool) :
    focusedFields (Validator.marks el ok) = [] := by
  cases ok <;> rfl

theorem focusedFields_append (xs ys : List Effect) :
    focusedFields (xs ++ ys) = focusedFields xs ++ focusedFields ys :=
  List.filterMap_append _ _ _

/-- The focus step of a transaction form gives the focus to the first failing
field, and to that field only. -/
theorem focusFirstInvalid_transaction (a b c d : String) (v1 v2 v3 v4 : Bool) :
    focusedFields (TransactionManager.focusFirstInvalid a b c d v1 v2 v3 v4) =
      (firstFailing [(a, v1), (b, v2), (c, v3), (d, v4)]).toList := by
  cases v1 <;> cases v2 <;> cases v3 <;> cases v4 <;> rfl

/-- The focus step of a trader form gives the focus to the first failing field,
and to that field only. -/
theorem focusFirstInvalid_trader (a b : String) (v1 v2 : Bool) :
    focusedFields (TraderManager.focusFirstInvalid a b v1 v2) =
      (firstFailing [(a, v1), (b, v2)]).toList := by
  cases v1 <;> cases v2 <;> rfl

/-- A list of fields one of which failed has a first failing field. -/
theorem firstFailing_isSome (fields : List (String × Bool))
    (h : ∃ p ∈ fields, p.2 = false) : ∃ el, firstFailing fields = some el := by
  induction fields with
  | nil =>
    obtain ⟨p, hp, _⟩ := h
    exact absurd hp (List.not_mem_nil _)
  | cons q rest ih =>
    obtain ⟨el, ok⟩ := q
    cases ok
    · exact ⟨el, rfl⟩
    · obtain ⟨p, hp, hf⟩ := h
      rcases List.mem_cons.1 hp with h1 | h1
      · rw [h1] at hf
        exact absurd hf (by simp)
      · exact ih ⟨p, h1, hf⟩

/-- A rejected transaction form has a failing field among the four validated
ones. -/
theorem rejected_has_failing (P : Platform) (f : TransactionForm) (a b c d : String)
    (h : f.accepted P = false) :
    ∃ p ∈ [(a, Validator.validateDate P f.date true),
        (b, Validator.validateInput f.operation { maxLength := some 100 }),
        (c, Validator.validateNumber P f.pay { min := .fin 0 }),
        (d, Validator.validateNumber P f.receive { min := .fin 0 })], p.2 = false := by
  unfold TransactionForm.accepted at h
  cases hd : Validator.validateDate P f.date true
  · exact ⟨_, List.mem_cons_self _ _, rfl⟩
  · cases ho : Validator.validateInput f.operation { maxLength := some 100 }
    · exact ⟨_, List.mem_cons_of_mem _ (List.mem_cons_self _ _), rfl⟩
    · cases hp : Validator.validateNumber P f.pay { min := .fin 0 }
      · exact ⟨_, List.mem_cons_of_mem _ (List.mem_cons_of_mem _ (List.mem_cons_self _ _)), rfl⟩
      · cases hr : Validator.validateNumber P f.receive { min := .fin 0 }
        · exact ⟨_, List.mem_cons_of_mem _ (List.mem_cons_of_mem _
            (List.mem_cons_of_mem _ (List.mem_cons_self _ _))), rfl⟩
        · rw [hd, ho, hp, hr] at h
          exact absurd h (by decide)

/-- A rejected trader form has a failing field among the two validated ones. -/
theorem trader_rejected_has_failing (P : Platform) (g : TraderForm) (a b : String)
    (h : g.accepted P = false) :
    ∃ p ∈ [(a, Validator.validateInput g.name { maxLength := some 50 }),
        (b, Validator.validateNumber P g.amount { min := .fin 0, required := true })],
      p.2 = false := by
  unfold TraderForm.accepted at h
  cases hn : Validator.validateInput g.name { maxLength := some 50 }
  · exact ⟨_, List.mem_cons_self _ _, rfl⟩
  · cases ha : Validator.validateNumber P g.amount { min := .fin 0, required := true }
    · exact ⟨_, List.mem_cons_of_mem _ (List.mem_cons_self _ _), rfl⟩
    · rw [hn, ha] at h
      exact absurd h (by decide)

/-- What `addTransaction` does with a rejected form. -/
theorem addTransaction_rejected (P : Platform) (w : World) (f : TransactionForm) (now : Nat)
    (iso : String) (writeOk : Bool) (h : f.accepted P = false) :
    TransactionManager.addTransaction P w f now iso writeOk =
      w.emit ((Validator.marks "transDate" (Validator.validateDate P f.date true) ++
        Validator.marks "transOperation"
          (Validator.validateInput f.operation { maxLength := some 100 }) ++
        Validator.marks "transPay" (Validator.validateNumber P f.pay { min := .fin 0 }) ++
        Validator.marks "transReceive"
          (Validator.validateNumber P f.receive { min := .fin 0 })) ++
        TransactionManager.focusFirstInvalid "transDate" "transOperation" "transPay"
          "transReceive" (Validator.validateDate P f.date true)
          (Validator.validateInput f.operation { maxLength := some 100 })
          (Validator.validateNumber P f.pay { min := .fin 0 })
          (Validator.validateNumber P f.receive { min := .fin 0 })) := by
  simp only [TransactionManager.addTransaction, transaction_guard, h, Bool.not_false, if_true,
    World.emit, List.append_assoc]

/-- What the transaction edit-save does with a rejected form. -/
theorem saveEditTransaction_rejected (P : Platform) (w : World) (id : Nat)
    (f : TransactionForm) (writeOk : Bool) (h : f.accepted P = false) :
    TransactionManager.saveEdit P w id f writeOk =
      w.emit ((Validator.marks "editTransDate" (Validator.validateDate P f.date true) ++
        Validator.marks "editTransOperation"
          (Validator.validateInput f.operation { maxLength := some 100 }) ++
        Validator.marks "editTransPay" (Validator.validateNumber P f.pay { min := .fin 0 }) ++
        Validator.marks "editTransReceive"
          (Validator.validateNumber P f.receive { min := .fin 0 })) ++
        TransactionManager.focusFirstInvalid "editTransDate" "editTransOperation"
          "editTransPay" "editTransReceive" (Validator.validateDate P f.date true)
          (Validator.validateInput f.operation { maxLength := some 100 })
          (Validator.validateNumber P f.pay { min := .fin 0 })
          (Validator.validateNumber P f.receive { min := .fin 0 })) := by
  simp only [TransactionManager.saveEdit, transaction_guard, h, Bool.not_false, if_true,
    World.emit, List.append_assoc]

/-- What `addTrader` does with a rejected form. -/
theorem addTrader_rejected (P : Platform) (w : World) (g : TraderForm) (now : Nat)
    (iso : String) (writeOk : Bool) (h : g.accepted P = false) :
    TraderManager.addTrader P w g now iso writeOk =
      w.emit ((Validator.marks "traderName"
          (Validator.validateInput g.name { maxLength := some 50 }) ++
        Validator.marks "traderAmount"
          (Validator.validateNumber P g.amount { min := .fin 0, required := true })) ++
        TraderManager.focusFirstInvalid "traderName" "traderAmount"
          (Validator.validateInput g.name { maxLength := some 50 })
          (Validator.validateNumber P g.amount { min := .fin 0, required := true })) := by
  simp only [TraderManager.addTrader, trader_guard, h, Bool.not_false, if_true,
    World.emit, List.append_assoc]

/-- What the trader edit-save does with a rejected form. -/
theorem saveEditTrader_rejected (P : Platform) (w : World) (id : Nat) (g : TraderForm)
    (writeOk : Bool) (h : g.accepted P = false) :
    TraderManager.saveEdit P w id g writeOk =
      w.emit ((Validator.marks "editTraderName"
          (Validator.validateInput g.name { maxLength := some 50 }) ++
        Validator.marks "editTraderAmount"
          (Validator.validateNumber P g.amount { min := .fin 0, required := true })) ++
        TraderManager.focusFirstInvalid "editTraderName" "editTraderAmount"
          (Validator.validateInput g.name { maxLength := some 50 })
          (Validator.validateNumber P g.amount { min := .fin 0, required := true })) := by
  simp only [TraderManager.saveEdit, trader_guard, h, Bool.not_false, if_true,
    World.emit, List.append_assoc]

/-- The page writes of a rejected transaction form give the focus to the first
failing field only. -/
theorem focused_of_rejected_transaction (a b c d : String) (v1 v2 v3 v4 : Bool)
    (h : ∃ p ∈ [(a, v1), (b, v2), (c, v3), (d, v4)], p.2 = false) :
    ∃ el, firstFailing [(a, v1), (b, v2), (c, v3), (d, v4)] = some el ∧
      focusedFields ((Validator.marks a v1 ++ Validator.marks b v2 ++ Validator.marks c v3 ++
        Validator.marks d v4) ++ TransactionManager.focusFirstInvalid a b c d v1 v2 v3 v4) =
        [el] := by
  obtain ⟨el, hel⟩ := firstFailing_isSome _ h
  refine ⟨el, hel, ?_⟩
  simp only [focusedFields_append, focusedFields_marks, focusFirstInvalid_transaction, hel,
    List.nil_append]
  rfl

/-- The page writes of a rejected trader form give the focus to the first
failing field only. -/
theorem focused_of_rejected_trader (a b : String) (v1 v2 : Bool)
    (h : ∃ p ∈ [(a, v1), (b, v2)], p.2 = false) :
    ∃ el, firstFailing [(a, v1), (b, v2)] = some el ∧
      focusedFields ((Validator.marks a v1 ++ Validator.marks b v2) ++
        TraderManager.focusFirstInvalid a b v1 v2) = [el] := by
  obtain ⟨el, hel⟩ := firstFailing_isSome _ h
  refine ⟨el, hel, ?_⟩
  simp only [focusedFields_append, focusedFields_marks, focusFirstInvalid_trader, hel,
    List.nil_append]
  rfl

/-- **C21.** When a transaction form fails validation, in `addTransaction` and
in the transaction edit-save, the page writes of the call give the focus to one
field: the first one that failed in the order date, operation, pay, receive; and
the collections and the content of `localStorage` are those before the call.
Likewise for a trader form, in `addTrader` and in the trader edit-save, in the
order name, amount. -/
theorem first_failing_field_focused (P : Platform) (w : World) (id now : Nat) (iso : String)
    (writeOk : Bool) (f : TransactionForm) (g : TraderForm) :
    (f.accepted P = false →
      (∃ el es,
        firstFailing [("transDate", Validator.validateDate P f.date true),
          ("transOperation", Validator.validateInput f.operation { maxLength := some 100 }),
          ("transPay", Validator.validateNumber P f.pay { min := .fin 0 }),
          ("transReceive", Validator.validateNumber P f.receive { min := .fin 0 })] =
          some el ∧
        (TransactionManager.addTransaction P w f now iso writeOk).view = w.view ++ es ∧
        focusedFields es = [el] ∧
        (TransactionManager.addTransaction P w f now iso writeOk).sameData w) ∧
      (∃ el es,
        firstFailing [("editTransDate", Validator.validateDate P f.date true),
          ("editTransOperation",
            Validator.validateInput f.operation { maxLength := some 100 }),
          ("editTransPay", Validator.validateNumber P f.pay { min := .fin 0 }),
          ("editTransReceive", Validator.validateNumber P f.receive { min := .fin 0 })] =
          some el ∧
        (TransactionManager.saveEdit P w id f writeOk).view = w.view ++ es ∧
        focusedFields es = [el] ∧
        (TransactionManager.saveEdit P w id f writeOk).sameData w)) ∧
    (g.accepted P = false →
      (∃ el es,
        firstFailing [("traderName", Validator.validateInput g.name { maxLength := some 50 }),
          ("traderAmount",
            Validator.validateNumber P g.amount { min := .fin 0, required := true })] =
          some el ∧
        (TraderManager.addTrader P w g now iso writeOk).view = w.view ++ es ∧
        focusedFields es = [el] ∧
        (TraderManager.addTrader P w g now iso writeOk).sameData w) ∧
      (∃ el es,
        firstFailing [("editTraderName",
            Validator.validateInput g.name { maxLength := some 50 }),
          ("editTraderAmount",
            Validator.validateNumber P g.amount { min := .fin 0, required := true })] =
          some el ∧
        (TraderManager.saveEdit P w id g writeOk).view = w.view ++ es ∧
        focusedFields es = [el] ∧
        (TraderManager.saveEdit P w id g writeOk).sameData w)) := by
  constructor
  · intro h
    constructor
    · obtain ⟨el, hel, hfocus⟩ := focused_of_rejected_transaction _ _ _ _ _ _ _ _
        (rejected_has_failing P f "transDate" "transOperation" "transPay" "transReceive" h)
      refine ⟨el, _, hel, ?_, hfocus, ?_⟩
      · rw [addTransaction_rejected P w f now iso writeOk h]
        rfl
      · rw [addTransaction_rejected P w f now iso writeOk h]
        exact ⟨rfl, rfl⟩
    · obtain ⟨el, hel, hfocus⟩ := focused_of_rejected_transaction _ _ _ _ _ _ _ _
        (rejected_has_failing P f "editTransDate" "editTransOperation" "editTransPay"
          "editTransReceive" h)
      refine ⟨el, _, hel, ?_, hfocus, ?_⟩
      · rw [saveEditTransaction_rejected P w id f writeOk h]
        rfl
      · rw [saveEditTransaction_rejected P w id f writeOk h]
        exact ⟨rfl, rfl⟩
  · intro h
    constructor
    · obtain ⟨el, hel, hfocus⟩ := focused_of_rejected_trader _ _ _ _
        (trader_rejected_has_failing P g "traderName" "traderAmount" h)
      refine ⟨el, _, hel, ?_, hfocus, ?_⟩
      · rw [addTrader_rejected P w g now iso writeOk h]
        rfl
      · rw [addTrader_rejected P w g now iso writeOk h]
        exact ⟨rfl, rfl⟩
    · obtain ⟨el, hel, hfocus⟩ := focused_of_rejected_trader _ _ _ _
        (trader_rejected_has_failing P g "editTraderName" "editTraderAmount" h)
      refine ⟨el, _, hel, ?_, hfocus, ?_⟩
      · rw [saveEditTrader_rejected P w id g writeOk h]
        rfl
      · rw [saveEditTrader_rejected P w id g writeOk h]
        exact ⟨rfl, rfl⟩

/-- The focus of C21 on the sample page: a transaction form with a blank
operation and a negative pay gives the focus to the operation field, and a
trader form without an amount gives it to the amount field. -/
theorem first_failing_field_focused_witness :
    (∃ es, (TransactionManager.addTransaction Reference.platform sampleWorld twoFailuresForm
        2000 sampleIso true).view = sampleWorld.view ++ es ∧
      focusedFields es = ["transOperation"]) ∧
    (∃ es, (TraderManager.saveEdit Reference.platform sampleWorld 1003 blankAmountForm
        true).view = sampleWorld.view ++ es ∧
      focusedFields es = ["editTraderAmount"]) := by
  have h := first_failing_field_focused Reference.platform sampleWorld 1003 2000 sampleIso true
    twoFailuresForm blankAmountForm
  obtain ⟨el, es, hel, hview, hfocus, -⟩ := (h.1 (by decide)).1
  obtain ⟨el2, es2, hel2, hview2, hfocus2, -⟩ := (h.2 (by decide)).2
  have e1 : el = "transOperation" := by
    have : some el = some "transOperation" := by
      rw [← hel]
      decide
    exact Option.some.inj this
  have e2 : el2 = "editTraderAmount" := by
    have : some el2 = some "editTraderAmount" := by
      rw [← hel2]
      decide
    exact Option.some.inj this
  subst e1 e2
  exact ⟨⟨es, hview, hfocus⟩, ⟨es2, hview2, hfocus2⟩⟩

/-! ## Toggle -/

/-- The toggle of one task. -/
theorem toggledFrom_toggle (i : Nat) (t : Task) :
    toggledFrom i t (if t.id = i then { t with completed := !t.completed } else t) := by
  unfold toggledFrom
  by_cases h : t.id = i
  · simp [h]
  · simp [h]

/-- Toggling the tasks under an id twice gives the tasks back. -/
theorem toggle_map_twice (i : Nat) (l : List Task) :
    (l.map fun task : Task =>
        if task.id = i then { task with completed := !task.completed } else task).map
      (fun task : Task =>
        if task.id = i then { task with completed := !task.completed } else task) = l := by
  induction l with
  | nil => rfl
  | cons t l ih =>
    rw [List.map_cons, List.map_cons, ih]
    by_cases h : t.id = i
    · subst h
      cases t
      simp
    · simp [h]

/-- **C22.** A toggle of the id `i` relates the tasks before and after it
position by position: a task with the id `i` has its completed flag negated,
every other field of every task is as it was, and the other three collections
are untouched.  Two toggles of `i` in a row give back the original
collections, whatever the store answers to the two writes. -/
theorem toggle_is_involution (P : Platform) (w : World) (i : Nat) (writeOk1 writeOk2 : Bool) :
    List.Forall₂ (toggledFrom i) w.app.tasks (TaskManager.toggleTask P w i writeOk1).app.tasks ∧
    (TaskManager.toggleTask P w i writeOk1).app.notes = w.app.notes ∧
    (TaskManager.toggleTask P w i writeOk1).app.transactions = w.app.transactions ∧
    (TaskManager.toggleTask P w i writeOk1).app.traders = w.app.traders ∧
    (TaskManager.toggleTask P (TaskManager.toggleTask P w i writeOk1) i writeOk2).app =
      w.app := by
  refine ⟨?_, ?_, ?_, ?_, ?_⟩
  · rw [toggleTask_app]
    show List.Forall₂ (toggledFrom i) w.app.tasks (w.app.tasks.map _)
    rw [List.forall₂_map_right_iff, List.forall₂_same]
    exact fun t _ => toggledFrom_toggle i t
  · rw [toggleTask_app]
  · rw [toggleTask_app]
  · rw [toggleTask_app]
  · rw [toggleTask_app, toggleTask_app]
    show ({ w.app with tasks := (w.app.tasks.map _).map _ } : AppState) = w.app
    rw [toggle_map_twice]

/-- The toggle of C22 on the tasks A (open), B (done), C (open): toggling B
opens it and leaves A and C as they were, and toggling B again gives the three
tasks back. -/
theorem toggle_is_involution_witness :
    (TaskManager.toggleTask Reference.platform abcWorld 2 true).app.tasks.map
      Task.completed = [false, false, false] ∧
    (TaskManager.toggleTask Reference.platform
      (TaskManager.toggleTask Reference.platform abcWorld 2 true) 2 true).app.tasks =
      abcTasks :=
  ⟨by decide,
    congrArg AppState.tasks (toggle_is_involution Reference.platform abcWorld 2 true true).2.2.2.2⟩

end DailyDuty
